import Mathlib

/-!
# Script conditions of Thyme (`src/game/logic/scriptengine/scriptcondition.cpp`)

A shallow embedding of the `Condition` / `OrCondition` nodes and of the ten
functions of the translation unit, over an explicit heap.

* Objects live in three typed pools (parameters, conditions, or-conditions).
  An address is an index into its pool, `nullptr` is `none`, a released cell
  is `none` inside the pool, and a fresh object is appended at the end, so an
  address is never handed out twice.
* Dereferencing `nullptr`, indexing `m_params` outside the array and touching a
  released object are undefined behaviour in C++; here they are the results
  `Except.error` of kind `Fault`.
* Loops that follow `m_nextAndCondition` / `m_nextOr` take a fuel argument;
  running out of it is the separate fault `Fault.outOfFuel`.
* The translation unit has two preprocessor variants.  Without
  `THYME_STANDALONE` the bodies of `Set_Condition_Type` and `Parse_Data_Chunk`
  jump to fixed addresses of an external executable, for which there is no
  source; `Condition.Set_Condition_Type` and `Condition.Parse_Data_Chunk` follow
  the `#else` branches, which are the only source text of those two functions.
* The four duplication functions have one text for both variants.  They build
  their nodes with `new Condition(type)`, whose constructor ends in
  `Set_Condition_Type`; they take that expression as the argument `ctor`, so
  that they can be run with the constructor of either variant.
* The header is not part of the sources: `MAX_CONDITION_PARAMETERS` and
  `DEFAULT` are parameters, the parameter value type is a type parameter `P`,
  and the chunk reader is a record of operations.
-/

namespace Thyme

/-- Index of an object in its pool. -/
abbrev Addr := Nat

/-- The enum `ConditionType`, which the chunk parser reads as a 32-bit integer. -/
abbrev ConditionType := Int

/-- The string class used for the three scope names. -/
abbrev AsciiString := String

/-- Ways in which an execution leaves defined behaviour, and fuel exhaustion. -/
inductive Fault
  | nullDeref
  | outOfBounds
  | notLive
  | outOfFuel
  deriving DecidableEq, Repr

deriving instance DecidableEq for Except

/-- Fields of `class Condition`, in constructor order; `m_params` is the slot
array.  The in-use count `m_numParams` is an `int` in C++; the translation unit
only initialises it to 0 and compares it with slot indices, and it is a natural
number here. -/
structure Condition where
  m_conditionType : ConditionType
  m_params : List (Option Addr)
  m_numParams : Nat
  m_nextAndCondition : Option Addr
  m_hasWarnings : Bool
  m_customData : Int
  m_unkInt1 : Int
  deriving DecidableEq, Repr

/-- Fields of `class OrCondition`. -/
structure OrCondition where
  m_nextOr : Option Addr
  m_firstAnd : Option Addr
  deriving DecidableEq, Repr

/-- Ghost record of one release: which object, and for a node the chain link it
held at the moment its memory was given back; or of one call
`node->m_params[slot]->Qualify(..)` of the external method `Parameter::Qualify`. -/
inductive Event
  | param (a : Addr)
  | cond (a : Addr) (link : Option Addr)
  | orCond (a : Addr) (link : Option Addr)
  | qualify (node : Addr) (slot : Nat)
  deriving DecidableEq, Repr

/-- The three object pools and the ghost record of releases and `Qualify` calls,
oldest first. -/
structure Heap (P : Type) where
  params : List (Option P)
  conds : List (Option Condition)
  ors : List (Option OrCondition)
  log : List Event
  deriving DecidableEq, Repr

variable {P : Type}

/-- Read through a `Parameter *`. -/
def Heap.readParam (h : Heap P) : Option Addr → Except Fault P
  | none => .error .nullDeref
  | some a =>
    match h.params[a]? with
    | some (some v) => .ok v
    | _ => .error .notLive

/-- Assign through a `Parameter *`. -/
def Heap.writeParam (h : Heap P) (p : Option Addr) (v : P) : Except Fault (Heap P) :=
  match p with
  | none => .error .nullDeref
  | some a =>
    match h.params[a]? with
    | some (some _) => .ok { h with params := h.params.set a (some v) }
    | _ => .error .notLive

/-- Read the object behind a non-null `Condition *`. -/
def Heap.readCond (h : Heap P) (a : Addr) : Except Fault Condition :=
  match h.conds[a]? with
  | some (some c) => .ok c
  | _ => .error .notLive

/-- Store the fields of a live `Condition`. -/
def Heap.writeCond (h : Heap P) (a : Addr) (c : Condition) : Except Fault (Heap P) :=
  match h.conds[a]? with
  | some (some _) => .ok { h with conds := h.conds.set a (some c) }
  | _ => .error .notLive

/-- Read the object behind a non-null `OrCondition *`. -/
def Heap.readOr (h : Heap P) (a : Addr) : Except Fault OrCondition :=
  match h.ors[a]? with
  | some (some o) => .ok o
  | _ => .error .notLive

/-- Store the fields of a live `OrCondition`. -/
def Heap.writeOr (h : Heap P) (a : Addr) (o : OrCondition) : Except Fault (Heap P) :=
  match h.ors[a]? with
  | some (some _) => .ok { h with ors := h.ors.set a (some o) }
  | _ => .error .notLive

/-- Element `i` of the array `m_params`. -/
def Condition.slot (c : Condition) (i : Nat) : Except Fault (Option Addr) :=
  match c.m_params[i]? with
  | some p => .ok p
  | none => .error .outOfBounds

/-- The counted loop `for (int i = lo; i < lo + n; ++i) body(i)`. -/
def forRange {σ : Type} (body : Nat → σ → Except Fault σ) : Nat → Nat → σ → Except Fault σ
  | _, 0, s => .ok s
  | i, n + 1, s =>
    match body i s with
    | .ok s1 => forRange body (i + 1) n s1
    | .error e => .error e

/-- Modelled from the spec: `Delete_Instance` is declared in a header that is not
part of the sources.  It releases the object a pointer owns ("release node and
all it owns"); the code calls it on slots and links that may be `nullptr`, where
it does nothing.  This is the overload for a `Parameter *`. -/
def Delete_Instance_Parameter (h : Heap P) : Option Addr → Except Fault (Heap P)
  | none => .ok h
  | some a =>
    match h.params[a]? with
    | some (some _) =>
      .ok { h with params := h.params.set a none, log := h.log ++ [Event.param a] }
    | _ => .error .notLive

/-- Body shared by the two clearing loops: `Delete_Instance(m_params[i]);
m_params[i] = nullptr;`. -/
def Condition.clearSlot (this : Addr) (i : Nat) (h : Heap P) : Except Fault (Heap P) := do
  let c ← h.readCond this
  let p ← c.slot i
  let h1 ← Delete_Instance_Parameter h p
  h1.writeCond this { c with m_params := c.m_params.set i none }

/-- The function `Condition::Set_Condition_Type`, `THYME_STANDALONE` branch: clear
slots `0 .. m_numParams - 1`, then store the type.  (The bound is read once: the
body writes neither `m_numParams` nor any other node.) -/
def Condition.Set_Condition_Type (h : Heap P) (this : Addr) (type : ConditionType) :
    Except Fault (Heap P) := do
  let c ← h.readCond this
  let h1 ← forRange (Condition.clearSlot this) 0 c.m_numParams h
  let c1 ← h1.readCond this
  h1.writeCond this { c1 with m_conditionType := type }

/-- Member initialisers and `memset` common to both constructors. -/
def Condition.init (MAX_CONDITION_PARAMETERS : Nat) (type : ConditionType) : Condition :=
  { m_conditionType := type
    m_params := List.replicate MAX_CONDITION_PARAMETERS none
    m_numParams := 0
    m_nextAndCondition := none
    m_hasWarnings := false
    m_customData := 0
    m_unkInt1 := 0 }

/-- The expression `new Condition`, with the constructor `Condition::Condition()`. -/
def new_Condition_default (MAX_CONDITION_PARAMETERS : Nat) (DEFAULT : ConditionType)
    (h : Heap P) : Heap P × Addr :=
  ({ h with conds := h.conds ++ [some (Condition.init MAX_CONDITION_PARAMETERS DEFAULT)] },
    h.conds.length)

/-- The expression `new Condition(type)`, with the constructor
`Condition::Condition(ConditionType)`. -/
def new_Condition (MAX_CONDITION_PARAMETERS : Nat) (h : Heap P) (type : ConditionType) :
    Except Fault (Heap P × Addr) := do
  let this := h.conds.length
  let h0 : Heap P :=
    { h with conds := h.conds ++ [some (Condition.init MAX_CONDITION_PARAMETERS type)] }
  let h1 ← Condition.Set_Condition_Type h0 this type
  pure (h1, this)

/-- The type of the expression `new Condition(type)` as a heap operation: the new
heap and the address of the node. -/
abbrev ConditionCtor (P : Type) := Heap P → ConditionType → Except Fault (Heap P × Addr)

/-- The second loop of `Condition::~Condition`, with `del` standing for
`Delete_Instance(next)`. -/
def Condition.destructorLoop (del : Heap P → Addr → Except Fault (Heap P)) :
    Nat → Heap P → Option Addr → Except Fault (Heap P)
  | _, h, none => .ok h
  | 0, _, some _ => .error .outOfFuel
  | fuel + 1, h, some next => do
    let n ← h.readCond next
    let saved := n.m_nextAndCondition
    let h1 ← h.writeCond next { n with m_nextAndCondition := none }
    let h2 ← del h1 next
    Condition.destructorLoop del fuel h2 saved

/-- Give the memory of a `Condition` back to its pool. -/
def Heap.freeCond (h : Heap P) (a : Addr) : Except Fault (Heap P) :=
  match h.conds[a]? with
  | some (some c) =>
    .ok { h with conds := h.conds.set a none,
                 log := h.log ++ [Event.cond a c.m_nextAndCondition] }
  | _ => .error .notLive

/-- The destructor `Condition::~Condition`: release slots
`m_numParams .. MAX_CONDITION_PARAMETERS - 1`, then walk the rest of the chain. -/
def Condition.destructor (MAX_CONDITION_PARAMETERS : Nat) :
    Nat → Heap P → Addr → Except Fault (Heap P)
  | 0, _, _ => .error .outOfFuel
  | fuel + 1, h, this => do
    let c ← h.readCond this
    let h1 ← forRange (Condition.clearSlot this) c.m_numParams
      (MAX_CONDITION_PARAMETERS - c.m_numParams) h
    let c1 ← h1.readCond this
    Condition.destructorLoop
      (fun g a => do
        let g1 ← Condition.destructor MAX_CONDITION_PARAMETERS fuel g a
        g1.freeCond a)
      fuel h1 c1.m_nextAndCondition

/-- Modelled from the spec: `Delete_Instance` (absent header) for a
`Condition *`: nothing for `nullptr`, otherwise run the destructor and give the
memory back. -/
def Delete_Instance_Condition (MAX_CONDITION_PARAMETERS : Nat) (fuel : Nat) (h : Heap P) :
    Option Addr → Except Fault (Heap P)
  | none => .ok h
  | some a => do
    let h1 ← Condition.destructor MAX_CONDITION_PARAMETERS fuel h a
    h1.freeCond a

/-- The statement `*dst->m_params[i] = *src->m_params[i];`: the right operand is
read first, then the value is assigned through the slot of `dst`. -/
def Condition.copyParam (dst src : Addr) (i : Nat) (h : Heap P) : Except Fault (Heap P) := do
  let s ← h.readCond src
  let sp ← s.slot i
  let v ← h.readParam sp
  let d ← h.readCond dst
  let dp ← d.slot i
  h.writeParam dp v

/-- The chain loop of `Condition::Duplicate`; `ctor h type` is the expression
`new Condition(type)`. -/
def Condition.DuplicateLoop (ctor : ConditionCtor P) :
    Nat → Heap P → Addr → Option Addr → Except Fault (Heap P)
  | _, h, _, none => .ok h
  | 0, _, _, some _ => .error .outOfFuel
  | fuel + 1, h, new_cond, some next => do
    let n ← h.readCond next
    let (h1, new_next) ← ctor h n.m_conditionType
    let nc ← h1.readCond new_cond
    let h2 ← h1.writeCond new_cond { nc with m_nextAndCondition := some new_next }
    let n2 ← h2.readCond next
    let h3 ← forRange (Condition.copyParam new_next next) 0 n2.m_numParams h2
    let n3 ← h3.readCond next
    Condition.DuplicateLoop ctor fuel h3 new_next n3.m_nextAndCondition

/-- The function `Condition::Duplicate`; the result is the new heap and `retval`.
`ctor h type` is the expression `new Condition(type)`: it is
`new_Condition MAX_CONDITION_PARAMETERS` in the `THYME_STANDALONE` variant. -/
def Condition.Duplicate (ctor : ConditionCtor P)
    (fuel : Nat) (h : Heap P) (this : Addr) : Except Fault (Heap P × Addr) := do
  let c ← h.readCond this
  let (h1, new_cond) ← ctor h c.m_conditionType
  let c1 ← h1.readCond this
  let h2 ← forRange (Condition.copyParam new_cond this) 0 c1.m_numParams h1
  let retval := new_cond
  let c2 ← h2.readCond this
  let h3 ← Condition.DuplicateLoop ctor fuel h2 new_cond c2.m_nextAndCondition
  pure (h3, retval)

/-- The statements `*dst->m_params[i] = *src->m_params[i];
dst->m_params[i]->Qualify(str1, str2, str3);`, with `Qualify` the in-place
rewrite of `Parameter` (external) given as a function on values.  The call is
entered in the ghost record. -/
def Condition.copyParamQualify (Qualify : P → AsciiString → AsciiString → AsciiString → P)
    (str1 str2 str3 : AsciiString) (dst src : Addr) (i : Nat) (h : Heap P) :
    Except Fault (Heap P) := do
  let h1 ← Condition.copyParam dst src i h
  let d ← h1.readCond dst
  let dp ← d.slot i
  let v ← h1.readParam dp
  let h2 ← h1.writeParam dp (Qualify v str1 str2 str3)
  pure { h2 with log := h2.log ++ [Event.qualify dst i] }

/-- The chain loop of `Condition::Duplicate_And_Qualify`. -/
def Condition.Duplicate_And_QualifyLoop
    (ctor : ConditionCtor P)
    (Qualify : P → AsciiString → AsciiString → AsciiString → P)
    (str1 str2 str3 : AsciiString) :
    Nat → Heap P → Addr → Option Addr → Except Fault (Heap P)
  | _, h, _, none => .ok h
  | 0, _, _, some _ => .error .outOfFuel
  | fuel + 1, h, new_cond, some next => do
    let n ← h.readCond next
    let (h1, new_next) ← ctor h n.m_conditionType
    let nc ← h1.readCond new_cond
    let h2 ← h1.writeCond new_cond { nc with m_nextAndCondition := some new_next }
    let n2 ← h2.readCond next
    let h3 ← forRange (Condition.copyParamQualify Qualify str1 str2 str3 new_next next) 0
      n2.m_numParams h2
    let n3 ← h3.readCond next
    Condition.Duplicate_And_QualifyLoop ctor Qualify str1 str2 str3
      fuel h3 new_next n3.m_nextAndCondition

/-- The function `Condition::Duplicate_And_Qualify`. -/
def Condition.Duplicate_And_Qualify
    (ctor : ConditionCtor P)
    (Qualify : P → AsciiString → AsciiString → AsciiString → P)
    (str1 str2 str3 : AsciiString) (fuel : Nat) (h : Heap P) (this : Addr) :
    Except Fault (Heap P × Addr) := do
  let c ← h.readCond this
  let (h1, new_cond) ← ctor h c.m_conditionType
  let c1 ← h1.readCond this
  let h2 ← forRange (Condition.copyParamQualify Qualify str1 str2 str3 new_cond this) 0
    c1.m_numParams h1
  let retval := new_cond
  let c2 ← h2.readCond this
  let h3 ← Condition.Duplicate_And_QualifyLoop ctor Qualify
    str1 str2 str3 fuel h2 new_cond c2.m_nextAndCondition
  pure (h3, retval)

/-- Modelled from the spec: the constructor `OrCondition::OrCondition()` is in the
absent header.  A new node has no AND-chain ("may be absent") and no next-link;
`OrCondition::Duplicate` relies on both, since it never stores `nullptr` itself. -/
def OrCondition.init : OrCondition :=
  { m_nextOr := none, m_firstAnd := none }

/-- The expression `new OrCondition`. -/
def new_OrCondition (h : Heap P) : Heap P × Addr :=
  ({ h with ors := h.ors ++ [some OrCondition.init] }, h.ors.length)

/-- Give the memory of an `OrCondition` back to its pool. -/
def Heap.freeOr (h : Heap P) (a : Addr) : Except Fault (Heap P) :=
  match h.ors[a]? with
  | some (some o) =>
    .ok { h with ors := h.ors.set a none, log := h.log ++ [Event.orCond a o.m_nextOr] }
  | _ => .error .notLive

/-- The loop of `OrCondition::~OrCondition`, with `del` standing for
`Delete_Instance(next)`. -/
def OrCondition.destructorLoop (del : Heap P → Addr → Except Fault (Heap P)) :
    Nat → Heap P → Option Addr → Except Fault (Heap P)
  | _, h, none => .ok h
  | 0, _, some _ => .error .outOfFuel
  | fuel + 1, h, some next => do
    let n ← h.readOr next
    let saved := n.m_nextOr
    let h1 ← h.writeOr next { n with m_nextOr := none }
    let h2 ← del h1 next
    OrCondition.destructorLoop del fuel h2 saved

/-- The destructor `OrCondition::~OrCondition`; `fuelAnd` is the fuel handed to
the release of each AND-chain. -/
def OrCondition.destructor (MAX_CONDITION_PARAMETERS : Nat) (fuelAnd : Nat) :
    Nat → Heap P → Addr → Except Fault (Heap P)
  | 0, _, _ => .error .outOfFuel
  | fuel + 1, h, this => do
    let o ← h.readOr this
    let h1 ← Delete_Instance_Condition MAX_CONDITION_PARAMETERS fuelAnd h o.m_firstAnd
    let o1 ← h1.readOr this
    let h2 ← h1.writeOr this { o1 with m_firstAnd := none }
    let o2 ← h2.readOr this
    OrCondition.destructorLoop
      (fun g a => do
        let g1 ← OrCondition.destructor MAX_CONDITION_PARAMETERS fuelAnd fuel g a
        g1.freeOr a)
      fuel h2 o2.m_nextOr

/-- Modelled from the spec: `Delete_Instance` (absent header) for an
`OrCondition *`. -/
def Delete_Instance_OrCondition (MAX_CONDITION_PARAMETERS : Nat) (fuelAnd fuel : Nat)
    (h : Heap P) : Option Addr → Except Fault (Heap P)
  | none => .ok h
  | some a => do
    let h1 ← OrCondition.destructor MAX_CONDITION_PARAMETERS fuelAnd fuel h a
    h1.freeOr a

/-- The statement `if (src->m_firstAnd != nullptr) dst->m_firstAnd =
src->m_firstAnd->Duplicate();` of `OrCondition::Duplicate`. -/
def OrCondition.copyFirstAnd (ctor : ConditionCtor P) (fuelAnd : Nat)
    (dst src : Addr) (h : Heap P) : Except Fault (Heap P) := do
  let s ← h.readOr src
  match s.m_firstAnd with
  | none => pure h
  | some fa => do
    let (h1, dup) ← Condition.Duplicate ctor fuelAnd h fa
    let d ← h1.readOr dst
    h1.writeOr dst { d with m_firstAnd := some dup }

/-- The chain loop of `OrCondition::Duplicate`. -/
def OrCondition.DuplicateLoop (ctor : ConditionCtor P) (fuelAnd : Nat) :
    Nat → Heap P → Addr → Option Addr → Except Fault (Heap P)
  | _, h, _, none => .ok h
  | 0, _, _, some _ => .error .outOfFuel
  | fuel + 1, h, new_or, some next => do
    let (h1, new_next) := new_OrCondition h
    let no ← h1.readOr new_or
    let h2 ← h1.writeOr new_or { no with m_nextOr := some new_next }
    let h3 ← OrCondition.copyFirstAnd ctor fuelAnd new_next next h2
    let n ← h3.readOr next
    OrCondition.DuplicateLoop ctor fuelAnd fuel h3 new_next n.m_nextOr

/-- The function `OrCondition::Duplicate`. -/
def OrCondition.Duplicate (ctor : ConditionCtor P) (fuelAnd fuel : Nat) (h : Heap P)
    (this : Addr) : Except Fault (Heap P × Addr) := do
  let (h1, new_or) := new_OrCondition h
  let h2 ← OrCondition.copyFirstAnd ctor fuelAnd new_or this h1
  let retval := new_or
  let o ← h2.readOr this
  let h3 ← OrCondition.DuplicateLoop ctor fuelAnd fuel h2 new_or o.m_nextOr
  pure (h3, retval)

/-- The statement `if (src->m_firstAnd != nullptr) dst->m_firstAnd =
src->m_firstAnd->Duplicate_And_Qualify(str1, str2, str3);`. -/
def OrCondition.copyFirstAndQualify (ctor : ConditionCtor P)
    (Qualify : P → AsciiString → AsciiString → AsciiString → P)
    (str1 str2 str3 : AsciiString) (fuelAnd : Nat)
    (dst src : Addr) (h : Heap P) : Except Fault (Heap P) := do
  let s ← h.readOr src
  match s.m_firstAnd with
  | none => pure h
  | some fa => do
    let (h1, dup) ← Condition.Duplicate_And_Qualify ctor Qualify
      str1 str2 str3 fuelAnd h fa
    let d ← h1.readOr dst
    h1.writeOr dst { d with m_firstAnd := some dup }

/-- The chain loop of `OrCondition::Duplicate_And_Qualify`. -/
def OrCondition.Duplicate_And_QualifyLoop (ctor : ConditionCtor P)
    (Qualify : P → AsciiString → AsciiString → AsciiString → P)
    (str1 str2 str3 : AsciiString) (fuelAnd : Nat) :
    Nat → Heap P → Addr → Option Addr → Except Fault (Heap P)
  | _, h, _, none => .ok h
  | 0, _, _, some _ => .error .outOfFuel
  | fuel + 1, h, new_or, some next => do
    let (h1, new_next) := new_OrCondition h
    let no ← h1.readOr new_or
    let h2 ← h1.writeOr new_or { no with m_nextOr := some new_next }
    let h3 ← OrCondition.copyFirstAndQualify ctor Qualify str1 str2 str3
      fuelAnd new_next next h2
    let n ← h3.readOr next
    OrCondition.Duplicate_And_QualifyLoop ctor Qualify str1 str2 str3
      fuelAnd fuel h3 new_next n.m_nextOr

/-- The function `OrCondition::Duplicate_And_Qualify`. -/
def OrCondition.Duplicate_And_Qualify (ctor : ConditionCtor P)
    (Qualify : P → AsciiString → AsciiString → AsciiString → P)
    (str1 str2 str3 : AsciiString) (fuelAnd fuel : Nat) (h : Heap P) (this : Addr) :
    Except Fault (Heap P × Addr) := do
  let (h1, new_or) := new_OrCondition h
  let h2 ← OrCondition.copyFirstAndQualify ctor Qualify str1 str2 str3
    fuelAnd new_or this h1
  let retval := new_or
  let o ← h2.readOr this
  let h3 ← OrCondition.Duplicate_And_QualifyLoop ctor Qualify
    str1 str2 str3 fuelAnd fuel h2 new_or o.m_nextOr
  pure (h3, retval)

/-- The argument `DataChunkInfo *info`; only its `label` is read. -/
structure DataChunkInfo where
  label : AsciiString
  deriving DecidableEq, Repr

/-- The function pointers that can be handed to `Register_Parser`. -/
inductive DataChunkParserPtr
  | Condition_Parse_Data_Chunk
  | OrCondition_Parse_OrCondition_Chunk
  | other (id : Nat)
  deriving DecidableEq, Repr

/-- Modelled from the spec: the chunk reader `DataChunkInput` is an external
collaborator whose source is absent.  It is "capable of: reading a signed
32-bit integer primitive; registering a named sub-parser callback scoped to the
current chunk's label; dispatching parsing of a receiving object".  `R` is the
reader's state; `Parse` is handed the heap and the receiving `OrCondition`. -/
structure DataChunkInput (R : Type) (P : Type) where
  Read_Int32 : R → Int × R
  Register_Parser : R → AsciiString → AsciiString → DataChunkParserPtr → Option Addr → R
  Parse : R → Heap P → Addr → Bool × R × Heap P

/-- Modelled from the spec: `class Script` is in an absent header; it is "a
script object exposing get/set of its OrCondition chain head". -/
structure Script where
  m_conditionOr : Option Addr
  deriving DecidableEq, Repr

/-- The accessor `Script::Get_Condition`. -/
def Script.Get_Condition (s : Script) : Option Addr := s.m_conditionOr

/-- The accessor `Script::Set_Condition`. -/
def Script.Set_Condition (s : Script) (c : Option Addr) : Script :=
  { s with m_conditionOr := c }

variable {R : Type}

/-- The function `Condition::Parse_Data_Chunk`, `THYME_STANDALONE` branch.  The
arguments `info` and `data` are not used by the body. -/
def Condition.Parse_Data_Chunk (MAX_CONDITION_PARAMETERS : Nat) (DEFAULT : ConditionType)
    (rd : DataChunkInput R P) (input : R) (_info : DataChunkInfo) (_data : Option Addr)
    (h : Heap P) : Except Fault (Bool × R × Heap P) := do
  let (h1, new_condition) := new_Condition_default MAX_CONDITION_PARAMETERS DEFAULT h
  let (v, input1) := rd.Read_Int32 input
  let c ← h1.readCond new_condition
  let h2 ← h1.writeCond new_condition { c with m_conditionType := v }
  pure (false, input1, h2)

/-- The loop "find the end of the list" of `OrCondition::Parse_OrCondition_Chunk`. -/
def OrCondition.findEnd : Nat → Heap P → Option Addr → Except Fault (Option Addr)
  | _, _, none => .ok none
  | 0, _, some _ => .error .outOfFuel
  | fuel + 1, h, some script_or => do
    let o ← h.readOr script_or
    if o.m_nextOr = none then pure (some script_or)
    else OrCondition.findEnd fuel h o.m_nextOr

/-- The function `OrCondition::Parse_OrCondition_Chunk`; `data` is the script,
passed in and out by value. -/
def OrCondition.Parse_OrCondition_Chunk (rd : DataChunkInput R P) (fuel : Nat) (input : R)
    (info : DataChunkInfo) (data : Script) (h : Heap P) :
    Except Fault (Bool × R × Script × Heap P) := do
  let script := data
  let (h1, new_or) := new_OrCondition h
  let script_or ← OrCondition.findEnd fuel h1 script.Get_Condition
  let (script1, h2) ←
    match script_or with
    | some last => do
      let o ← h1.readOr last
      let g ← h1.writeOr last { o with m_nextOr := some new_or }
      pure (script, g)
    | none => pure (script.Set_Condition (some new_or), h1)
  let input1 := rd.Register_Parser input "Condition" info.label
    DataChunkParserPtr.Condition_Parse_Data_Chunk none
  let (b, input2, h3) := rd.Parse input1 h2 new_or
  pure (b, input2, script1, h3)

/-- `AndChain cs p L`: following `m_nextAndCondition` from the pointer `p` through
the pool `cs` visits exactly the live nodes of `L` (address and fields), in
order, and then reaches `nullptr`. -/
def AndChain (cs : List (Option Condition)) : Option Addr → List (Addr × Condition) → Prop
  | p, [] => p = none
  | p, (a, c) :: rest =>
    p = some a ∧ cs[a]? = some (some c) ∧ AndChain cs c.m_nextAndCondition rest

/-! ## Concrete heaps used as inputs -/

/-- One `Condition` of type 5 with one in-use parameter: slot 0 owns the live
parameter 0 (value 7), slot 1 is empty; `MAX_CONDITION_PARAMETERS` is 2. -/
def oneParamHeap : Heap Nat :=
  { params := [some 7]
    conds := [some { m_conditionType := 5, m_params := [some 0, none], m_numParams := 1,
                     m_nextAndCondition := none, m_hasWarnings := false, m_customData := 0,
                     m_unkInt1 := 0 }]
    ors := []
    log := [] }

/-! ## Chains and trees in the heap -/

/-- `OrChain os p L`: following `m_nextOr` from the pointer `p` through the pool
`os` visits exactly the live nodes of `L` (address and fields), in order, and
then reaches `nullptr`. -/
def OrChain (os : List (Option OrCondition)) : Option Addr → List (Addr × OrCondition) → Prop
  | p, [] => p = none
  | p, (a, o) :: rest => p = some a ∧ os[a]? = some (some o) ∧ OrChain os o.m_nextOr rest

/-- `OrTree h p T`: the OR-chain that starts at `p` consists of the nodes
`T.map Prod.fst`, and the second component of each entry is the AND-chain hanging
off that node (the empty list when `m_firstAnd` is `nullptr`). -/
def OrTree (h : Heap P) (p : Option Addr)
    (T : List ((Addr × OrCondition) × List (Addr × Condition))) : Prop :=
  OrChain h.ors p (T.map Prod.fst) ∧ ∀ x ∈ T, AndChain h.conds x.1.2.m_firstAnd x.2

/-- The dispatch of a reader leaves every live `OrCondition` live and does not
rewrite its `m_nextOr` (it may fill in `m_firstAnd`, and it may allocate). -/
def DataChunkInput.KeepsOrLinks (rd : DataChunkInput R P) : Prop :=
  ∀ (r : R) (h : Heap P) (recv : Addr) (a : Nat) (o : OrCondition),
    h.ors[a]? = some (some o) →
    ∃ o2, (rd.Parse r h recv).2.2.ors[a]? = some (some o2) ∧ o2.m_nextOr = o.m_nextOr

/-- A reader over a list of integers: `Read_Int32` takes the first one (0 at the
end), registration is not recorded, and the dispatch touches nothing and reports
the given flag. -/
def listReader (P : Type) (flag : Bool) : DataChunkInput (List Int) P :=
  { Read_Int32 := fun r => (r.headD 0, r.tail)
    Register_Parser := fun r _ _ _ _ => r
    Parse := fun r h _ => (flag, r, h) }

/-- The empty heap. -/
def emptyHeap (P : Type) : Heap P :=
  { params := [], conds := [], ors := [], log := [] }

/-- An OR-chain of three nodes (addresses 0, 1, 2) in which only the middle node
has an AND-chain: two `Condition`s of types 5 and 6 without in-use parameters
(`MAX_CONDITION_PARAMETERS` is 2). -/
def threeOrHeap : Heap Nat :=
  { params := []
    conds := [some { m_conditionType := 5, m_params := [none, none], m_numParams := 0,
                     m_nextAndCondition := some 1, m_hasWarnings := false, m_customData := 0,
                     m_unkInt1 := 0 },
              some { m_conditionType := 6, m_params := [none, none], m_numParams := 0,
                     m_nextAndCondition := none, m_hasWarnings := false, m_customData := 0,
                     m_unkInt1 := 0 }]
    ors := [some { m_nextOr := some 1, m_firstAnd := none },
            some { m_nextOr := some 2, m_firstAnd := some 0 },
            some { m_nextOr := none, m_firstAnd := none }]
    log := [] }

/-- The tree of `threeOrHeap` from address 0: the three OR nodes with their
AND-chains. -/
def threeOrTree : List ((Addr × OrCondition) × List (Addr × Condition)) :=
  [((0, { m_nextOr := some 1, m_firstAnd := none }), []),
   ((1, { m_nextOr := some 2, m_firstAnd := some 0 }),
     [(0, { m_conditionType := 5, m_params := [none, none], m_numParams := 0,
            m_nextAndCondition := some 1, m_hasWarnings := false, m_customData := 0,
            m_unkInt1 := 0 }),
      (1, { m_conditionType := 6, m_params := [none, none], m_numParams := 0,
            m_nextAndCondition := none, m_hasWarnings := false, m_customData := 0,
            m_unkInt1 := 0 })]),
   ((2, { m_nextOr := none, m_firstAnd := none }), [])]

/-! ## What a destructor gives back -/

/-- The non-null pointers held in slots `i .. i + n - 1` of a slot array, in slot
order. -/
def slotPointers (ps : List (Option Addr)) : Nat → Nat → List Addr
  | _, 0 => []
  | i, n + 1 =>
    (match ps[i]? with
      | some (some q) => [q]
      | _ => []) ++ slotPointers ps (i + 1) n

/-- The parameters the loop of `Condition::~Condition` visits: the pointers in
slots `m_numParams .. MAX_CONDITION_PARAMETERS - 1`. -/
def Condition.visited (MAX_CONDITION_PARAMETERS : Nat) (c : Condition) : List Addr :=
  slotPointers c.m_params c.m_numParams (MAX_CONDITION_PARAMETERS - c.m_numParams)

/-- The slot array has its declared size and the in-use count is within it. -/
def Condition.SlotsOk (MAX_CONDITION_PARAMETERS : Nat) (c : Condition) : Prop :=
  c.m_params.length = MAX_CONDITION_PARAMETERS ∧ c.m_numParams ≤ MAX_CONDITION_PARAMETERS

/-- All parameters visited by the destructors of the nodes of a chain, in chain
order. -/
def chainVisited (MAX_CONDITION_PARAMETERS : Nat) : List (Addr × Condition) → List Addr
  | [] => []
  | x :: rest =>
    Condition.visited MAX_CONDITION_PARAMETERS x.2 ++ chainVisited MAX_CONDITION_PARAMETERS rest

/-- The release record expected for the successors of a destroyed node: for each
successor in chain order its visited parameters, then the successor itself,
with no link left. -/
def successorEvents (MAX_CONDITION_PARAMETERS : Nat) : List (Addr × Condition) → List Event
  | [] => []
  | x :: rest =>
    (Condition.visited MAX_CONDITION_PARAMETERS x.2).map Event.param ++
      [Event.cond x.1 none] ++ successorEvents MAX_CONDITION_PARAMETERS rest

/-- The address of a released `Condition`, for the other releases nothing. -/
def Event.condAddr : Event → Option Addr
  | Event.cond a _ => some a
  | _ => none

/-- Two chained `Condition`s whose slots from `m_numParams` upwards hold live
parameters: the head (in-use count 0) parameter 0 in slot 0, its successor
(in-use count 1) parameter 1 in slot 1. -/
def destroyHeap : Heap Nat :=
  { params := [some 7, some 8]
    conds := [some { m_conditionType := 5, m_params := [some 0, none], m_numParams := 0,
                     m_nextAndCondition := some 1, m_hasWarnings := false, m_customData := 0,
                     m_unkInt1 := 0 },
              some { m_conditionType := 6, m_params := [none, some 1], m_numParams := 1,
                     m_nextAndCondition := none, m_hasWarnings := false, m_customData := 0,
                     m_unkInt1 := 0 }]
    ors := []
    log := [] }

/-- The head node of `destroyHeap`. -/
def destroyHead : Condition :=
  { m_conditionType := 5, m_params := [some 0, none], m_numParams := 0,
    m_nextAndCondition := some 1, m_hasWarnings := false, m_customData := 0, m_unkInt1 := 0 }

/-- The successors of the head of `destroyHeap`. -/
def destroyRest : List (Addr × Condition) :=
  [(1, { m_conditionType := 6, m_params := [none, some 1], m_numParams := 1,
         m_nextAndCondition := none, m_hasWarnings := false, m_customData := 0,
         m_unkInt1 := 0 })]

/-! ## Contents of a chain, independent of addresses -/

/-- What a `Condition` holds apart from its link: the scalar fields and, slot by
slot, the value of the parameter the slot owns (`none` for an empty slot). -/
structure NodeView (P : Type) where
  conditionType : ConditionType
  numParams : Nat
  values : List (Option P)
  hasWarnings : Bool
  customData : Int
  unkInt1 : Int

/-- The contents of the node `c` in the heap `h`. -/
def Condition.view (h : Heap P) (c : Condition) : NodeView P :=
  { conditionType := c.m_conditionType
    numParams := c.m_numParams
    values := c.m_params.map (fun p =>
      match p with
      | none => none
      | some q => (h.params[q]?).join)
    hasWarnings := c.m_hasWarnings
    customData := c.m_customData
    unkInt1 := c.m_unkInt1 }

/-- The contents of the nodes of a chain, in chain order. -/
def chainView (h : Heap P) (L : List (Addr × Condition)) : List (NodeView P) :=
  L.map (fun x => Condition.view h x.2)

/-- The pointer to the first node of a tree, `nullptr` for the empty one. -/
def treeHead (T : List ((Addr × OrCondition) × List (Addr × Condition))) : Option Addr :=
  match T with
  | [] => none
  | x :: _ => some x.1.1

/-! ## A dispatch that runs the registered condition parser -/

/-- The heap after the callback `Condition::Parse_Data_Chunk` has been invoked, one
call after the other, at each of the given reader states and chunk infos, every
time with `data` as the receiving object. -/
def runConditionParser (MAX_CONDITION_PARAMETERS : Nat) (DEFAULT : ConditionType)
    (rd : DataChunkInput R P) (data : Option Addr) :
    List (R × DataChunkInfo) → Heap P → Except Fault (Heap P)
  | [], h => .ok h
  | (input, info) :: rest, h => do
    let (_, _, h1) ← Condition.Parse_Data_Chunk MAX_CONDITION_PARAMETERS DEFAULT rd input info
      data h
    runConditionParser MAX_CONDITION_PARAMETERS DEFAULT rd data rest h1

/-- The dispatch of the reader changes the heap only by invoking the parser
`Condition::Parse_Data_Chunk` (any number of times) on the receiving object. -/
def DataChunkInput.OnlyRunsConditionParser (MAX_CONDITION_PARAMETERS : Nat)
    (DEFAULT : ConditionType) (rd : DataChunkInput R P) : Prop :=
  ∀ (r : R) (h : Heap P) (recv : Addr),
    ∃ calls : List (R × DataChunkInfo),
      runConditionParser MAX_CONDITION_PARAMETERS DEFAULT rd (some recv) calls h =
        .ok (rd.Parse r h recv).2.2

/-- A reader over a list of integers whose dispatch invokes the condition parser
once, on the reader state it is given, and reports what the parser returns
(`false`). -/
def onceReader (P : Type) (MAX_CONDITION_PARAMETERS : Nat) : DataChunkInput (List Int) P :=
  { Read_Int32 := fun r => (r.headD 0, r.tail)
    Register_Parser := fun r _ _ _ _ => r
    Parse := fun r h _ =>
      (false, r.tail,
        { h with
          conds := h.conds ++
            [some (Condition.init MAX_CONDITION_PARAMETERS (r.headD 0))] }) }

/-- The node of `oneParamHeap`. -/
def oneParamNode : Condition :=
  { m_conditionType := 5, m_params := [some 0, none], m_numParams := 1,
    m_nextAndCondition := none, m_hasWarnings := false, m_customData := 0, m_unkInt1 := 0 }

/-- A heap holding one node as `new Condition(5)` leaves it
(`MAX_CONDITION_PARAMETERS` is 2). -/
def freshNodeHeap : Heap Nat :=
  { params := [], conds := [some (Condition.init 2 5)], ors := [], log := [] }

/-! ## What the destructor of an or-condition gives back -/

/-- The release record expected for `Delete_Instance` on the head of an AND-chain
(nothing for `nullptr`): the visited parameters of the head, the successors,
then the head with the link it still holds. -/
def andChainEvents (MAX_CONDITION_PARAMETERS : Nat) : List (Addr × Condition) → List Event
  | [] => []
  | x :: rest =>
    (Condition.visited MAX_CONDITION_PARAMETERS x.2).map Event.param ++
      successorEvents MAX_CONDITION_PARAMETERS rest ++ [Event.cond x.1 x.2.m_nextAndCondition]

/-- The release record expected for the successors of a destroyed `OrCondition`:
for each successor in chain order its AND-chain, then the successor itself,
with no `m_nextOr` left. -/
def orSuccessorEvents (MAX_CONDITION_PARAMETERS : Nat) :
    List ((Addr × OrCondition) × List (Addr × Condition)) → List Event
  | [] => []
  | x :: rest =>
    andChainEvents MAX_CONDITION_PARAMETERS x.2 ++ [Event.orCond x.1.1 none] ++
      orSuccessorEvents MAX_CONDITION_PARAMETERS rest

/-- The order in which the nodes of one AND-chain are released: successors
first, then the head. -/
def releaseOrder : List (Addr × Condition) → List Addr
  | [] => []
  | x :: rest => rest.map Prod.fst ++ [x.1]

/-- The `Condition`s of a tree in the order of their release: AND-chain after
AND-chain, in OR-chain order. -/
def treeReleaseOrder : List ((Addr × OrCondition) × List (Addr × Condition)) → List Addr
  | [] => []
  | x :: rest => releaseOrder x.2 ++ treeReleaseOrder rest

/-- All `Condition`s of a tree, in chain order. -/
def treeConds : List ((Addr × OrCondition) × List (Addr × Condition)) → List Addr
  | [] => []
  | x :: rest => x.2.map Prod.fst ++ treeConds rest

/-- All parameters visited by the destructors of the `Condition`s of a tree. -/
def treeVisited (MAX_CONDITION_PARAMETERS : Nat) :
    List ((Addr × OrCondition) × List (Addr × Condition)) → List Addr
  | [] => []
  | x :: rest =>
    chainVisited MAX_CONDITION_PARAMETERS x.2 ++ treeVisited MAX_CONDITION_PARAMETERS rest

/-- The address of a released `OrCondition`, for the other releases nothing. -/
def Event.orAddr : Event → Option Addr
  | Event.orCond a _ => some a
  | _ => none

/-- Three chained `OrCondition`s over `Condition`s that own live parameters: the
head owns the two-node AND-chain of `destroyHeap`, its successor a one-node
AND-chain with parameter 2 in slot 0, the last one no AND-chain. -/
def destroyOrHeap : Heap Nat :=
  { params := [some 7, some 8, some 9]
    conds := [some destroyHead,
              some { m_conditionType := 6, m_params := [none, some 1], m_numParams := 1,
                     m_nextAndCondition := none, m_hasWarnings := false, m_customData := 0,
                     m_unkInt1 := 0 },
              some { m_conditionType := 7, m_params := [some 2, none], m_numParams := 0,
                     m_nextAndCondition := none, m_hasWarnings := false, m_customData := 0,
                     m_unkInt1 := 0 }]
    ors := [some { m_nextOr := some 1, m_firstAnd := some 0 },
            some { m_nextOr := some 2, m_firstAnd := some 2 },
            some { m_nextOr := none, m_firstAnd := none }]
    log := [] }

/-- The successors of the head of the OR-chain of `destroyOrHeap`, with their
AND-chains. -/
def destroyOrRest : List ((Addr × OrCondition) × List (Addr × Condition)) :=
  [((1, { m_nextOr := some 2, m_firstAnd := some 2 }),
     [(2, { m_conditionType := 7, m_params := [some 2, none], m_numParams := 0,
            m_nextAndCondition := none, m_hasWarnings := false, m_customData := 0,
            m_unkInt1 := 0 })]),
   ((2, { m_nextOr := none, m_firstAnd := none }), [])]

/-! ## The constructor and the parameters it provisions -/

/-- The node a constructor leaves when `Set_Condition_Type` has provisioned `k`
parameters, laid out from address `base` of the parameter pool: the in-use
count is `k`, slot `i < k` owns parameter `base + i`, the other slots are empty,
and the remaining fields are as the member initialisers set them. -/
def Condition.provisioned (MAX_CONDITION_PARAMETERS k base : Nat) (type : ConditionType) :
    Condition :=
  { Condition.init MAX_CONDITION_PARAMETERS type with
    m_params := (List.range k).map (fun i => some (base + i)) ++
      List.replicate (MAX_CONDITION_PARAMETERS - k) none
    m_numParams := k }

/-- Modelled from the spec: without `THYME_STANDALONE` the constructor
`Condition::Condition(ConditionType)` ends in a routine of the external
executable.  The spec has it "materialize the parameter slots appropriate to
type (slot count and per-slot value kind are looked up from the external type
registry; allocation of each needed Parameter instance happens here)", and the
comment in `Condition::Duplicate` reads "Parameters are allocated in
Set_Condition_Type which the ctor calls".  `Provisions MAX numParamsOf ctor`: for
every heap and every type `t` the expression `new Condition(t)` returns, the
new node owns `numParamsOf t` new parameters in its leading slots, and nothing
that existed is changed.  The values the new parameters start with are not
constrained. -/
def Provisions (MAX_CONDITION_PARAMETERS : Nat) (numParamsOf : ConditionType → Nat)
    (ctor : ConditionCtor P) : Prop :=
  ∀ (h : Heap P) (t : ConditionType),
    numParamsOf t ≤ MAX_CONDITION_PARAMETERS ∧
    ∃ init : List P, init.length = numParamsOf t ∧
      ctor h t = .ok ({ h with
        params := h.params ++ init.map some
        conds := h.conds ++
          [some (Condition.provisioned MAX_CONDITION_PARAMETERS (numParamsOf t)
            h.params.length t)] },
        h.conds.length)

/-- Modelled from the spec: a constructor over a type registry that maps a type
to its number of parameters; every new parameter starts with the value `dflt`. -/
def registryCtor (MAX_CONDITION_PARAMETERS : Nat) (numParamsOf : ConditionType → Nat)
    (dflt : P) : ConditionCtor P :=
  fun h t =>
    .ok ({ h with
      params := h.params ++ List.replicate (numParamsOf t) (some dflt)
      conds := h.conds ++
        [some (Condition.provisioned MAX_CONDITION_PARAMETERS (numParamsOf t)
          h.params.length t)] },
      h.conds.length)

/-- The node `c` is as the constructor leaves a node of its type, as far as the
duplications read it: its in-use count is the one of its type, and each in-use
slot owns a live parameter of `h`. -/
def Condition.ProvisionedIn (numParamsOf : ConditionType → Nat) (h : Heap P)
    (c : Condition) : Prop :=
  c.m_numParams = numParamsOf c.m_conditionType ∧
  ∀ i, i < c.m_numParams →
    ∃ (q : Nat) (v : P), c.m_params[i]? = some (some q) ∧ h.params[q]? = some (some v)

/-- The value of the parameter that slot `i` of the node `c` owns in the heap `h`
(`none` for an empty slot, a slot outside the array or a released parameter). -/
def Condition.value (h : Heap P) (c : Condition) (i : Nat) : Option P :=
  match c.m_params[i]? with
  | some (some q) => (h.params[q]?).join
  | _ => none

/-! ## What a duplication builds -/

/-- The link a copied node ends with: the next address when source nodes remain. -/
def nextLink (b : Nat) : List Condition → Option Addr
  | [] => none
  | _ :: _ => some b

/-- The copies of the source nodes `cs`, with their addresses: the nodes are laid
out from address `cb` of the condition pool and linked in order, their
parameters are laid out from address `pb` of the parameter pool. -/
def copiedNodes (MAX_CONDITION_PARAMETERS : Nat) : Nat → Nat → List Condition →
    List (Addr × Condition)
  | _, _, [] => []
  | cb, pb, c :: cs =>
    (cb, { Condition.provisioned MAX_CONDITION_PARAMETERS c.m_numParams pb c.m_conditionType with
           m_nextAndCondition := nextLink (cb + 1) cs }) ::
      copiedNodes MAX_CONDITION_PARAMETERS (cb + 1) (pb + c.m_numParams) cs

/-- The parameters of the copies of the source nodes `cs`, in allocation order:
for each node and each in-use slot `f` of the value the source owns in `h`. -/
def copiedValues (f : P → P) (h : Heap P) : List Condition → List (Option P)
  | [] => []
  | c :: cs =>
    (List.range c.m_numParams).map (fun i => (c.value h i).map f) ++ copiedValues f h cs

/-- The records `ev a 0, .., ev a (n - 1)`, in this order. -/
def slotEvents (ev : Addr → Nat → List Event) (a : Addr) : Nat → List Event
  | 0 => []
  | n + 1 => slotEvents ev a n ++ ev a n

/-- The records of the in-use slots of the nodes of a chain, node after node. -/
def chainEvents (ev : Addr → Nat → List Event) : List (Addr × Condition) → List Event
  | [] => []
  | y :: ys => slotEvents ev y.1 y.2.m_numParams ++ chainEvents ev ys

/-- The heap after the source nodes `cs` have been copied out of `h`: the copies
and their parameters are appended to the pools, the records of the slots to
the ghost record. -/
def copyHeap (MAX_CONDITION_PARAMETERS : Nat) (f : P → P) (ev : Addr → Nat → List Event)
    (h : Heap P) (cs : List Condition) : Heap P :=
  { h with
    params := h.params ++ copiedValues f h cs
    conds := h.conds ++
      (copiedNodes MAX_CONDITION_PARAMETERS h.conds.length h.params.length cs).map
        (fun y => some y.2)
    log := h.log ++
      chainEvents ev (copiedNodes MAX_CONDITION_PARAMETERS h.conds.length h.params.length cs) }

/-- The calls of `Parameter::Qualify` that `Condition::Duplicate_And_Qualify` is to
make for the copies `L2`: node after node in chain order, and for each node the
slots `0, 1, ..` below its in-use count, in increasing order. -/
def qualifyCalls : List (Addr × Condition) → List Event
  | [] => []
  | y :: ys => (List.range y.2.m_numParams).map (Event.qualify y.1) ++ qualifyCalls ys

/-- The loop body `body dst src i`, run where slot `i` of both nodes owns a live
parameter, assigns `f` of the source's value to the parameter of `dst`, enters
`ev dst i` in the ghost record and does nothing else. -/
def CopiesSlot (f : P → P) (ev : Addr → Nat → List Event)
    (body : Addr → Addr → Nat → Heap P → Except Fault (Heap P)) : Prop :=
  ∀ (dst src : Addr) (i : Nat) (h : Heap P) (s d : Condition) (qs qd : Nat) (v w : P),
    h.conds[src]? = some (some s) → s.m_params[i]? = some (some qs) →
    h.params[qs]? = some (some v) →
    h.conds[dst]? = some (some d) → d.m_params[i]? = some (some qd) →
    h.params[qd]? = some (some w) →
    body dst src i h =
      .ok { h with params := h.params.set qd (some (f v)), log := h.log ++ ev dst i }

/-- The common shape of the chain loops of `Condition::Duplicate` and
`Condition::Duplicate_And_Qualify`, with `body` for the statements of the inner
loop. -/
def Condition.copyLoop (ctor : ConditionCtor P)
    (body : Addr → Addr → Nat → Heap P → Except Fault (Heap P)) :
    Nat → Heap P → Addr → Option Addr → Except Fault (Heap P)
  | _, h, _, none => .ok h
  | 0, _, _, some _ => .error .outOfFuel
  | fuel + 1, h, new_cond, some next => do
    let n ← h.readCond next
    let (h1, new_next) ← ctor h n.m_conditionType
    let nc ← h1.readCond new_cond
    let h2 ← h1.writeCond new_cond { nc with m_nextAndCondition := some new_next }
    let n2 ← h2.readCond next
    let h3 ← forRange (body new_next next) 0 n2.m_numParams h2
    let n3 ← h3.readCond next
    Condition.copyLoop ctor body fuel h3 new_next n3.m_nextAndCondition

/-- The common shape of `Condition::Duplicate` and
`Condition::Duplicate_And_Qualify`. -/
def Condition.copyChain (ctor : ConditionCtor P)
    (body : Addr → Addr → Nat → Heap P → Except Fault (Heap P))
    (fuel : Nat) (h : Heap P) (this : Addr) : Except Fault (Heap P × Addr) := do
  let c ← h.readCond this
  let (h1, new_cond) ← ctor h c.m_conditionType
  let c1 ← h1.readCond this
  let h2 ← forRange (body new_cond this) 0 c1.m_numParams h1
  let retval := new_cond
  let c2 ← h2.readCond this
  let h3 ← Condition.copyLoop ctor body fuel h2 new_cond c2.m_nextAndCondition
  pure (h3, retval)

/-- The node `y` of the heap `h2` is a copy of the node `c` of the heap `h` under
the transform `f`: same type tag, same in-use count, and every in-use slot of
`y` owns a parameter that did not exist in `h` and holds `f` of the value that
the slot of `c` owns. -/
def IsCopy (f : P → P) (h : Heap P) (c : Condition) (h2 : Heap P) (y : Condition) : Prop :=
  y.m_conditionType = c.m_conditionType ∧ y.m_numParams = c.m_numParams ∧
  ∀ i, i < c.m_numParams →
    y.value h2 i = (c.value h i).map f ∧
    ∃ q2 : Nat, y.m_params[i]? = some (some q2) ∧ h.params.length ≤ q2

/-- The contents of the copies of the source nodes `cs` of the heap `h`. -/
def copyViews (MAX_CONDITION_PARAMETERS : Nat) (f : P → P) (h : Heap P)
    (cs : List Condition) : List (NodeView P) :=
  cs.map (fun c =>
    { conditionType := c.m_conditionType
      numParams := c.m_numParams
      values := (List.range c.m_numParams).map (fun i => (c.value h i).map f) ++
        List.replicate (MAX_CONDITION_PARAMETERS - c.m_numParams) none
      hasWarnings := false
      customData := 0
      unkInt1 := 0 })

/-! ## Copies of trees -/

/-- The statement `if (src->m_firstAnd != nullptr) dst->m_firstAnd = ..;` common
to `OrCondition::Duplicate` and `OrCondition::Duplicate_And_Qualify`, with `dup`
for the call that copies the AND-chain. -/
def OrCondition.copyFirstAndWith (dup : Heap P → Addr → Except Fault (Heap P × Addr))
    (dst src : Addr) (h : Heap P) : Except Fault (Heap P) := do
  let s ← h.readOr src
  match s.m_firstAnd with
  | none => pure h
  | some fa => do
    let (h1, d2) ← dup h fa
    let d ← h1.readOr dst
    h1.writeOr dst { d with m_firstAnd := some d2 }

/-- The common shape of the chain loops of `OrCondition::Duplicate` and
`OrCondition::Duplicate_And_Qualify`. -/
def OrCondition.copyOrLoop (dup : Heap P → Addr → Except Fault (Heap P × Addr)) :
    Nat → Heap P → Addr → Option Addr → Except Fault (Heap P)
  | _, h, _, none => .ok h
  | 0, _, _, some _ => .error .outOfFuel
  | fuel + 1, h, new_or, some next => do
    let (h1, new_next) := new_OrCondition h
    let no ← h1.readOr new_or
    let h2 ← h1.writeOr new_or { no with m_nextOr := some new_next }
    let h3 ← OrCondition.copyFirstAndWith dup new_next next h2
    let n ← h3.readOr next
    OrCondition.copyOrLoop dup fuel h3 new_next n.m_nextOr

/-- The common shape of `OrCondition::Duplicate` and
`OrCondition::Duplicate_And_Qualify`. -/
def OrCondition.copyOrChain (dup : Heap P → Addr → Except Fault (Heap P × Addr))
    (fuel : Nat) (h : Heap P) (this : Addr) : Except Fault (Heap P × Addr) := do
  let (h1, new_or) := new_OrCondition h
  let h2 ← OrCondition.copyFirstAndWith dup new_or this h1
  let retval := new_or
  let o ← h2.readOr this
  let h3 ← OrCondition.copyOrLoop dup fuel h2 new_or o.m_nextOr
  pure (h3, retval)

/-- The entry `y` of a tree of the heap `h2` is a copy of the entry `x` of a tree
of the heap `h`: it has an AND-chain exactly when `x` has one, and its AND-chain
consists of the copies of the nodes of the AND-chain of `x`, whose parameters
`h2` holds. -/
def IsCopyOfEntry (MAX_CONDITION_PARAMETERS : Nat) (f : P → P) (h h2 : Heap P)
    (x y : (Addr × OrCondition) × List (Addr × Condition)) : Prop :=
  (y.1.2.m_firstAnd = none ↔ x.1.2.m_firstAnd = none) ∧
  ∃ (cb pb : Nat) (pre post : List (Option P)),
    y.2 = copiedNodes MAX_CONDITION_PARAMETERS cb pb (x.2.map Prod.snd) ∧
    h2.params = pre ++ copiedValues f h (x.2.map Prod.snd) ++ post ∧
    pre.length = pb ∧ h.params.length ≤ pb

/-! ## Frame of an operation -/

/-- Every `Condition`, `OrCondition` and parameter cell of `h` is the same in
`h2`: `h2` differs from `h` at most by cells that `h` does not have. -/
def Heap.Preserves (h h2 : Heap P) : Prop :=
  (∀ (a : Nat) (c : Option Condition), h.conds[a]? = some c → h2.conds[a]? = some c) ∧
  (∀ (a : Nat) (o : Option OrCondition), h.ors[a]? = some o → h2.ors[a]? = some o) ∧
  (∀ (q : Nat) (v : Option P), h.params[q]? = some v → h2.params[q]? = some v)

/-! ## A tree whose nodes own parameters -/

/-- A type registry: type 6 has one parameter, type 7 has two, every other type
has none. -/
def typeParams : ConditionType → Nat :=
  fun t => if t = 6 then 1 else if t = 7 then 2 else 0

/-- Three chained `OrCondition`s (addresses 0, 1, 2) of which only the middle one
has an AND-chain: a `Condition` of type 6 owning parameter 0 (value 7) and a
`Condition` of type 7 owning parameters 1 and 2 (values 8 and 9), provisioned as
`typeParams` says (`MAX_CONDITION_PARAMETERS` is 2). -/
def paramHeap : Heap Nat :=
  { params := [some 7, some 8, some 9]
    conds := [some { m_conditionType := 6, m_params := [some 0, none], m_numParams := 1,
                     m_nextAndCondition := some 1, m_hasWarnings := false, m_customData := 0,
                     m_unkInt1 := 0 },
              some { m_conditionType := 7, m_params := [some 1, some 2], m_numParams := 2,
                     m_nextAndCondition := none, m_hasWarnings := false, m_customData := 0,
                     m_unkInt1 := 0 }]
    ors := [some { m_nextOr := some 1, m_firstAnd := none },
            some { m_nextOr := some 2, m_firstAnd := some 0 },
            some { m_nextOr := none, m_firstAnd := none }]
    log := [] }

/-- The AND-chain of `paramHeap` from address 0. -/
def paramChain : List (Addr × Condition) :=
  [(0, { m_conditionType := 6, m_params := [some 0, none], m_numParams := 1,
         m_nextAndCondition := some 1, m_hasWarnings := false, m_customData := 0,
         m_unkInt1 := 0 }),
   (1, { m_conditionType := 7, m_params := [some 1, some 2], m_numParams := 2,
         m_nextAndCondition := none, m_hasWarnings := false, m_customData := 0,
         m_unkInt1 := 0 })]

/-- The tree of `paramHeap` from address 0. -/
def paramTree : List ((Addr × OrCondition) × List (Addr × Condition)) :=
  [((0, { m_nextOr := some 1, m_firstAnd := none }), []),
   ((1, { m_nextOr := some 2, m_firstAnd := some 0 }), paramChain),
   ((2, { m_nextOr := none, m_firstAnd := none }), [])]

/-- A transform of parameter values for the examples: add 100. -/
def addHundred : Nat → AsciiString → AsciiString → AsciiString → Nat :=
  fun v _ _ _ => v + 100

/-- The AND-chain of `threeOrHeap` from address 0: two nodes without parameters, as
the constructor of the `THYME_STANDALONE` variant leaves them. -/
def plainChain : List (Addr × Condition) :=
  [(0, { m_conditionType := 5, m_params := [none, none], m_numParams := 0,
         m_nextAndCondition := some 1, m_hasWarnings := false, m_customData := 0,
         m_unkInt1 := 0 }),
   (1, { m_conditionType := 6, m_params := [none, none], m_numParams := 0,
         m_nextAndCondition := none, m_hasWarnings := false, m_customData := 0,
         m_unkInt1 := 0 })]

/-! ## Basic facts about the memory operations -/

theorem forRange_zero {σ : Type} (body : Nat → σ → Except Fault σ) (i : Nat) (s : σ) :
    forRange body i 0 s = .ok s := by
  cases i <;> rfl

theorem new_Condition_eq (MAX : Nat) (h : Heap P) (type : ConditionType) :
    new_Condition MAX h type =
      .ok ({ h with conds := h.conds ++ [some (Condition.init MAX type)] }, h.conds.length) := by
  simp [new_Condition, Condition.Set_Condition_Type, Heap.readCond, Heap.writeCond,
    Condition.init, forRange_zero, bind, Except.bind, pure, Except.pure]

/-! ## Lists, cells and chains -/

theorem getElem?_some_lt {α : Type} (l : List α) (a : Nat) (x : α) (h : l[a]? = some x) :
    a < l.length := by
  by_contra hge
  rw [List.getElem?_eq_none (Nat.le_of_not_lt hge)] at h
  exact absurd h (by simp)

theorem getElem?_append_length {α : Type} (pre : List α) (x : α) (xs : List α) :
    (pre ++ x :: xs)[pre.length]? = some x := by
  rw [List.getElem?_append_right (Nat.le_refl _)]
  simp

theorem set_append_length {α : Type} (pre : List α) (x y : α) (xs : List α) :
    (pre ++ x :: xs).set pre.length y = pre ++ y :: xs := by
  simp [List.set_append]

theorem getElem?_append_of_some {α : Type} (pre xs : List α) (a : Nat) (x : α)
    (h : pre[a]? = some x) : (pre ++ xs)[a]? = some x := by
  rw [List.getElem?_append_left (getElem?_some_lt _ _ _ h)]
  exact h

theorem readCond_of_get (h : Heap P) (a : Nat) (c : Condition)
    (hc : h.conds[a]? = some (some c)) : h.readCond a = .ok c := by
  simp [Heap.readCond, hc]

theorem writeCond_of_get (h : Heap P) (a : Nat) (c d : Condition)
    (hc : h.conds[a]? = some (some c)) :
    h.writeCond a d = .ok { h with conds := h.conds.set a (some d) } := by
  simp [Heap.writeCond, hc]

theorem AndChain_append (cs xs : List (Option Condition)) (p : Option Addr)
    (L : List (Addr × Condition)) (hL : AndChain cs p L) : AndChain (cs ++ xs) p L := by
  induction L generalizing p with
  | nil => exact hL
  | cons x rest ih =>
    obtain ⟨a, c⟩ := x
    obtain ⟨h1, h2, h3⟩ := hL
    exact ⟨h1, getElem?_append_of_some _ _ _ _ h2, ih _ h3⟩

/-! ## A node with an in-use parameter under the destructor -/

/-- C10 (failing input): the destructor run on a node with one in-use parameter
changes nothing: slot 0 still holds the parameter, which is still live and is
not in the release record. -/
theorem C10_destructor_skips_in_use_slot (fuel : Nat) :
    Condition.destructor 2 (fuel + 1) oneParamHeap 0 = .ok oneParamHeap := by
  cases fuel <;> rfl

/-! ## `Condition::Parse_Data_Chunk` -/

theorem OrChain_append (os xs : List (Option OrCondition)) (p : Option Addr)
    (L : List (Addr × OrCondition)) (hL : OrChain os p L) : OrChain (os ++ xs) p L := by
  induction L generalizing p with
  | nil => exact hL
  | cons x rest ih =>
    obtain ⟨a, o⟩ := x
    obtain ⟨h1, h2, h3⟩ := hL
    exact ⟨h1, getElem?_append_of_some _ _ _ _ h2, ih _ h3⟩

theorem Parse_Data_Chunk_eq (MAX : Nat) (DEFAULT : ConditionType) (rd : DataChunkInput R P)
    (input : R) (info : DataChunkInfo) (data : Option Addr) (h : Heap P) :
    Condition.Parse_Data_Chunk MAX DEFAULT rd input info data h =
      .ok (false, (rd.Read_Int32 input).2,
        { h with conds := h.conds ++ [some (Condition.init MAX (rd.Read_Int32 input).1)] }) := by
  simp only [Condition.Parse_Data_Chunk, new_Condition_default, bind, Except.bind, pure,
    Except.pure]
  rw [readCond_of_get _ h.conds.length (Condition.init MAX DEFAULT)
    (getElem?_append_length _ _ _)]
  simp only []
  rw [writeCond_of_get _ h.conds.length (Condition.init MAX DEFAULT) _
    (getElem?_append_length _ _ _)]
  simp [set_append_length, Condition.init]

/-- C8: `Condition::Parse_Data_Chunk` returns `false` for every reader state (so in
particular when the type tag it reads has no registry entry), and the tree of
the target script is the same before and after: the OR-chain, every AND-chain
hanging off it, and the parameter and or-condition pools are untouched; the one
node it allocates is linked nowhere. -/
theorem C8_Parse_Data_Chunk_fails_without_effect (MAX : Nat) (DEFAULT : ConditionType)
    (rd : DataChunkInput R P) (input : R) (info : DataChunkInfo) (data : Option Addr)
    (h : Heap P) (script : Script)
    (T : List ((Addr × OrCondition) × List (Addr × Condition)))
    (hT : OrTree h script.Get_Condition T) :
    ∃ input2 h2,
      Condition.Parse_Data_Chunk MAX DEFAULT rd input info data h = .ok (false, input2, h2) ∧
      OrTree h2 script.Get_Condition T ∧ h2.ors = h.ors ∧ h2.params = h.params ∧
      ∀ (a : Nat) (c : Option Condition), h.conds[a]? = some c → h2.conds[a]? = some c := by
  refine ⟨_, _, Parse_Data_Chunk_eq MAX DEFAULT rd input info data h, ⟨hT.1, ?_⟩, rfl, rfl, ?_⟩
  · intro x hx
    exact AndChain_append _ _ _ _ (hT.2 x hx)
  · intro a c hc
    exact getElem?_append_of_some _ _ _ _ hc

/-! ## `OrCondition::Parse_OrCondition_Chunk` -/

theorem readOr_of_get (h : Heap P) (a : Nat) (o : OrCondition)
    (ho : h.ors[a]? = some (some o)) : h.readOr a = .ok o := by
  simp [Heap.readOr, ho]

theorem writeOr_of_get (h : Heap P) (a : Nat) (o d : OrCondition)
    (ho : h.ors[a]? = some (some o)) :
    h.writeOr a d = .ok { h with ors := h.ors.set a (some d) } := by
  simp [Heap.writeOr, ho]

theorem OrChain_snoc_last (os : List (Option OrCondition)) (L : List (Addr × OrCondition))
    (z : Nat) (oz : OrCondition) :
    ∀ (p : Option Addr), OrChain os p (L ++ [(z, oz)]) →
      os[z]? = some (some oz) ∧ oz.m_nextOr = none := by
  induction L with
  | nil =>
    intro p hch
    exact ⟨hch.2.1, hch.2.2⟩
  | cons x rest ih =>
    intro p hch
    exact ih _ hch.2.2

theorem OrChain_cons_link (os : List (Option OrCondition)) (p : Option Addr)
    (x : Addr × OrCondition) (rest : List (Addr × OrCondition)) (hch : OrChain os p (x :: rest)) :
    p = some x.1 :=
  hch.1

theorem findEnd_snoc (h : Heap P) (L : List (Addr × OrCondition)) (z : Nat) (oz : OrCondition) :
    ∀ (fuel : Nat) (p : Option Addr), OrChain h.ors p (L ++ [(z, oz)]) → L.length + 1 ≤ fuel →
      OrCondition.findEnd fuel h p = .ok (some z) := by
  induction L with
  | nil =>
    intro fuel p hch hf
    obtain ⟨hp, hget, hnext⟩ := hch
    subst hp
    cases fuel with
    | zero => simp at hf
    | succ fuel =>
      have hn : oz.m_nextOr = none := hnext
      simp [OrCondition.findEnd, readOr_of_get h z oz hget, hn, bind, Except.bind, pure,
        Except.pure]
  | cons x rest ih =>
    intro fuel p hch hf
    obtain ⟨a, o⟩ := x
    obtain ⟨hp, hget, htail⟩ := hch
    subst hp
    cases fuel with
    | zero => simp at hf
    | succ fuel =>
      have hne : o.m_nextOr ≠ none := by
        cases hr : rest with
        | nil => rw [hr] at htail; rw [htail.1]; simp
        | cons y ys => rw [hr] at htail; rw [htail.1]; simp
      simp only [OrCondition.findEnd, readOr_of_get h a o hget, bind, Except.bind, hne,
        if_false]
      exact ih fuel _ htail (by simpa using hf)

theorem OrChain_snoc_link (os : List (Option OrCondition)) (n : OrCondition)
    (hn : n.m_nextOr = none) (L : List (Addr × OrCondition)) (z : Nat) (oz : OrCondition) :
    ∀ (p : Option Addr), OrChain os p (L ++ [(z, oz)]) →
      OrChain ((os ++ [some n]).set z (some { oz with m_nextOr := some os.length })) p
        (L ++ [(z, { oz with m_nextOr := some os.length }), (os.length, n)]) := by
  induction L with
  | nil =>
    intro p hch
    obtain ⟨hp, hget, _⟩ := hch
    have hz : z < os.length := getElem?_some_lt _ _ _ hget
    refine ⟨hp, ?_, rfl, ?_, hn⟩
    · rw [List.getElem?_set_self (by simp; omega)]
    · rw [List.getElem?_set_ne (Nat.ne_of_lt hz)]
      exact getElem?_append_length _ _ _
  | cons x rest ih =>
    intro p hch
    obtain ⟨a, o⟩ := x
    have hlast := OrChain_snoc_last os rest z oz _ hch.2.2
    obtain ⟨hp, hget, htail⟩ := hch
    have hne : z ≠ a := by
      intro hza
      subst hza
      rw [hlast.1] at hget
      have ho : oz = o := Option.some.inj (Option.some.inj hget)
      subst ho
      cases hr : rest with
      | nil => rw [hr] at htail; rw [hlast.2] at htail; exact absurd htail.1 (by simp)
      | cons y ys => rw [hr] at htail; rw [hlast.2] at htail; exact absurd htail.1 (by simp)
    refine ⟨hp, ?_, ih _ htail⟩
    rw [List.getElem?_set_ne hne]
    exact getElem?_append_of_some _ _ _ _ hget

theorem OrChain_of_links (os os2 : List (Option OrCondition))
    (hk : ∀ (a : Nat) (o : OrCondition), os[a]? = some (some o) →
      ∃ o2, os2[a]? = some (some o2) ∧ o2.m_nextOr = o.m_nextOr)
    (L : List (Addr × OrCondition)) :
    ∀ (p : Option Addr), OrChain os p L →
      ∃ L2, OrChain os2 p L2 ∧ L2.map Prod.fst = L.map Prod.fst := by
  induction L with
  | nil =>
    intro p hch
    exact ⟨[], hch, rfl⟩
  | cons x rest ih =>
    intro p hch
    obtain ⟨a, o⟩ := x
    obtain ⟨hp, hget, htail⟩ := hch
    obtain ⟨o2, hget2, hlink⟩ := hk a o hget
    obtain ⟨L2, hch2, hmap⟩ := ih _ htail
    refine ⟨(a, o2) :: L2, ⟨hp, hget2, ?_⟩, by simp [hmap]⟩
    rw [hlink]
    exact hch2

theorem OrChain_addr_lt (os : List (Option OrCondition)) (L : List (Addr × OrCondition)) :
    ∀ (p : Option Addr), OrChain os p L → ∀ a ∈ L.map Prod.fst, a < os.length := by
  induction L with
  | nil =>
    intro p _ a ha
    simp at ha
  | cons x rest ih =>
    intro p hch a ha
    obtain ⟨b, o⟩ := x
    rcases List.mem_cons.mp ha with hab | hmem
    · rw [hab]
      exact getElem?_some_lt _ _ _ hch.2.1
    · exact ih _ hch.2.2 a hmem

/-- The state in which `Parse_OrCondition_Chunk` enters the reader's dispatch: the
script's chain is the old one followed by the new node, and the call returns
what the dispatch returns on that state. -/
theorem Parse_OrCondition_Chunk_link (rd : DataChunkInput R P) (fuel : Nat) (input : R)
    (info : DataChunkInfo) (data : Script) (h : Heap P) (L : List (Addr × OrCondition))
    (hch : OrChain h.ors data.Get_Condition L) (hf : L.length ≤ fuel) :
    ∃ (h2 : Heap P) (s2 : Script) (L2 : List (Addr × OrCondition)),
      OrChain h2.ors s2.Get_Condition L2 ∧
      L2.map Prod.fst = L.map Prod.fst ++ [h.ors.length] ∧
      OrCondition.Parse_OrCondition_Chunk rd fuel input info data h =
        .ok ((rd.Parse (rd.Register_Parser input "Condition" info.label
                DataChunkParserPtr.Condition_Parse_Data_Chunk none) h2 h.ors.length).1,
             (rd.Parse (rd.Register_Parser input "Condition" info.label
                DataChunkParserPtr.Condition_Parse_Data_Chunk none) h2 h.ors.length).2.1,
             s2,
             (rd.Parse (rd.Register_Parser input "Condition" info.label
                DataChunkParserPtr.Condition_Parse_Data_Chunk none) h2 h.ors.length).2.2) := by
  rcases List.eq_nil_or_concat L with hnil | ⟨L0, x, hx⟩
  on_goal 2 => rw [List.concat_eq_append] at hx
  · subst hnil
    have hp : data.Get_Condition = none := hch
    refine ⟨{ h with ors := h.ors ++ [some OrCondition.init] },
      data.Set_Condition (some h.ors.length),
      [(h.ors.length, OrCondition.init)], ?_, by simp, ?_⟩
    · exact ⟨rfl, getElem?_append_length _ _ _, rfl⟩
    · have hfe : ∀ g : Heap P, OrCondition.findEnd fuel g none = .ok none := by
        intro g; cases fuel <;> rfl
      simp only [OrCondition.Parse_OrCondition_Chunk, new_OrCondition, hp, hfe, bind,
        Except.bind, pure, Except.pure]
  · subst hx
    obtain ⟨z, oz⟩ := x
    have hch1 : OrChain (h.ors ++ [some OrCondition.init])
        data.Get_Condition (L0 ++ [(z, oz)]) := OrChain_append _ _ _ _ hch
    have hlast := OrChain_snoc_last _ L0 z oz _ hch1
    refine ⟨{ h with
        ors := (h.ors ++ [some OrCondition.init]).set z
          (some { oz with m_nextOr := some h.ors.length }) }, data,
      L0 ++ [(z, { oz with m_nextOr := some h.ors.length }),
        (h.ors.length, OrCondition.init)], ?_, by simp, ?_⟩
    · exact OrChain_snoc_link h.ors _ rfl L0 z oz _ hch
    · have hfe := findEnd_snoc
        ({ h with ors := h.ors ++ [some OrCondition.init] } : Heap P)
        L0 z oz fuel data.Get_Condition hch1 (by simpa using hf)
      simp only [OrCondition.Parse_OrCondition_Chunk, new_OrCondition, hfe, bind,
        Except.bind, pure, Except.pure]
      rw [readOr_of_get _ z oz hlast.1]
      simp only []
      rw [writeOr_of_get _ z oz _ hlast.1]

/-- With a dispatch that keeps the `m_nextOr` links, the call returns and the
script's chain is the old one, in order, followed by the node allocated by the
call. -/
theorem Parse_OrCondition_Chunk_chain (rd : DataChunkInput R P) (hk : rd.KeepsOrLinks)
    (fuel : Nat) (input : R) (info : DataChunkInfo) (data : Script) (h : Heap P)
    (L : List (Addr × OrCondition))
    (hch : OrChain h.ors data.Get_Condition L) (hf : L.length ≤ fuel) :
    ∃ (b : Bool) (input2 : R) (s2 : Script) (h2 : Heap P) (L2 : List (Addr × OrCondition)),
      OrCondition.Parse_OrCondition_Chunk rd fuel input info data h =
        .ok (b, input2, s2, h2) ∧
      OrChain h2.ors s2.Get_Condition L2 ∧
      L2.map Prod.fst = L.map Prod.fst ++ [h.ors.length] ∧
      h.ors.length ∉ L.map Prod.fst := by
  obtain ⟨g, s2, L1, hch1, hmap1, heq⟩ :=
    Parse_OrCondition_Chunk_link rd fuel input info data h L hch hf
  obtain ⟨L2, hch2, hmap2⟩ := OrChain_of_links g.ors _ (hk _ g h.ors.length) L1 _ hch1
  refine ⟨_, _, s2, _, L2, heq, hch2, by rw [hmap2, hmap1], ?_⟩
  intro hmem
  exact Nat.lt_irrefl _ (OrChain_addr_lt h.ors L _ hch _ hmem)

/-- C6: for a script whose OR-chain is the finite list `L` (possibly empty),
`OrCondition::Parse_OrCondition_Chunk` returns with the script's OR-chain equal
to the nodes of `L`, in their order, followed by exactly one node, the one it
allocated (address `h.ors.length`, which is none of the old nodes): the head of
the script if `L` is empty, the `m_nextOr` of the last node otherwise.  The
reader's dispatch is only assumed not to rewrite `m_nextOr` links.  Consequently
two calls against a script with no chain give the two-node chain of the two new
nodes in call order. -/
theorem C6_Parse_OrCondition_Chunk_appends (rd : DataChunkInput R P)
    (hk : rd.KeepsOrLinks) :
    (∀ (fuel : Nat) (input : R) (info : DataChunkInfo) (data : Script) (h : Heap P)
        (L : List (Addr × OrCondition)),
        OrChain h.ors data.Get_Condition L → L.length ≤ fuel →
        ∃ (b : Bool) (input2 : R) (s2 : Script) (h2 : Heap P) (L2 : List (Addr × OrCondition)),
          OrCondition.Parse_OrCondition_Chunk rd fuel input info data h =
            .ok (b, input2, s2, h2) ∧
          OrChain h2.ors s2.Get_Condition L2 ∧
          L2.map Prod.fst = L.map Prod.fst ++ [h.ors.length] ∧
          h.ors.length ∉ L.map Prod.fst) ∧
    (∀ (fuel fuel2 : Nat) (input : R) (info info2 : DataChunkInfo) (data : Script) (h : Heap P),
        data.Get_Condition = none → 1 ≤ fuel2 →
        ∃ (b : Bool) (input2 : R) (s2 : Script) (h2 : Heap P),
          OrCondition.Parse_OrCondition_Chunk rd fuel input info data h =
            .ok (b, input2, s2, h2) ∧
          ∀ (input3 : R), ∃ (b2 : Bool) (input4 : R) (s4 : Script) (h4 : Heap P)
              (o1 o2 : OrCondition),
            OrCondition.Parse_OrCondition_Chunk rd fuel2 input3 info2 s2 h2 =
              .ok (b2, input4, s4, h4) ∧
            OrChain h4.ors s4.Get_Condition [(h.ors.length, o1), (h2.ors.length, o2)]) := by
  refine ⟨Parse_OrCondition_Chunk_chain rd hk, ?_⟩
  intro fuel fuel2 input info info2 data h hnone hf2
  obtain ⟨b, input2, s2, h2, L2, heq, hch2, hmap2, _⟩ :=
    Parse_OrCondition_Chunk_chain rd hk fuel input info data h [] hnone (Nat.zero_le _)
  refine ⟨b, input2, s2, h2, heq, ?_⟩
  intro input3
  have hlen : L2.length ≤ fuel2 := by
    have := congrArg List.length hmap2
    simp at this
    omega
  obtain ⟨b2, input4, s4, h4, L4, heq4, hch4, hmap4, _⟩ :=
    Parse_OrCondition_Chunk_chain rd hk fuel2 input3 info2 s2 h2 L2 hch2 hlen
  rw [hmap2] at hmap4
  simp only [List.map_nil, List.nil_append, List.singleton_append] at hmap4
  match L4, hmap4, hch4 with
  | [(a1, o1), (a2, o2)], hm, hc =>
    simp at hm
    obtain ⟨h1, h2e⟩ := hm
    subst h1; subst h2e
    exact ⟨b2, input4, s4, h4, o1, o2, heq4, hc⟩

theorem listReader_KeepsOrLinks (flag : Bool) : (listReader P flag).KeepsOrLinks := by
  intro r h recv a o ho
  exact ⟨o, ho, rfl⟩

/-- C6 (instance): a script whose chain is the two nodes of `threeOrHeap` from
address 1 on gets the new node, address 3, appended after them. -/
theorem C6_Parse_OrCondition_Chunk_appends_witness :
    (listReader Nat true).KeepsOrLinks ∧
      OrChain threeOrHeap.ors (Script.Get_Condition { m_conditionOr := some 1 })
        [(1, { m_nextOr := some 2, m_firstAnd := some 0 }),
         (2, { m_nextOr := none, m_firstAnd := none })] ∧
      ∃ (b : Bool) (input2 : List Int) (s2 : Script) (h2 : Heap Nat)
          (L2 : List (Addr × OrCondition)),
        OrCondition.Parse_OrCondition_Chunk (listReader Nat true) 2 [] { label := "OrCondition" }
            { m_conditionOr := some 1 } threeOrHeap = .ok (b, input2, s2, h2) ∧
          OrChain h2.ors s2.Get_Condition L2 ∧
          L2.map Prod.fst = [1, 2] ++ [3] ∧
          3 ∉ [1, 2] :=
  ⟨listReader_KeepsOrLinks true, ⟨rfl, rfl, rfl, rfl, rfl⟩,
    (C6_Parse_OrCondition_Chunk_appends (listReader Nat true) (listReader_KeepsOrLinks true)).1
      2 [] { label := "OrCondition" } { m_conditionOr := some 1 } threeOrHeap
      [(1, { m_nextOr := some 2, m_firstAnd := some 0 }),
       (2, { m_nextOr := none, m_firstAnd := none })]
      ⟨rfl, rfl, rfl, rfl, rfl⟩ (Nat.le_refl _)⟩

/-- C7 (counterexample): with a dispatch that fails, the call on a script without
a chain returns `false`, and afterwards the script has a one-node chain: the new
node stays linked as the head, so the chain is not the one before the call. -/
theorem C7_failed_parse_leaves_node :
    OrChain (emptyHeap Nat).ors (Script.Get_Condition { m_conditionOr := none }) [] ∧
      OrCondition.Parse_OrCondition_Chunk (listReader Nat false) 0 [] { label := "OrCondition" }
        { m_conditionOr := none } (emptyHeap Nat) =
      .ok (false, [], { m_conditionOr := some 0 },
        { params := [], conds := [], ors := [some OrCondition.init], log := [] }) ∧
      OrChain [some OrCondition.init] (Script.Get_Condition { m_conditionOr := some 0 })
        [(0, OrCondition.init)] ∧
      ¬ OrChain [some OrCondition.init] (Script.Get_Condition { m_conditionOr := some 0 }) [] :=
  ⟨rfl, rfl, ⟨rfl, rfl, rfl⟩, fun hc => absurd hc (by simp [OrChain, Script.Get_Condition])⟩

/-- C7 (amended): a failed OrCondition chunk parse leaves its node on the script.
If `OrCondition::Parse_OrCondition_Chunk` returns `false`, the script's OR-chain
after the call is its OR-chain before the call followed by the newly allocated
node (for a dispatch that does not rewrite `m_nextOr` links). -/
theorem C7_failed_parse_keeps_new_node (rd : DataChunkInput R P) (hk : rd.KeepsOrLinks)
    (fuel : Nat) (input : R) (info : DataChunkInfo) (data : Script) (h : Heap P)
    (L : List (Addr × OrCondition))
    (hch : OrChain h.ors data.Get_Condition L) (hf : L.length ≤ fuel)
    (input2 : R) (s2 : Script) (h2 : Heap P)
    (hret : OrCondition.Parse_OrCondition_Chunk rd fuel input info data h =
      .ok (false, input2, s2, h2)) :
    ∃ L2, OrChain h2.ors s2.Get_Condition L2 ∧
      L2.map Prod.fst = L.map Prod.fst ++ [h.ors.length] := by
  obtain ⟨b, i2, t2, g2, L2, heq, hch2, hmap2, _⟩ :=
    Parse_OrCondition_Chunk_chain rd hk fuel input info data h L hch hf
  rw [heq] at hret
  have hinj := Except.ok.inj hret
  simp only [Prod.mk.injEq] at hinj
  obtain ⟨_, _, hs, hg⟩ := hinj
  subst hs; subst hg
  exact ⟨L2, hch2, hmap2⟩

/-- C7 (instance): the failing call of the counterexample, on the empty chain. -/
theorem C7_failed_parse_keeps_new_node_witness :
    (listReader Nat false).KeepsOrLinks ∧
      OrChain (emptyHeap Nat).ors (Script.Get_Condition { m_conditionOr := none }) [] ∧
      OrCondition.Parse_OrCondition_Chunk (listReader Nat false) 0 [] { label := "OrCondition" }
        { m_conditionOr := none } (emptyHeap Nat) =
      .ok (false, [], { m_conditionOr := some 0 },
        { params := [], conds := [], ors := [some OrCondition.init], log := [] }) ∧
      ∃ L2, OrChain [some OrCondition.init] (some 0) L2 ∧ L2.map Prod.fst = [] ++ [0] :=
  ⟨listReader_KeepsOrLinks false, rfl, rfl,
    C7_failed_parse_keeps_new_node (listReader Nat false) (listReader_KeepsOrLinks false)
      0 [] { label := "OrCondition" } { m_conditionOr := none } (emptyHeap Nat) [] rfl
      (Nat.le_refl _) [] { m_conditionOr := some 0 }
      { params := [], conds := [], ors := [some OrCondition.init], log := [] } rfl⟩

theorem threeOrTree_ok :
    OrTree threeOrHeap (Script.Get_Condition { m_conditionOr := some 0 }) threeOrTree := by
  refine ⟨⟨rfl, rfl, rfl, rfl, rfl, rfl, rfl⟩, ?_⟩
  intro x hx
  simp only [threeOrTree, List.mem_cons, List.mem_singleton, List.not_mem_nil, or_false] at hx
  rcases hx with rfl | rfl | rfl
  · exact rfl
  · exact ⟨rfl, rfl, rfl, rfl, rfl⟩
  · exact rfl

/-- C8 (instance): the parser run against the tree of `threeOrHeap`, with the
integer 99 next in the stream. -/
theorem C8_Parse_Data_Chunk_fails_without_effect_witness :
    OrTree threeOrHeap (Script.Get_Condition { m_conditionOr := some 0 }) threeOrTree ∧
      ∃ (input2 : List Int) (h2 : Heap Nat),
        Condition.Parse_Data_Chunk 2 0 (listReader Nat true) [99] { label := "Condition" }
          (some 2) threeOrHeap = .ok (false, input2, h2) ∧
        OrTree h2 (Script.Get_Condition { m_conditionOr := some 0 }) threeOrTree ∧
        h2.ors = threeOrHeap.ors ∧ h2.params = threeOrHeap.params ∧
        ∀ (a : Nat) (c : Option Condition),
          threeOrHeap.conds[a]? = some c → h2.conds[a]? = some c :=
  ⟨threeOrTree_ok,
    C8_Parse_Data_Chunk_fails_without_effect 2 0 (listReader Nat true) [99]
      { label := "Condition" } (some 2) threeOrHeap { m_conditionOr := some 0 } threeOrTree
      threeOrTree_ok⟩

/-! ## The destructor `Condition::~Condition` -/

theorem set_of_getElem? {α : Type} (l : List α) (a : Nat) (x : α) (h : l[a]? = some x) :
    l.set a x = l := by
  induction l generalizing a with
  | nil => rfl
  | cons y ys ih =>
    cases a with
    | zero =>
      simp at h
      simp [h]
    | succ a =>
      simp at h
      simp [ih a h]

theorem getElem?_set_same {α : Type} (l : List α) (a : Nat) (x y : α) (h : l[a]? = some x) :
    (l.set a y)[a]? = some y := by
  rw [List.getElem?_set_self (getElem?_some_lt _ _ _ h)]

theorem slotPointers_set (ps : List (Option Addr)) (i : Nat) (x : Option Addr) (n : Nat) :
    ∀ (j : Nat), i < j → slotPointers (ps.set i x) j n = slotPointers ps j n := by
  induction n with
  | zero =>
    intro j _
    rfl
  | succ n ih =>
    intro j hj
    simp only [slotPointers]
    rw [List.getElem?_set_ne (Nat.ne_of_lt hj), ih (j + 1) (Nat.lt_succ_of_lt hj)]

/-- The clearing loop over slots `i0 .. i0 + n - 1` of node `a`, when the pointers
there are distinct and live: it returns, the parameters are released in slot
order, and of the node only the slot array changes. -/
theorem forRange_clearSlot (a : Nat) (n : Nat) :
    ∀ (i0 : Nat) (h : Heap P) (c : Condition),
      h.conds[a]? = some (some c) →
      i0 + n ≤ c.m_params.length →
      (slotPointers c.m_params i0 n).Nodup →
      (∀ q ∈ slotPointers c.m_params i0 n, ∃ v, h.params[q]? = some (some v)) →
      ∃ (h2 : Heap P) (ps : List (Option Addr)),
        forRange (Condition.clearSlot a) i0 n h = .ok h2 ∧
        h2.conds = h.conds.set a (some { c with m_params := ps }) ∧
        h2.ors = h.ors ∧
        h2.log = h.log ++ (slotPointers c.m_params i0 n).map Event.param ∧
        (∀ (q : Nat), h2.params[q]? =
          if q ∈ slotPointers c.m_params i0 n then some none else h.params[q]?) := by
  induction n with
  | zero =>
    intro i0 h c hc _ _ _
    refine ⟨h, c.m_params, forRange_zero _ _ _, ?_, rfl, by simp [slotPointers], ?_⟩
    · exact (set_of_getElem? _ _ _ hc).symm
    · intro q
      simp [slotPointers]
  | succ n ih =>
    intro i0 h c hc hlen hnd hlive
    have hi : i0 < c.m_params.length := by omega
    obtain ⟨p, hp⟩ : ∃ p, c.m_params[i0]? = some p := ⟨_, List.getElem?_eq_getElem hi⟩
    have hslot : c.slot i0 = .ok p := by simp [Condition.slot, hp]
    have hps : slotPointers (c.m_params.set i0 none) (i0 + 1) n =
        slotPointers c.m_params (i0 + 1) n :=
      slotPointers_set _ _ _ _ _ (Nat.lt_succ_self _)
    cases p with
    | none =>
      have hsp : slotPointers c.m_params i0 (n + 1) = slotPointers c.m_params (i0 + 1) n := by
        simp [slotPointers, hp]
      rw [hsp] at hnd hlive
      have hstep : Condition.clearSlot a i0 h =
          .ok { h with conds :=
            h.conds.set a (some { c with m_params := c.m_params.set i0 none }) } := by
        simp only [Condition.clearSlot, bind, Except.bind, readCond_of_get h a c hc, hslot,
          Delete_Instance_Parameter]
        rw [writeCond_of_get h a c _ hc]
      obtain ⟨h2, ps, hrun, hconds, hors, hlog, hpar⟩ := ih (i0 + 1)
        ({ h with conds :=
            h.conds.set a (some { c with m_params := c.m_params.set i0 none }) } : Heap P)
        { c with m_params := c.m_params.set i0 none }
        (getElem?_set_same _ _ _ _ hc) (by simp; omega) (by rw [hps]; exact hnd)
        (by rw [hps]; exact hlive)
      refine ⟨h2, ps, ?_, ?_, hors, ?_, ?_⟩
      · simp only [forRange, hstep]
        exact hrun
      · rw [hconds]
        simp [List.set_set]
      · rw [hlog, hps, hsp]
      · intro q
        rw [hpar q, hps, hsp]
    | some q0 =>
      have hsp : slotPointers c.m_params i0 (n + 1) =
          q0 :: slotPointers c.m_params (i0 + 1) n := by
        simp [slotPointers, hp]
      rw [hsp] at hnd hlive
      obtain ⟨v0, hv0⟩ := hlive q0 (List.mem_cons_self _ _)
      have hstep : Condition.clearSlot a i0 h =
          .ok { h with
            params := h.params.set q0 none
            conds := h.conds.set a (some { c with m_params := c.m_params.set i0 none })
            log := h.log ++ [Event.param q0] } := by
        simp only [Condition.clearSlot, bind, Except.bind, readCond_of_get h a c hc, hslot,
          Delete_Instance_Parameter, hv0]
        simp [Heap.writeCond, hc]
      obtain ⟨h2, ps, hrun, hconds, hors, hlog, hpar⟩ := ih (i0 + 1)
        ({ h with
            params := h.params.set q0 none
            conds := h.conds.set a (some { c with m_params := c.m_params.set i0 none })
            log := h.log ++ [Event.param q0] } : Heap P)
        { c with m_params := c.m_params.set i0 none }
        (getElem?_set_same _ _ _ _ hc) (by simp; omega)
        (by rw [hps]; exact (List.nodup_cons.mp hnd).2)
        (by
          rw [hps]
          intro q hq
          obtain ⟨v, hv⟩ := hlive q (List.mem_cons_of_mem _ hq)
          refine ⟨v, ?_⟩
          have hne : q0 ≠ q := by
            intro he
            subst he
            exact (List.nodup_cons.mp hnd).1 hq
          show (h.params.set q0 none)[q]? = _
          rw [List.getElem?_set_ne hne]
          exact hv)
      refine ⟨h2, ps, ?_, ?_, hors, ?_, ?_⟩
      · simp only [forRange, hstep]
        exact hrun
      · rw [hconds]
        simp [List.set_set]
      · rw [hlog, hps, hsp]
        simp
      · intro q
        rw [hpar q, hps, hsp]
        by_cases hq : q ∈ slotPointers c.m_params (i0 + 1) n
        · simp [hq]
        · by_cases hq0 : q = q0
          · subst hq0
            simp [hq]
            exact getElem?_set_same _ _ _ _ hv0
          · simp only [hq, if_false, List.mem_cons, hq0, or_self]
            show (h.params.set q0 none)[q]? = _
            rw [List.getElem?_set_ne (fun he => hq0 he.symm)]

theorem freeCond_of_get (h : Heap P) (a : Nat) (c : Condition)
    (hc : h.conds[a]? = some (some c)) :
    h.freeCond a = .ok { h with conds := h.conds.set a none,
                                 log := h.log ++ [Event.cond a c.m_nextAndCondition] } := by
  simp [Heap.freeCond, hc]

theorem destructorLoop_none (del : Heap P → Addr → Except Fault (Heap P)) (fuel : Nat)
    (h : Heap P) : Condition.destructorLoop del fuel h none = .ok h := by
  cases fuel <;> rfl

/-- Releasing a node whose next-link is `nullptr` releases its visited parameters
and then the node, and no other node. -/
theorem Delete_Instance_Condition_detached (MAX fuel : Nat) (h : Heap P) (a : Nat)
    (c : Condition) (hc : h.conds[a]? = some (some c)) (hn : c.m_nextAndCondition = none)
    (hs : c.SlotsOk MAX) (hnd : (c.visited MAX).Nodup)
    (hlive : ∀ q ∈ c.visited MAX, ∃ v, h.params[q]? = some (some v)) :
    ∃ h2 : Heap P,
      (Condition.destructor MAX (fuel + 1) h a).bind (fun g => g.freeCond a) = .ok h2 ∧
      h2.conds = h.conds.set a none ∧
      h2.ors = h.ors ∧
      h2.log = h.log ++ (c.visited MAX).map Event.param ++ [Event.cond a none] ∧
      (∀ (q : Nat), h2.params[q]? = if q ∈ c.visited MAX then some none else h.params[q]?) := by
  obtain ⟨h1, ps, hrun, hconds, hors, hlog, hpar⟩ :=
    forRange_clearSlot a (MAX - c.m_numParams) c.m_numParams h c hc
      (by have := hs.1; have := hs.2; omega) hnd hlive
  have hc1 : h1.conds[a]? = some (some { c with m_params := ps }) := by
    rw [hconds]
    exact getElem?_set_same _ _ _ _ hc
  refine ⟨{ h1 with conds := h1.conds.set a none,
                    log := h1.log ++ [Event.cond a none] }, ?_, ?_, hors, ?_, hpar⟩
  · simp only [Condition.destructor, bind, Except.bind, readCond_of_get h a c hc, hrun,
      readCond_of_get h1 a _ hc1, hn, destructorLoop_none]
    rw [freeCond_of_get h1 a _ hc1]
    simp only [hn]
  · show h1.conds.set a none = _
    rw [hconds]
    simp [List.set_set]
  · show h1.log ++ _ = _
    rw [hlog]
    rfl

theorem AndChain_det (cs : List (Option Condition)) (L1 : List (Addr × Condition)) :
    ∀ (p : Option Addr) (L2 : List (Addr × Condition)),
      AndChain cs p L1 → AndChain cs p L2 → L1 = L2 := by
  induction L1 with
  | nil =>
    intro p L2 h1 h2
    cases L2 with
    | nil => rfl
    | cons y ys =>
      have e1 : p = none := h1
      have e2 : p = some y.1 := h2.1
      rw [e1] at e2
      exact absurd e2 (by simp)
  | cons x xs ih =>
    intro p L2 h1 h2
    obtain ⟨a, c⟩ := x
    cases L2 with
    | nil =>
      have e1 : p = none := h2
      have e2 : p = some a := h1.1
      rw [e1] at e2
      exact absurd e2 (by simp)
    | cons y ys =>
      obtain ⟨b, d⟩ := y
      obtain ⟨hp1, hg1, ht1⟩ := h1
      obtain ⟨hp2, hg2, ht2⟩ := h2
      have hab : a = b := Option.some.inj (hp1.symm.trans hp2)
      subst hab
      have hcd : c = d := Option.some.inj (Option.some.inj (hg1.symm.trans hg2))
      subst hcd
      rw [ih _ ys ht1 ht2]

theorem AndChain_shorter (cs : List (Option Condition)) (a : Nat) (c : Condition)
    (hc : cs[a]? = some (some c)) (L : List (Addr × Condition)) :
    ∀ (p : Option Addr), AndChain cs p L → a ∈ L.map Prod.fst →
      ∃ L2, AndChain cs c.m_nextAndCondition L2 ∧ L2.length < L.length := by
  induction L with
  | nil =>
    intro p _ hm
    simp at hm
  | cons x xs ih =>
    intro p hch hm
    obtain ⟨b, d⟩ := x
    obtain ⟨_, hg, ht⟩ := hch
    by_cases hab : a = b
    · subst hab
      have hcd : d = c := Option.some.inj (Option.some.inj (hg.symm.trans hc))
      subst hcd
      exact ⟨xs, ht, Nat.lt_succ_self _⟩
    · have hm2 : a ∈ xs.map Prod.fst := by
        rcases List.mem_cons.mp hm with h1 | h1
        · exact absurd h1 hab
        · exact h1
      obtain ⟨L2, h2, hl⟩ := ih _ ht hm2
      exact ⟨L2, h2, Nat.lt_succ_of_lt hl⟩

theorem AndChain_head_not_mem (cs : List (Option Condition)) (p : Option Addr) (a : Nat)
    (c : Condition) (rest : List (Addr × Condition)) (hch : AndChain cs p ((a, c) :: rest)) :
    a ∉ rest.map Prod.fst := by
  intro hm
  obtain ⟨L2, h2, hl⟩ := AndChain_shorter cs a c hch.2.1 rest _ hch.2.2 hm
  have := AndChain_det cs L2 _ rest h2 hch.2.2
  rw [this] at hl
  exact Nat.lt_irrefl _ hl

/-- The nodes of a finite null-terminated chain are pairwise distinct. -/
theorem AndChain_nodup (cs : List (Option Condition)) (L : List (Addr × Condition)) :
    ∀ (p : Option Addr), AndChain cs p L → (L.map Prod.fst).Nodup := by
  induction L with
  | nil =>
    intro p _
    exact List.nodup_nil
  | cons x xs ih =>
    intro p hch
    obtain ⟨a, c⟩ := x
    exact List.nodup_cons.mpr ⟨AndChain_head_not_mem cs p a c xs hch, ih _ hch.2.2⟩

theorem AndChain_set (cs : List (Option Condition)) (a : Nat) (x : Option Condition)
    (L : List (Addr × Condition)) :
    ∀ (p : Option Addr), AndChain cs p L → a ∉ L.map Prod.fst → AndChain (cs.set a x) p L := by
  induction L with
  | nil =>
    intro p hch _
    exact hch
  | cons y ys ih =>
    intro p hch hm
    obtain ⟨b, d⟩ := y
    obtain ⟨hp, hg, ht⟩ := hch
    have hab : a ≠ b := fun he => hm (by simp [he])
    have hm2 : a ∉ ys.map Prod.fst := fun he => hm (List.mem_cons_of_mem _ he)
    refine ⟨hp, ?_, ih _ ht hm2⟩
    rw [List.getElem?_set_ne hab]
    exact hg

/-- The second loop of the destructor over a chain: every node is detached, then
released together with its visited parameters, in chain order. -/
theorem destructorLoop_chain (MAX k : Nat) (del : Heap P → Addr → Except Fault (Heap P))
    (hdel : ∀ (g : Heap P) (a : Addr),
      del g a = (Condition.destructor MAX (k + 1) g a).bind (fun g1 => g1.freeCond a))
    (rest : List (Addr × Condition)) :
    ∀ (fl : Nat) (g : Heap P) (p : Option Addr),
      AndChain g.conds p rest →
      (∀ x ∈ rest, x.2.SlotsOk MAX) →
      (chainVisited MAX rest).Nodup →
      (∀ q ∈ chainVisited MAX rest, ∃ v, g.params[q]? = some (some v)) →
      rest.length ≤ fl →
      ∃ g2 : Heap P,
        Condition.destructorLoop del fl g p = .ok g2 ∧
        g2.ors = g.ors ∧
        g2.log = g.log ++ successorEvents MAX rest ∧
        (∀ (b : Nat), g2.conds[b]? =
          if b ∈ rest.map Prod.fst then some none else g.conds[b]?) ∧
        (∀ (q : Nat), g2.params[q]? =
          if q ∈ chainVisited MAX rest then some none else g.params[q]?) := by
  induction rest with
  | nil =>
    intro fl g p hch _ _ _ _
    have hp : p = none := hch
    subst hp
    exact ⟨g, destructorLoop_none _ _ _, rfl, by simp [successorEvents],
      fun b => by simp, fun q => by simp [chainVisited]⟩
  | cons x rest ih =>
    intro fl g p hch hs hnd hlive hf
    obtain ⟨a, c⟩ := x
    have hnot := AndChain_head_not_mem g.conds p a c rest hch
    obtain ⟨hp, hget, htail⟩ := hch
    subst hp
    cases fl with
    | zero => simp at hf
    | succ fl =>
      simp only [chainVisited] at hnd hlive
      have hnd1 := (List.nodup_append.mp hnd).1
      have hnd2 := (List.nodup_append.mp hnd).2.1
      have hdisj := (List.nodup_append.mp hnd).2.2
      obtain ⟨h2, hrun, hconds, hors, hlog, hpar⟩ :=
        Delete_Instance_Condition_detached MAX k
          ({ g with conds := g.conds.set a (some { c with m_nextAndCondition := none }) } : Heap P)
          a { c with m_nextAndCondition := none }
          (getElem?_set_same _ _ _ _ hget) rfl (hs (a, c) (List.mem_cons_self _ _)) hnd1
          (fun q hq => hlive q (List.mem_append_left _ hq))
      have hconds2 : h2.conds = g.conds.set a none := by
        rw [hconds]
        simp [List.set_set]
      obtain ⟨g3, hrun3, hors3, hlog3, hconds3, hpar3⟩ := ih fl h2 c.m_nextAndCondition
        (by rw [hconds2]; exact AndChain_set _ _ _ _ _ htail hnot)
        (fun y hy => hs y (List.mem_cons_of_mem _ hy)) hnd2
        (by
          intro q hq
          obtain ⟨v, hv⟩ := hlive q (List.mem_append_right _ hq)
          refine ⟨v, ?_⟩
          rw [hpar q]
          have hq1 : q ∉ Condition.visited MAX c := fun h1 => hdisj h1 hq
          have hq2 : q ∉ Condition.visited MAX { c with m_nextAndCondition := none } := hq1
          simp only [hq2, if_false]
          exact hv)
        (by simpa using hf)
      refine ⟨g3, ?_, ?_, ?_, ?_, ?_⟩
      · simp only [Condition.destructorLoop, bind, Except.bind, readCond_of_get g a c hget]
        rw [writeCond_of_get g a c _ hget]
        simp only []
        rw [hdel, hrun]
        exact hrun3
      · rw [hors3, hors]
      · rw [hlog3, hlog]
        simp [successorEvents, Condition.visited]
      · intro b
        rw [hconds3 b, hconds2]
        by_cases hb : b ∈ rest.map Prod.fst
        · simp [hb]
        · by_cases hba : b = a
          · subst hba
            simp only [hb, if_false, List.map_cons, List.mem_cons, true_or, if_true]
            exact getElem?_set_same _ _ _ _ hget
          · simp only [hb, if_false, List.map_cons, List.mem_cons, hba, or_self]
            rw [List.getElem?_set_ne (fun he => hba he.symm)]
      · intro q
        rw [hpar3 q, hpar q]
        have hv : Condition.visited MAX { c with m_nextAndCondition := none } =
            Condition.visited MAX c := rfl
        rw [hv]
        by_cases hq : q ∈ chainVisited MAX rest
        · simp [hq, chainVisited]
        · by_cases hq1 : q ∈ Condition.visited MAX c
          · simp [hq, hq1, chainVisited]
          · simp [hq, hq1, chainVisited]

theorem filterMap_condAddr_params (qs : List Addr) :
    (qs.map Event.param).filterMap Event.condAddr = [] := by
  induction qs with
  | nil => rfl
  | cons q qs ih => simp [Event.condAddr]

theorem filterMap_condAddr_successorEvents (MAX : Nat) (rest : List (Addr × Condition)) :
    (successorEvents MAX rest).filterMap Event.condAddr = rest.map Prod.fst := by
  induction rest with
  | nil => rfl
  | cons x rest ih =>
    simp [successorEvents, List.filterMap_append, filterMap_condAddr_params, Event.condAddr, ih]

/-- Releasing the head of a chain: the visited parameters of the head, then each
successor (detached first) with its visited parameters, then the head. -/
theorem Delete_Instance_Condition_chain (MAX fuel : Nat) (h : Heap P) (a0 : Nat)
    (c0 : Condition) (rest : List (Addr × Condition))
    (hch : AndChain h.conds (some a0) ((a0, c0) :: rest))
    (hs : ∀ x ∈ (a0, c0) :: rest, x.2.SlotsOk MAX)
    (hnd : (chainVisited MAX ((a0, c0) :: rest)).Nodup)
    (hlive : ∀ q ∈ chainVisited MAX ((a0, c0) :: rest), ∃ v, h.params[q]? = some (some v))
    (hf : rest.length + 1 ≤ fuel) :
    ∃ h2 : Heap P,
      Delete_Instance_Condition MAX fuel h (some a0) = .ok h2 ∧
      h2.log = h.log ++ ((c0.visited MAX).map Event.param ++ successorEvents MAX rest ++
        [Event.cond a0 c0.m_nextAndCondition]) ∧
      h2.ors = h.ors ∧
      (∀ (b : Nat), h2.conds[b]? =
        if b ∈ a0 :: rest.map Prod.fst then some none else h.conds[b]?) ∧
      (∀ (q : Nat), h2.params[q]? =
        if q ∈ chainVisited MAX ((a0, c0) :: rest) then some none else h.params[q]?) := by
  have hnot := AndChain_head_not_mem h.conds _ a0 c0 rest hch
  obtain ⟨_, hget, htail⟩ := hch
  simp only [chainVisited] at hnd hlive
  have hnd1 := (List.nodup_append.mp hnd).1
  have hnd2 := (List.nodup_append.mp hnd).2.1
  have hdisj := (List.nodup_append.mp hnd).2.2
  have hs0 : c0.SlotsOk MAX := hs (a0, c0) (List.mem_cons_self _ _)
  obtain ⟨h1, ps, hrun, hconds, hors, hlog, hpar⟩ :=
    forRange_clearSlot a0 (MAX - c0.m_numParams) c0.m_numParams h c0 hget
      (by have := hs0.1; have := hs0.2; omega) hnd1
      (fun q hq => hlive q (List.mem_append_left _ hq))
  have hc1 : h1.conds[a0]? = some (some { c0 with m_params := ps }) := by
    rw [hconds]
    exact getElem?_set_same _ _ _ _ hget
  cases fuel with
  | zero => simp at hf
  | succ f =>
    have hloop : ∃ g2 : Heap P,
        Condition.destructorLoop
          (fun g a => do
            let g1 ← Condition.destructor MAX f g a
            g1.freeCond a) f h1 c0.m_nextAndCondition = .ok g2 ∧
        g2.ors = h1.ors ∧
        g2.log = h1.log ++ successorEvents MAX rest ∧
        (∀ (b : Nat), g2.conds[b]? =
          if b ∈ rest.map Prod.fst then some none else h1.conds[b]?) ∧
        (∀ (q : Nat), g2.params[q]? =
          if q ∈ chainVisited MAX rest then some none else h1.params[q]?) := by
      cases f with
      | zero =>
        have hr : rest = [] := by
          cases rest with
          | nil => rfl
          | cons y ys => simp at hf
        subst hr
        have hn : c0.m_nextAndCondition = none := htail
        rw [hn]
        exact ⟨h1, rfl, rfl, by simp [successorEvents], fun b => by simp,
          fun q => by simp [chainVisited]⟩
      | succ k =>
        exact destructorLoop_chain MAX k _ (fun g a => rfl) rest (k + 1) h1
          c0.m_nextAndCondition
          (by rw [hconds]; exact AndChain_set _ _ _ _ _ htail hnot)
          (fun y hy => hs y (List.mem_cons_of_mem _ hy)) hnd2
          (by
            intro q hq
            obtain ⟨v, hv⟩ := hlive q (List.mem_append_right _ hq)
            refine ⟨v, ?_⟩
            rw [hpar q]
            have hq1 : q ∉ slotPointers c0.m_params c0.m_numParams (MAX - c0.m_numParams) :=
              fun h1 => hdisj h1 hq
            simp only [hq1, if_false]
            exact hv)
          (by omega)
    obtain ⟨g2, hrun2, hors2, hlog2, hconds2, hpar2⟩ := hloop
    have hg2 : g2.conds[a0]? = some (some { c0 with m_params := ps }) := by
      rw [hconds2 a0]
      simp only [hnot, if_false]
      exact hc1
    refine ⟨{ g2 with conds := g2.conds.set a0 none,
                      log := g2.log ++ [Event.cond a0 c0.m_nextAndCondition] }, ?_, ?_, ?_, ?_, ?_⟩
    · simp only [Delete_Instance_Condition, Condition.destructor, bind, Except.bind,
        readCond_of_get h a0 c0 hget, hrun, readCond_of_get h1 a0 _ hc1]
      simp only [bind, Except.bind] at hrun2
      rw [hrun2]
      simp only []
      rw [freeCond_of_get g2 a0 _ hg2]
    · show g2.log ++ _ = _
      rw [hlog2, hlog]
      simp [Condition.visited]
    · show g2.ors = _
      rw [hors2, hors]
    · intro b
      show (g2.conds.set a0 none)[b]? = _
      by_cases hba : b = a0
      · subst hba
        simp only [List.mem_cons, true_or, if_true]
        exact getElem?_set_same _ _ _ _ hg2
      · rw [List.getElem?_set_ne (fun he => hba he.symm), hconds2 b, hconds,
          List.getElem?_set_ne (fun he => hba he.symm)]
        simp only [List.mem_cons, hba, false_or]
    · intro q
      show g2.params[q]? = _
      rw [hpar2 q, hpar q]
      by_cases hq : q ∈ chainVisited MAX rest
      · simp [hq, chainVisited]
      · by_cases hq1 : q ∈ Condition.visited MAX c0
        · have hq2 : q ∈ slotPointers c0.m_params c0.m_numParams (MAX - c0.m_numParams) := hq1
          simp [hq, hq1, hq2, chainVisited]
        · have hq2 : q ∉ slotPointers c0.m_params c0.m_numParams (MAX - c0.m_numParams) := hq1
          simp [hq, hq1, hq2, chainVisited]

/-- C9: destroying the head of an AND-chain of `N = rest.length + 1` nodes (slot
arrays of the declared size, visited parameters exclusively owned and live)
returns, for every `N ≥ 1` and any fuel `≥ N`.  The `Condition` releases it
records are exactly the successors in chain order followed by the head, these
addresses are pairwise distinct, every one of them is released afterwards and
no other cell changes.  In the record each successor is released with its
next-link already `nullptr` and right after its own parameters only, so its
release gives back no further node. -/
theorem C9_destroy_chain_releases_each_node_once (MAX fuel : Nat) (h : Heap P) (a0 : Nat)
    (c0 : Condition) (rest : List (Addr × Condition))
    (hch : AndChain h.conds (some a0) ((a0, c0) :: rest))
    (hs : ∀ x ∈ (a0, c0) :: rest, x.2.SlotsOk MAX)
    (hnd : (chainVisited MAX ((a0, c0) :: rest)).Nodup)
    (hlive : ∀ q ∈ chainVisited MAX ((a0, c0) :: rest), ∃ v, h.params[q]? = some (some v))
    (hf : rest.length + 1 ≤ fuel) :
    ∃ h2 : Heap P,
      Delete_Instance_Condition MAX fuel h (some a0) = .ok h2 ∧
      (h2.log.drop h.log.length).filterMap Event.condAddr = rest.map Prod.fst ++ [a0] ∧
      (rest.map Prod.fst ++ [a0]).Nodup ∧
      (∀ (b : Nat), h2.conds[b]? =
        if b ∈ a0 :: rest.map Prod.fst then some none else h.conds[b]?) ∧
      h2.log = h.log ++ ((c0.visited MAX).map Event.param ++ successorEvents MAX rest ++
        [Event.cond a0 c0.m_nextAndCondition]) := by
  obtain ⟨h2, hrun, hlog, _, hconds, _⟩ :=
    Delete_Instance_Condition_chain MAX fuel h a0 c0 rest hch hs hnd hlive hf
  refine ⟨h2, hrun, ?_, ?_, hconds, hlog⟩
  · rw [hlog, List.drop_left]
    simp [List.filterMap_append, filterMap_condAddr_params, filterMap_condAddr_successorEvents,
      Event.condAddr]
  · have := AndChain_nodup h.conds _ _ hch
    rw [List.nodup_append_comm]
    exact this

theorem destroyHeap_slotsOk : ∀ x ∈ (0, destroyHead) :: destroyRest, x.2.SlotsOk 2 := by
  intro x hx
  simp only [destroyRest, List.mem_cons, List.mem_singleton, List.not_mem_nil, or_false] at hx
  rcases hx with rfl | rfl
  · exact ⟨rfl, by decide⟩
  · exact ⟨rfl, by decide⟩

theorem destroyHeap_live : ∀ q ∈ chainVisited 2 ((0, destroyHead) :: destroyRest),
    ∃ v, destroyHeap.params[q]? = some (some v) := by
  intro q hq
  have hv : chainVisited 2 ((0, destroyHead) :: destroyRest) = [0, 1] := rfl
  rw [hv] at hq
  simp only [List.mem_cons, List.mem_singleton, List.not_mem_nil, or_false] at hq
  rcases hq with rfl | rfl
  · exact ⟨7, rfl⟩
  · exact ⟨8, rfl⟩

/-- C9 (instance): the two-node chain of `destroyHeap`. -/
theorem C9_destroy_chain_releases_each_node_once_witness :
    AndChain destroyHeap.conds (some 0) ((0, destroyHead) :: destroyRest) ∧
      (∀ x ∈ (0, destroyHead) :: destroyRest, x.2.SlotsOk 2) ∧
      (chainVisited 2 ((0, destroyHead) :: destroyRest)).Nodup ∧
      (∀ q ∈ chainVisited 2 ((0, destroyHead) :: destroyRest),
        ∃ v, destroyHeap.params[q]? = some (some v)) ∧
      ∃ h2 : Heap Nat,
        Delete_Instance_Condition 2 2 destroyHeap (some 0) = .ok h2 ∧
        (h2.log.drop destroyHeap.log.length).filterMap Event.condAddr =
          destroyRest.map Prod.fst ++ [0] ∧
        (destroyRest.map Prod.fst ++ [0]).Nodup ∧
        (∀ (b : Nat), h2.conds[b]? =
          if b ∈ 0 :: destroyRest.map Prod.fst then some none else destroyHeap.conds[b]?) ∧
        h2.log = destroyHeap.log ++ ((destroyHead.visited 2).map Event.param ++
          successorEvents 2 destroyRest ++ [Event.cond 0 destroyHead.m_nextAndCondition]) :=
  ⟨⟨rfl, rfl, rfl, rfl, rfl⟩, destroyHeap_slotsOk, by decide, destroyHeap_live,
    C9_destroy_chain_releases_each_node_once 2 2 destroyHeap 0 destroyHead destroyRest
      ⟨rfl, rfl, rfl, rfl, rfl⟩ destroyHeap_slotsOk (by decide) destroyHeap_live
      (Nat.le_refl _)⟩

/-! ## Two facts about records and pairwise relations -/

theorem OrCondition_eta_nextOr (X : OrCondition) (hX : X.m_nextOr = none) :
    ({ X with m_nextOr := none } : OrCondition) = X := by
  cases X
  simp at hX
  simp [hX]

theorem forall₂_getElem? {α β : Type} (R : α → β → Prop) (l1 : List α) :
    ∀ (l2 : List β), List.Forall₂ R l1 l2 → ∀ (j : Nat) (x : α) (y : β),
      l1[j]? = some x → l2[j]? = some y → R x y := by
  induction l1 with
  | nil =>
    intro l2 _ j x y hx _
    simp at hx
  | cons a as ih =>
    intro l2 hf j x y hx hy
    cases hf with
    | cons hab htl =>
      cases j with
      | zero =>
        simp at hx hy
        subst hx; subst hy
        exact hab
      | succ j =>
        simp at hx hy
        exact ih _ htl j x y hx hy

/-! ## The constructors and the chunk parsers, field by field -/

/-- C15: for every reader state `Condition::Parse_Data_Chunk` returns with the
reader in the state reached by exactly one `Read_Int32` from the state it was
given, and the one node it constructs (a default node, appended to the pool)
carries the integer read as its condition type tag. -/
theorem C15_Parse_Data_Chunk_reads_one_int (MAX : Nat) (DEFAULT : ConditionType)
    (rd : DataChunkInput R P) (input : R) (info : DataChunkInfo) (data : Option Addr)
    (h : Heap P) :
    ∃ (b : Bool) (h2 : Heap P) (c : Condition),
      Condition.Parse_Data_Chunk MAX DEFAULT rd input info data h =
        .ok (b, (rd.Read_Int32 input).2, h2) ∧
      h2.conds = h.conds ++ [some c] ∧
      c.m_conditionType = (rd.Read_Int32 input).1 ∧
      c = { Condition.init MAX DEFAULT with m_conditionType := (rd.Read_Int32 input).1 } :=
  ⟨false, _, _, Parse_Data_Chunk_eq MAX DEFAULT rd input info data h, rfl, rfl, rfl⟩

theorem getElem?_replicate_none (MAX i : Nat) (hi : i < MAX) :
    (List.replicate MAX (none : Option Addr))[i]? = some none := by
  simp [List.getElem?_replicate, hi]

/-- C16: `new Condition(t)` enters `Set_Condition_Type(t)` on a node whose slots
are all zero, and the node it yields has type tag `t`, no next-link,
`m_hasWarnings` false, `m_customData` 0 (and in-use count 0, all slots empty);
`new Condition` yields a node with the `DEFAULT` type tag, in-use count 0 and
all `MAX_CONDITION_PARAMETERS` slots empty. -/
theorem C16_constructed_node_fields (MAX : Nat) (DEFAULT : ConditionType) (h : Heap P)
    (t : ConditionType) :
    (∃ (h0 : Heap P) (c0 : Condition),
      h0.conds = h.conds ++ [some c0] ∧
      c0.m_params = List.replicate MAX none ∧
      new_Condition MAX h t =
        (Condition.Set_Condition_Type h0 h.conds.length t).bind
          (fun h1 => .ok (h1, h.conds.length))) ∧
    (∃ (h1 : Heap P) (c : Condition),
      new_Condition MAX h t = .ok (h1, h.conds.length) ∧
      h1.conds[h.conds.length]? = some (some c) ∧
      c.m_conditionType = t ∧ c.m_nextAndCondition = none ∧
      c.m_hasWarnings = false ∧ c.m_customData = 0 ∧ c.m_unkInt1 = 0 ∧
      c.m_numParams = 0 ∧ c.m_params.length = MAX ∧
      ∀ i, i < MAX → c.m_params[i]? = some none) ∧
    (∃ c : Condition,
      (new_Condition_default MAX DEFAULT h).1.conds[(new_Condition_default MAX DEFAULT h).2]? =
        some (some c) ∧
      c.m_conditionType = DEFAULT ∧ c.m_numParams = 0 ∧ c.m_nextAndCondition = none ∧
      c.m_hasWarnings = false ∧ c.m_customData = 0 ∧
      c.m_params.length = MAX ∧ ∀ i, i < MAX → c.m_params[i]? = some none) := by
  refine ⟨⟨{ h with conds := h.conds ++ [some (Condition.init MAX t)] }, Condition.init MAX t,
    rfl, rfl, rfl⟩, ⟨_, Condition.init MAX t, new_Condition_eq MAX h t,
    getElem?_append_length _ _ _, rfl, rfl, rfl, rfl, rfl, rfl, by simp [Condition.init],
    fun i hi => getElem?_replicate_none MAX i hi⟩,
    ⟨Condition.init MAX DEFAULT, getElem?_append_length _ _ _, rfl, rfl, rfl, rfl, rfl,
      by simp [Condition.init], fun i hi => getElem?_replicate_none MAX i hi⟩⟩

/-- C13: with the script's chain followed to its end, `Parse_OrCondition_Chunk`
returns, and its boolean is exactly the one the reader's `Parse` produces when
it is called on the reader obtained by registering `Condition::Parse_Data_Chunk`
for the tag "Condition" under the label of the current chunk, with the node
just appended to the script's chain as the receiving object. -/
theorem C13_Parse_OrCondition_Chunk_returns_dispatch_result (rd : DataChunkInput R P)
    (fuel : Nat) (input : R) (info : DataChunkInfo) (data : Script) (h : Heap P)
    (L : List (Addr × OrCondition))
    (hch : OrChain h.ors data.Get_Condition L) (hf : L.length ≤ fuel) :
    ∃ (h2 : Heap P) (s2 : Script) (L2 : List (Addr × OrCondition)) (input2 : R) (h3 : Heap P),
      OrChain h2.ors s2.Get_Condition L2 ∧
      L2.map Prod.fst = L.map Prod.fst ++ [h.ors.length] ∧
      OrCondition.Parse_OrCondition_Chunk rd fuel input info data h =
        .ok ((rd.Parse (rd.Register_Parser input "Condition" info.label
                DataChunkParserPtr.Condition_Parse_Data_Chunk none) h2 h.ors.length).1,
             input2, s2, h3) := by
  obtain ⟨h2, s2, L2, hch2, hmap, heq⟩ :=
    Parse_OrCondition_Chunk_link rd fuel input info data h L hch hf
  exact ⟨h2, s2, L2, _, _, hch2, hmap, heq⟩

/-- C13 (instance): on the empty heap and with a dispatch that succeeds the call
returns `true`, with one that fails it returns `false`. -/
theorem C13_Parse_OrCondition_Chunk_returns_dispatch_result_witness :
    OrChain (emptyHeap Nat).ors (Script.Get_Condition { m_conditionOr := none }) [] ∧
      ([] : List (Addr × OrCondition)).length ≤ 0 ∧
      ∃ (h2 : Heap Nat) (s2 : Script) (L2 : List (Addr × OrCondition)) (input2 : List Int)
          (h3 : Heap Nat),
        OrChain h2.ors s2.Get_Condition L2 ∧
        L2.map Prod.fst = ([] : List (Addr × OrCondition)).map Prod.fst ++ [0] ∧
        OrCondition.Parse_OrCondition_Chunk (listReader Nat true) 0 [] { label := "OrCondition" }
            { m_conditionOr := none } (emptyHeap Nat) =
          .ok (((listReader Nat true).Parse ((listReader Nat true).Register_Parser []
                  "Condition" "OrCondition" DataChunkParserPtr.Condition_Parse_Data_Chunk none)
                h2 0).1,
               input2, s2, h3) :=
  ⟨rfl, Nat.le_refl _,
    C13_Parse_OrCondition_Chunk_returns_dispatch_result (listReader Nat true) 0 []
      { label := "OrCondition" } { m_conditionOr := none } (emptyHeap Nat) [] rfl (Nat.le_refl _)⟩

/-! ## The standalone condition parser under the or-condition parser -/

theorem runConditionParser_frame (MAX : Nat) (DEFAULT : ConditionType) (rd : DataChunkInput R P)
    (data : Option Addr) (calls : List (R × DataChunkInfo)) :
    ∀ (h g : Heap P), runConditionParser MAX DEFAULT rd data calls h = .ok g →
      g.ors = h.ors ∧ g.params = h.params ∧ g.log = h.log ∧
      ∀ (a : Nat) (c : Option Condition), h.conds[a]? = some c → g.conds[a]? = some c := by
  induction calls with
  | nil =>
    intro h g hr
    have hg : h = g := Except.ok.inj hr
    subst hg
    exact ⟨rfl, rfl, rfl, fun a c hc => hc⟩
  | cons x rest ih =>
    intro h g hr
    obtain ⟨input, info⟩ := x
    simp only [runConditionParser, Parse_Data_Chunk_eq, bind, Except.bind] at hr
    obtain ⟨h1, h2, h3, h4⟩ := ih _ g hr
    exact ⟨h1, h2, h3, fun a c hc => h4 a c (getElem?_append_of_some _ _ _ _ hc)⟩

/-- The state in which `Parse_OrCondition_Chunk` enters the dispatch, seen from
the new node: it is a freshly constructed `OrCondition`, and the other pools are
untouched. -/
theorem Parse_OrCondition_Chunk_new_node (rd : DataChunkInput R P) (fuel : Nat) (input : R)
    (info : DataChunkInfo) (data : Script) (h : Heap P) (L : List (Addr × OrCondition))
    (hch : OrChain h.ors data.Get_Condition L) (hf : L.length ≤ fuel) :
    ∃ (h2 : Heap P) (s2 : Script),
      h2.ors[h.ors.length]? = some (some OrCondition.init) ∧
      h2.conds = h.conds ∧ h2.params = h.params ∧ h2.log = h.log ∧
      OrCondition.Parse_OrCondition_Chunk rd fuel input info data h =
        .ok ((rd.Parse (rd.Register_Parser input "Condition" info.label
                DataChunkParserPtr.Condition_Parse_Data_Chunk none) h2 h.ors.length).1,
             (rd.Parse (rd.Register_Parser input "Condition" info.label
                DataChunkParserPtr.Condition_Parse_Data_Chunk none) h2 h.ors.length).2.1,
             s2,
             (rd.Parse (rd.Register_Parser input "Condition" info.label
                DataChunkParserPtr.Condition_Parse_Data_Chunk none) h2 h.ors.length).2.2) := by
  rcases List.eq_nil_or_concat L with hnil | ⟨L0, x, hx⟩
  on_goal 2 => rw [List.concat_eq_append] at hx
  · subst hnil
    have hp : data.Get_Condition = none := hch
    refine ⟨{ h with ors := h.ors ++ [some OrCondition.init] },
      data.Set_Condition (some h.ors.length), getElem?_append_length _ _ _, rfl, rfl, rfl, ?_⟩
    have hfe : ∀ g : Heap P, OrCondition.findEnd fuel g none = .ok none := by
      intro g; cases fuel <;> rfl
    simp only [OrCondition.Parse_OrCondition_Chunk, new_OrCondition, hp, hfe, bind,
      Except.bind, pure, Except.pure]
  · subst hx
    obtain ⟨z, oz⟩ := x
    have hch1 : OrChain (h.ors ++ [some OrCondition.init])
        data.Get_Condition (L0 ++ [(z, oz)]) := OrChain_append _ _ _ _ hch
    have hlast := OrChain_snoc_last _ L0 z oz _ hch1
    have hz : z < h.ors.length := getElem?_some_lt _ _ _ (OrChain_snoc_last _ L0 z oz _ hch).1
    refine ⟨{ h with
        ors := (h.ors ++ [some OrCondition.init]).set z
          (some { oz with m_nextOr := some h.ors.length }) }, data, ?_, rfl, rfl, rfl, ?_⟩
    · show ((h.ors ++ [some OrCondition.init]).set z _)[h.ors.length]? = _
      rw [List.getElem?_set_ne (Nat.ne_of_lt hz)]
      exact getElem?_append_length _ _ _
    · have hfe := findEnd_snoc
        ({ h with ors := h.ors ++ [some OrCondition.init] } : Heap P)
        L0 z oz fuel data.Get_Condition hch1 (by simpa using hf)
      simp only [OrCondition.Parse_OrCondition_Chunk, new_OrCondition, hfe, bind,
        Except.bind, pure, Except.pure]
      rw [readOr_of_get _ z oz hlast.1]
      simp only []
      rw [writeOr_of_get _ z oz _ hlast.1]

/-- C19: in the standalone body `Condition::Parse_Data_Chunk` returns `false` for
every reader state, chunk info and receiving object; the node it allocates has
no next-link, and no existing `Condition`, `OrCondition` (the receiving object
included) or parameter is changed, so nothing links to it.  Hence, with a
dispatch that acts on the heap only through this parser,
`OrCondition::Parse_OrCondition_Chunk` returns with the node it appended still
without an AND-chain. -/
theorem C19_standalone_parser_links_nothing (MAX : Nat) (DEFAULT : ConditionType)
    (rd : DataChunkInput R P) :
    (∀ (input : R) (info : DataChunkInfo) (data : Option Addr) (h : Heap P),
      ∃ (input2 : R) (h2 : Heap P) (c : Condition),
        Condition.Parse_Data_Chunk MAX DEFAULT rd input info data h = .ok (false, input2, h2) ∧
        h2.conds = h.conds ++ [some c] ∧ c.m_nextAndCondition = none ∧
        h2.ors = h.ors ∧ h2.params = h.params) ∧
    (rd.OnlyRunsConditionParser MAX DEFAULT →
      ∀ (fuel : Nat) (input : R) (info : DataChunkInfo) (data : Script) (h : Heap P)
        (L : List (Addr × OrCondition)),
        OrChain h.ors data.Get_Condition L → L.length ≤ fuel →
        ∃ (b : Bool) (input2 : R) (s2 : Script) (h2 : Heap P) (o : OrCondition),
          OrCondition.Parse_OrCondition_Chunk rd fuel input info data h =
            .ok (b, input2, s2, h2) ∧
          h2.ors[h.ors.length]? = some (some o) ∧ o.m_firstAnd = none) := by
  refine ⟨fun input info data h =>
    ⟨_, _, _, Parse_Data_Chunk_eq MAX DEFAULT rd input info data h, rfl, rfl, rfl, rfl⟩, ?_⟩
  intro honly fuel input info data h L hch hf
  obtain ⟨g, s2, hnode, _, _, _, heq⟩ :=
    Parse_OrCondition_Chunk_new_node rd fuel input info data h L hch hf
  obtain ⟨calls, hcalls⟩ := honly (rd.Register_Parser input "Condition" info.label
    DataChunkParserPtr.Condition_Parse_Data_Chunk none) g h.ors.length
  have hfr := runConditionParser_frame MAX DEFAULT rd _ calls g _ hcalls
  refine ⟨_, _, s2, _, OrCondition.init, heq, ?_, rfl⟩
  rw [hfr.1]
  exact hnode

theorem onceReader_OnlyRuns (MAX : Nat) (DEFAULT : ConditionType) :
    (onceReader P MAX).OnlyRunsConditionParser MAX DEFAULT := by
  intro r h recv
  refine ⟨[(r, { label := "Condition" })], ?_⟩
  simp only [runConditionParser, Parse_Data_Chunk_eq, bind, Except.bind]
  rfl

/-- C19 (instance): a reader whose dispatch runs the parser once, on a script
whose chain is the last two nodes of `threeOrHeap`. -/
theorem C19_standalone_parser_links_nothing_witness :
    (onceReader Nat 2).OnlyRunsConditionParser 2 0 ∧
      OrChain threeOrHeap.ors (Script.Get_Condition { m_conditionOr := some 1 })
        [(1, { m_nextOr := some 2, m_firstAnd := some 0 }),
         (2, { m_nextOr := none, m_firstAnd := none })] ∧
      ∃ (b : Bool) (input2 : List Int) (s2 : Script) (h2 : Heap Nat) (o : OrCondition),
        OrCondition.Parse_OrCondition_Chunk (onceReader Nat 2) 2 [7] { label := "OrCondition" }
            { m_conditionOr := some 1 } threeOrHeap = .ok (b, input2, s2, h2) ∧
        h2.ors[threeOrHeap.ors.length]? = some (some o) ∧ o.m_firstAnd = none :=
  ⟨onceReader_OnlyRuns 2 0, ⟨rfl, rfl, rfl, rfl, rfl⟩,
    (C19_standalone_parser_links_nothing 2 0 (onceReader Nat 2)).2 (onceReader_OnlyRuns 2 0)
      2 [7] { label := "OrCondition" } { m_conditionOr := some 1 } threeOrHeap
      [(1, { m_nextOr := some 2, m_firstAnd := some 0 }),
       (2, { m_nextOr := none, m_firstAnd := none })]
      ⟨rfl, rfl, rfl, rfl, rfl⟩ (Nat.le_refl _)⟩

/-! ## `Condition::Set_Condition_Type` -/

/-- Clearing slots that are already `nullptr` changes nothing. -/
theorem forRange_clearSlot_null (a : Nat) (n : Nat) :
    ∀ (i0 : Nat) (h : Heap P) (c : Condition),
      h.conds[a]? = some (some c) →
      (∀ i, i0 ≤ i → i < i0 + n → c.m_params[i]? = some none) →
      forRange (Condition.clearSlot a) i0 n h = .ok h := by
  induction n with
  | zero =>
    intro i0 h c _ _
    exact forRange_zero _ _ _
  | succ n ih =>
    intro i0 h c hc hnull
    have h0 : c.m_params[i0]? = some none := hnull i0 (Nat.le_refl _) (by omega)
    have hstep : Condition.clearSlot a i0 h = .ok h := by
      simp only [Condition.clearSlot, bind, Except.bind, readCond_of_get h a c hc,
        Condition.slot, h0, Delete_Instance_Parameter]
      rw [writeCond_of_get h a c _ hc, set_of_getElem? c.m_params i0 none h0]
      have hcc : ({ c with m_params := c.m_params } : Condition) = c := rfl
      rw [hcc, set_of_getElem? _ _ _ hc]
    simp only [forRange, hstep]
    exact ih (i0 + 1) h c hc (fun i h1 h2 => hnull i (by omega) (by omega))

/-- Whenever the clearing loop over slots `i0 .. i0 + n - 1` returns, those slots
are `nullptr` afterwards, the slots below `i0` are as before, and of the node
only the slot array has changed. -/
theorem forRange_clearSlot_inv (a : Nat) (n : Nat) :
    ∀ (i0 : Nat) (h h2 : Heap P) (c : Condition),
      h.conds[a]? = some (some c) →
      forRange (Condition.clearSlot a) i0 n h = .ok h2 →
      ∃ ps : List (Option Addr),
        h2.conds = h.conds.set a (some { c with m_params := ps }) ∧
        h2.ors = h.ors ∧
        (∀ i, i0 ≤ i → i < i0 + n → ps[i]? = some none) ∧
        (∀ i, i < i0 → ps[i]? = c.m_params[i]?) := by
  induction n with
  | zero =>
    intro i0 h h2 c hc hrun
    rw [forRange_zero] at hrun
    have hh : h = h2 := Except.ok.inj hrun
    subst hh
    exact ⟨c.m_params, (set_of_getElem? _ _ _ hc).symm, rfl,
      fun i h1 h2 => absurd h2 (by omega), fun i _ => rfl⟩
  | succ n ih =>
    intro i0 h h2 c hc hrun
    simp only [forRange] at hrun
    cases hstep : Condition.clearSlot a i0 h with
    | error e =>
      rw [hstep] at hrun
      exact absurd hrun (by simp)
    | ok h1 =>
      rw [hstep] at hrun
      simp only [] at hrun
      simp only [Condition.clearSlot, bind, Except.bind, readCond_of_get h a c hc] at hstep
      cases hsl : c.slot i0 with
      | error e =>
        rw [hsl] at hstep
        exact absurd hstep (by simp)
      | ok p =>
        rw [hsl] at hstep
        simp only [] at hstep
        have hp : c.m_params[i0]? = some p := by
          unfold Condition.slot at hsl
          split at hsl
          · rename_i q hq
            rw [hq, Except.ok.inj hsl]
          · exact absurd hsl (by simp)
        cases hdel : Delete_Instance_Parameter h p with
        | error e =>
          rw [hdel] at hstep
          exact absurd hstep (by simp)
        | ok hd =>
          rw [hdel] at hstep
          simp only [] at hstep
          have hdc : hd.conds = h.conds ∧ hd.ors = h.ors := by
            unfold Delete_Instance_Parameter at hdel
            split at hdel
            · rw [← Except.ok.inj hdel]
              exact ⟨rfl, rfl⟩
            · split at hdel
              · rw [← Except.ok.inj hdel]
                exact ⟨rfl, rfl⟩
              · exact absurd hdel (by simp)
          have hc2 : hd.conds[a]? = some (some c) := by rw [hdc.1]; exact hc
          rw [writeCond_of_get hd a c _ hc2] at hstep
          have h1eq := Except.ok.inj hstep
          subst h1eq
          obtain ⟨ps, hconds, hors, hnull, hlow⟩ := ih (i0 + 1) _ h2
            { c with m_params := c.m_params.set i0 none }
            (getElem?_set_same _ _ _ _ hc2) hrun
          refine ⟨ps, ?_, ?_, ?_, ?_⟩
          · rw [hconds]
            show (hd.conds.set a _).set a _ = _
            rw [hdc.1]
            simp [List.set_set]
          · rw [hors]
            exact hdc.2
          · intro i hi1 hi2
            by_cases hi : i = i0
            · subst hi
              rw [hlow i (Nat.lt_succ_self _)]
              exact getElem?_set_same _ _ _ _ hp
            · exact hnull i (by omega) (by omega)
          · intro i hi
            rw [hlow i (Nat.lt_succ_of_lt hi)]
            show (c.m_params.set i0 none)[i]? = _
            rw [List.getElem?_set_ne (Nat.ne_of_gt hi)]

theorem get_of_readCond (h : Heap P) (a : Nat) (c : Condition) (hr : h.readCond a = .ok c) :
    h.conds[a]? = some (some c) := by
  unfold Heap.readCond at hr
  split at hr
  · rename_i d hd
    rw [hd, Except.ok.inj hr]
  · exact absurd hr (by simp)

/-- Whenever `Set_Condition_Type` returns, the node has the new type, its in-use
slots are `nullptr`, and a second call changes nothing. -/
theorem Set_Condition_Type_returned (h hA : Heap P) (a : Nat) (t : ConditionType)
    (hfirst : Condition.Set_Condition_Type h a t = .ok hA) :
    (∃ (c : Condition) (ps : List (Option Addr)),
      h.conds[a]? = some (some c) ∧
      hA.conds = h.conds.set a (some { c with m_params := ps, m_conditionType := t }) ∧
      hA.ors = h.ors ∧
      (∀ i, i < c.m_numParams → ps[i]? = some none)) ∧
    Condition.Set_Condition_Type hA a t = .ok hA := by
  simp only [Condition.Set_Condition_Type, bind, Except.bind] at hfirst
  cases hr : h.readCond a with
  | error e =>
    rw [hr] at hfirst
    exact absurd hfirst (by simp)
  | ok c =>
    rw [hr] at hfirst
    simp only [] at hfirst
    have hc := get_of_readCond h a c hr
    cases hrun : forRange (Condition.clearSlot a) 0 c.m_numParams h with
    | error e =>
      rw [hrun] at hfirst
      exact absurd hfirst (by simp)
    | ok h1 =>
      rw [hrun] at hfirst
      simp only [] at hfirst
      obtain ⟨ps, hconds, hors, hnull, _⟩ := forRange_clearSlot_inv a c.m_numParams 0 h h1 c hc hrun
      have hc1 : h1.conds[a]? = some (some { c with m_params := ps }) := by
        rw [hconds]
        exact getElem?_set_same _ _ _ _ hc
      rw [readCond_of_get h1 a _ hc1] at hfirst
      simp only [] at hfirst
      rw [writeCond_of_get h1 a _ _ hc1] at hfirst
      have hAeq := Except.ok.inj hfirst
      subst hAeq
      have hnull0 : ∀ i, i < c.m_numParams → ps[i]? = some none :=
        fun i hi => hnull i (Nat.zero_le _) (by omega)
      have hcA : (h1.conds.set a
          (some { c with m_params := ps, m_conditionType := t }))[a]? =
          some (some { c with m_params := ps, m_conditionType := t }) :=
        getElem?_set_same _ _ _ _ hc1
      refine ⟨⟨c, ps, hc, ?_, hors, hnull0⟩, ?_⟩
      · show h1.conds.set a _ = _
        rw [hconds]
        simp [List.set_set]
      · simp only [Condition.Set_Condition_Type, bind, Except.bind]
        rw [readCond_of_get _ a _ hcA]
        simp only []
        rw [forRange_clearSlot_null a c.m_numParams 0 _
          { c with m_params := ps, m_conditionType := t } hcA
          (fun i _ hi => hnull0 i (by omega))]
        simp only []
        rw [readCond_of_get _ a _ hcA]
        simp only []
        rw [writeCond_of_get _ a _ _ hcA]
        have hset := set_of_getElem? _ _ _ hcA
        simp only [] at hset
        rw [hset]

/-- C12: `Set_Condition_Type(t)` is idempotent on every heap, node and type: a
second call leaves the state of the first (and if the first call faults, so does
the pair).  On a node whose in-use slots `0 .. m_numParams - 1` lie in the array
and own distinct live parameters it returns, releases exactly those parameters,
in slot order, leaves the in-use slots `nullptr` and the type tag `t`.  On a
freshly constructed node it returns with only the type tag set: nothing is
released. -/
theorem C12_Set_Condition_Type_clears_and_is_idempotent (h : Heap P) (a : Nat)
    (t : ConditionType) :
    ((Condition.Set_Condition_Type h a t).bind (fun h1 => Condition.Set_Condition_Type h1 a t) =
      Condition.Set_Condition_Type h a t) ∧
    (∀ c : Condition, h.conds[a]? = some (some c) →
      c.m_numParams ≤ c.m_params.length →
      (slotPointers c.m_params 0 c.m_numParams).Nodup →
      (∀ q ∈ slotPointers c.m_params 0 c.m_numParams, ∃ v, h.params[q]? = some (some v)) →
      ∃ (h2 : Heap P) (ps : List (Option Addr)),
        Condition.Set_Condition_Type h a t = .ok h2 ∧
        h2.log = h.log ++ (slotPointers c.m_params 0 c.m_numParams).map Event.param ∧
        (∀ (q : Nat), h2.params[q]? =
          if q ∈ slotPointers c.m_params 0 c.m_numParams then some none else h.params[q]?) ∧
        h2.conds = h.conds.set a (some { c with m_params := ps, m_conditionType := t }) ∧
        (∀ i, i < c.m_numParams → ps[i]? = some none)) ∧
    (∀ (MAX : Nat) (t0 : ConditionType), h.conds[a]? = some (some (Condition.init MAX t0)) →
      Condition.Set_Condition_Type h a t =
        .ok { h with conds := h.conds.set a (some (Condition.init MAX t)) }) := by
  refine ⟨?_, ?_, ?_⟩
  · cases hfirst : Condition.Set_Condition_Type h a t with
    | error e => rfl
    | ok hA => exact (Set_Condition_Type_returned h hA a t hfirst).2
  · intro c hc hlen hnd hlive
    obtain ⟨h1, ps0, hrun, hconds0, _, hlog, hpar⟩ :=
      forRange_clearSlot a c.m_numParams 0 h c hc (by omega) hnd hlive
    obtain ⟨ps, hconds, _, hnull, _⟩ := forRange_clearSlot_inv a c.m_numParams 0 h h1 c hc hrun
    have hc1 : h1.conds[a]? = some (some { c with m_params := ps }) := by
      rw [hconds]
      exact getElem?_set_same _ _ _ _ hc
    refine ⟨{ h1 with
        conds := h1.conds.set a (some { c with m_params := ps, m_conditionType := t }) },
      ps, ?_, hlog, hpar, ?_, fun i hi => hnull i (Nat.zero_le _) (by omega)⟩
    · simp only [Condition.Set_Condition_Type, bind, Except.bind, readCond_of_get h a c hc, hrun,
        readCond_of_get h1 a _ hc1]
      rw [writeCond_of_get h1 a _ _ hc1]
    · show h1.conds.set a _ = _
      rw [hconds]
      simp [List.set_set]
  · intro MAX t0 hc
    simp only [Condition.Set_Condition_Type, bind, Except.bind, readCond_of_get h a _ hc]
    have hk : (Condition.init MAX t0).m_numParams = 0 := rfl
    rw [hk, forRange_zero]
    simp only []
    rw [readCond_of_get h a _ hc]
    simp only []
    rw [writeCond_of_get h a _ _ hc]
    rfl

theorem oneParamHeap_live : ∀ q ∈ slotPointers oneParamNode.m_params 0 oneParamNode.m_numParams,
    ∃ v, oneParamHeap.params[q]? = some (some v) := by
  intro q hq
  have hv : slotPointers oneParamNode.m_params 0 oneParamNode.m_numParams = [0] := rfl
  rw [hv] at hq
  simp only [List.mem_singleton] at hq
  subst hq
  exact ⟨7, rfl⟩

/-- C12 (instance): the node of `oneParamHeap`, whose slot 0 owns parameter 0, set
to type 9, and the fresh node of `freshNodeHeap`. -/
theorem C12_Set_Condition_Type_clears_and_is_idempotent_witness :
    ((Condition.Set_Condition_Type oneParamHeap 0 9).bind
        (fun h1 => Condition.Set_Condition_Type h1 0 9) =
      Condition.Set_Condition_Type oneParamHeap 0 9) ∧
    (oneParamHeap.conds[0]? = some (some oneParamNode) ∧
      oneParamNode.m_numParams ≤ oneParamNode.m_params.length ∧
      (slotPointers oneParamNode.m_params 0 oneParamNode.m_numParams).Nodup ∧
      (∀ q ∈ slotPointers oneParamNode.m_params 0 oneParamNode.m_numParams,
        ∃ v, oneParamHeap.params[q]? = some (some v)) ∧
      ∃ (h2 : Heap Nat) (ps : List (Option Addr)),
        Condition.Set_Condition_Type oneParamHeap 0 9 = .ok h2 ∧
        h2.log = oneParamHeap.log ++
          (slotPointers oneParamNode.m_params 0 oneParamNode.m_numParams).map Event.param ∧
        (∀ (q : Nat), h2.params[q]? =
          if q ∈ slotPointers oneParamNode.m_params 0 oneParamNode.m_numParams then some none
          else oneParamHeap.params[q]?) ∧
        h2.conds = oneParamHeap.conds.set 0
          (some { oneParamNode with m_params := ps, m_conditionType := 9 }) ∧
        (∀ i, i < oneParamNode.m_numParams → ps[i]? = some none)) ∧
    (freshNodeHeap.conds[0]? = some (some (Condition.init 2 5)) ∧
      Condition.Set_Condition_Type freshNodeHeap 0 9 =
        .ok { freshNodeHeap with conds := freshNodeHeap.conds.set 0 (some (Condition.init 2 9)) }) :=
  ⟨(C12_Set_Condition_Type_clears_and_is_idempotent oneParamHeap 0 9).1,
    ⟨rfl, by decide, by decide, oneParamHeap_live,
      (C12_Set_Condition_Type_clears_and_is_idempotent oneParamHeap 0 9).2.1 oneParamNode rfl
        (by decide) (by decide) oneParamHeap_live⟩,
    ⟨rfl, (C12_Set_Condition_Type_clears_and_is_idempotent freshNodeHeap 0 9).2.2 2 5 rfl⟩⟩

/-! ## The destructor `OrCondition::~OrCondition` -/

/-- The release of a whole AND-chain through its head pointer, `nullptr`
included. -/
theorem Delete_Instance_Condition_and (MAX fuelAnd : Nat) (h : Heap P) (p : Option Addr)
    (La : List (Addr × Condition)) (hch : AndChain h.conds p La)
    (hs : ∀ y ∈ La, y.2.SlotsOk MAX)
    (hnd : (chainVisited MAX La).Nodup)
    (hlive : ∀ q ∈ chainVisited MAX La, ∃ v, h.params[q]? = some (some v))
    (hf : La.length ≤ fuelAnd) :
    ∃ h2 : Heap P,
      Delete_Instance_Condition MAX fuelAnd h p = .ok h2 ∧
      h2.log = h.log ++ andChainEvents MAX La ∧
      h2.ors = h.ors ∧
      (∀ (b : Nat), h2.conds[b]? = if b ∈ La.map Prod.fst then some none else h.conds[b]?) ∧
      (∀ (q : Nat), h2.params[q]? =
        if q ∈ chainVisited MAX La then some none else h.params[q]?) := by
  cases La with
  | nil =>
    have hp : p = none := hch
    subst hp
    exact ⟨h, rfl, by simp [andChainEvents], rfl, fun b => by simp,
      fun q => by simp [chainVisited]⟩
  | cons x rest =>
    obtain ⟨a, c⟩ := x
    have hp : p = some a := hch.1
    subst hp
    obtain ⟨h2, hrun, hlog, hors, hconds, hpar⟩ :=
      Delete_Instance_Condition_chain MAX fuelAnd h a c rest hch hs hnd hlive (by simpa using hf)
    exact ⟨h2, hrun, by rw [hlog]; rfl, hors, fun b => by rw [hconds b]; rfl, hpar⟩

theorem AndChain_congr (cs cs2 : List (Option Condition)) (L : List (Addr × Condition)) :
    ∀ (p : Option Addr), AndChain cs p L → (∀ b ∈ L.map Prod.fst, cs2[b]? = cs[b]?) →
      AndChain cs2 p L := by
  induction L with
  | nil =>
    intro p hch _
    exact hch
  | cons x rest ih =>
    intro p hch hsame
    obtain ⟨a, c⟩ := x
    refine ⟨hch.1, ?_, ih _ hch.2.2 (fun b hb => hsame b (List.mem_cons_of_mem _ hb))⟩
    rw [hsame a (List.mem_cons_self _ _)]
    exact hch.2.1

theorem OrChain_det (os : List (Option OrCondition)) (L1 : List (Addr × OrCondition)) :
    ∀ (p : Option Addr) (L2 : List (Addr × OrCondition)),
      OrChain os p L1 → OrChain os p L2 → L1 = L2 := by
  induction L1 with
  | nil =>
    intro p L2 h1 h2
    cases L2 with
    | nil => rfl
    | cons y ys =>
      have e1 : p = none := h1
      have e2 : p = some y.1 := h2.1
      rw [e1] at e2
      exact absurd e2 (by simp)
  | cons x xs ih =>
    intro p L2 h1 h2
    obtain ⟨a, c⟩ := x
    cases L2 with
    | nil =>
      have e1 : p = none := h2
      have e2 : p = some a := h1.1
      rw [e1] at e2
      exact absurd e2 (by simp)
    | cons y ys =>
      obtain ⟨b, d⟩ := y
      obtain ⟨hp1, hg1, ht1⟩ := h1
      obtain ⟨hp2, hg2, ht2⟩ := h2
      have hab : a = b := Option.some.inj (hp1.symm.trans hp2)
      subst hab
      have hcd : c = d := Option.some.inj (Option.some.inj (hg1.symm.trans hg2))
      subst hcd
      rw [ih _ ys ht1 ht2]

theorem OrChain_shorter (os : List (Option OrCondition)) (a : Nat) (o : OrCondition)
    (ho : os[a]? = some (some o)) (L : List (Addr × OrCondition)) :
    ∀ (p : Option Addr), OrChain os p L → a ∈ L.map Prod.fst →
      ∃ L2, OrChain os o.m_nextOr L2 ∧ L2.length < L.length := by
  induction L with
  | nil =>
    intro p _ hm
    simp at hm
  | cons x xs ih =>
    intro p hch hm
    obtain ⟨b, d⟩ := x
    obtain ⟨_, hg, ht⟩ := hch
    by_cases hab : a = b
    · subst hab
      have hcd : d = o := Option.some.inj (Option.some.inj (hg.symm.trans ho))
      subst hcd
      exact ⟨xs, ht, Nat.lt_succ_self _⟩
    · have hm2 : a ∈ xs.map Prod.fst := by
        rcases List.mem_cons.mp hm with h1 | h1
        · exact absurd h1 hab
        · exact h1
      obtain ⟨L2, h2, hl⟩ := ih _ ht hm2
      exact ⟨L2, h2, Nat.lt_succ_of_lt hl⟩

theorem OrChain_head_not_mem (os : List (Option OrCondition)) (p : Option Addr) (a : Nat)
    (o : OrCondition) (rest : List (Addr × OrCondition)) (hch : OrChain os p ((a, o) :: rest)) :
    a ∉ rest.map Prod.fst := by
  intro hm
  obtain ⟨L2, h2, hl⟩ := OrChain_shorter os a o hch.2.1 rest _ hch.2.2 hm
  have := OrChain_det os L2 _ rest h2 hch.2.2
  rw [this] at hl
  exact Nat.lt_irrefl _ hl

/-- The nodes of a finite null-terminated OR-chain are pairwise distinct. -/
theorem OrChain_nodup (os : List (Option OrCondition)) (L : List (Addr × OrCondition)) :
    ∀ (p : Option Addr), OrChain os p L → (L.map Prod.fst).Nodup := by
  induction L with
  | nil =>
    intro p _
    exact List.nodup_nil
  | cons x xs ih =>
    intro p hch
    obtain ⟨a, o⟩ := x
    exact List.nodup_cons.mpr ⟨OrChain_head_not_mem os p a o xs hch, ih _ hch.2.2⟩

theorem OrChain_set (os : List (Option OrCondition)) (a : Nat) (x : Option OrCondition)
    (L : List (Addr × OrCondition)) :
    ∀ (p : Option Addr), OrChain os p L → a ∉ L.map Prod.fst → OrChain (os.set a x) p L := by
  induction L with
  | nil =>
    intro p hch _
    exact hch
  | cons y ys ih =>
    intro p hch hm
    obtain ⟨b, d⟩ := y
    obtain ⟨hp, hg, ht⟩ := hch
    have hab : a ≠ b := fun he => hm (by simp [he])
    have hm2 : a ∉ ys.map Prod.fst := fun he => hm (List.mem_cons_of_mem _ he)
    refine ⟨hp, ?_, ih _ ht hm2⟩
    rw [List.getElem?_set_ne hab]
    exact hg

theorem OrDestructorLoop_none (del : Heap P → Addr → Except Fault (Heap P)) (fuel : Nat)
    (h : Heap P) : OrCondition.destructorLoop del fuel h none = .ok h := by
  cases fuel <;> rfl

theorem freeOr_of_get (h : Heap P) (a : Nat) (o : OrCondition)
    (ho : h.ors[a]? = some (some o)) :
    h.freeOr a = .ok { h with ors := h.ors.set a none,
                               log := h.log ++ [Event.orCond a o.m_nextOr] } := by
  simp [Heap.freeOr, ho]

/-- The release of an `OrCondition` that has no successor: its AND-chain goes,
then the node itself. -/
theorem Delete_Instance_OrCondition_detached (MAX fuelAnd fuel : Nat) (h : Heap P) (a : Nat)
    (o : OrCondition) (La : List (Addr × Condition))
    (ho : h.ors[a]? = some (some o)) (hnext : o.m_nextOr = none)
    (hch : AndChain h.conds o.m_firstAnd La)
    (hs : ∀ y ∈ La, y.2.SlotsOk MAX)
    (hnd : (chainVisited MAX La).Nodup)
    (hlive : ∀ q ∈ chainVisited MAX La, ∃ v, h.params[q]? = some (some v))
    (hf : La.length ≤ fuelAnd) :
    ∃ h2 : Heap P,
      (OrCondition.destructor MAX fuelAnd (fuel + 1) h a).bind (fun g1 => g1.freeOr a) = .ok h2 ∧
      h2.log = h.log ++ (andChainEvents MAX La ++ [Event.orCond a none]) ∧
      h2.ors = h.ors.set a none ∧
      (∀ (b : Nat), h2.conds[b]? = if b ∈ La.map Prod.fst then some none else h.conds[b]?) ∧
      (∀ (q : Nat), h2.params[q]? =
        if q ∈ chainVisited MAX La then some none else h.params[q]?) := by
  obtain ⟨nx, fa⟩ := o
  have hnx : nx = none := hnext
  subst hnx
  obtain ⟨h1, hrun, hlog, hors, hconds, hpar⟩ :=
    Delete_Instance_Condition_and MAX fuelAnd h fa La hch hs hnd hlive hf
  have ho1 : h1.ors[a]? = some (some (⟨none, fa⟩ : OrCondition)) := by rw [hors]; exact ho
  have hlt : a < h1.ors.length := getElem?_some_lt _ _ _ ho1
  let h2 : Heap P := { h1 with ors := h1.ors.set a (some (⟨none, none⟩ : OrCondition)) }
  have ho2 : h2.ors[a]? = some (some (⟨none, none⟩ : OrCondition)) := by
    show (h1.ors.set a _)[a]? = _
    rw [List.getElem?_set_self hlt]
  have hdes : OrCondition.destructor MAX fuelAnd (fuel + 1) h a = .ok h2 := by
    show (do
      let o ← h.readOr a
      let h1 ← Delete_Instance_Condition MAX fuelAnd h o.m_firstAnd
      let o1 ← h1.readOr a
      let h2 ← h1.writeOr a { o1 with m_firstAnd := none }
      let o2 ← h2.readOr a
      OrCondition.destructorLoop
        (fun g a => do
          let g1 ← OrCondition.destructor MAX fuelAnd fuel g a
          g1.freeOr a)
        fuel h2 o2.m_nextOr) = _
    rw [readOr_of_get h a _ ho]
    simp only [Except.bind, bind, hrun]
    rw [readOr_of_get h1 a _ ho1]
    simp only [writeOr_of_get h1 a _ _ ho1]
    rw [readOr_of_get h2 a _ ho2]
    exact OrDestructorLoop_none _ _ _
  refine ⟨{ h2 with ors := h2.ors.set a none,
                    log := h2.log ++ [Event.orCond a none] }, ?_, ?_, ?_, hconds, hpar⟩
  · rw [hdes]
    show h2.freeOr a = _
    rw [freeOr_of_get h2 a _ ho2]
  · show h1.log ++ [Event.orCond a none] = _
    rw [hlog, List.append_assoc]
  · show (h1.ors.set a _).set a none = _
    rw [List.set_set, hors]

theorem mem_treeConds (T : List ((Addr × OrCondition) × List (Addr × Condition)))
    (x : (Addr × OrCondition) × List (Addr × Condition)) (hx : x ∈ T) (b : Nat)
    (hb : b ∈ x.2.map Prod.fst) : b ∈ treeConds T := by
  induction T with
  | nil => simp at hx
  | cons y ys ih =>
    show b ∈ y.2.map Prod.fst ++ treeConds ys
    rcases List.mem_cons.mp hx with h1 | h1
    · subst h1
      exact List.mem_append_left _ hb
    · exact List.mem_append_right _ (ih h1)

theorem mem_treeVisited (MAX : Nat) (T : List ((Addr × OrCondition) × List (Addr × Condition)))
    (x : (Addr × OrCondition) × List (Addr × Condition)) (hx : x ∈ T) (q : Nat)
    (hq : q ∈ chainVisited MAX x.2) : q ∈ treeVisited MAX T := by
  induction T with
  | nil => simp at hx
  | cons y ys ih =>
    show q ∈ chainVisited MAX y.2 ++ treeVisited MAX ys
    rcases List.mem_cons.mp hx with h1 | h1
    · subst h1
      exact List.mem_append_left _ hq
    · exact List.mem_append_right _ (ih h1)

/-- The loop of `OrCondition::~OrCondition` over the successors: each one is
detached, then released together with its AND-chain. -/
theorem OrDestructorLoop_chain (MAX fuelAnd k : Nat)
    (del : Heap P → Addr → Except Fault (Heap P))
    (hdel : ∀ (g : Heap P) (a : Addr),
      del g a = (OrCondition.destructor MAX fuelAnd (k + 1) g a).bind (fun g1 => g1.freeOr a))
    (rest : List ((Addr × OrCondition) × List (Addr × Condition))) :
    ∀ (fl : Nat) (g : Heap P) (p : Option Addr),
      OrChain g.ors p (rest.map Prod.fst) →
      (∀ x ∈ rest, AndChain g.conds x.1.2.m_firstAnd x.2) →
      (∀ x ∈ rest, ∀ y ∈ x.2, y.2.SlotsOk MAX) →
      (treeConds rest).Nodup →
      (treeVisited MAX rest).Nodup →
      (∀ q ∈ treeVisited MAX rest, ∃ v, g.params[q]? = some (some v)) →
      (∀ x ∈ rest, x.2.length ≤ fuelAnd) →
      rest.length ≤ fl →
      ∃ g2 : Heap P,
        OrCondition.destructorLoop del fl g p = .ok g2 ∧
        g2.log = g.log ++ orSuccessorEvents MAX rest ∧
        (∀ (b : Nat), g2.ors[b]? =
          if b ∈ (rest.map Prod.fst).map Prod.fst then some none else g.ors[b]?) ∧
        (∀ (b : Nat), g2.conds[b]? = if b ∈ treeConds rest then some none else g.conds[b]?) ∧
        (∀ (q : Nat), g2.params[q]? =
          if q ∈ treeVisited MAX rest then some none else g.params[q]?) := by
  induction rest with
  | nil =>
    intro fl g p hch _ _ _ _ _ _ _
    have hp : p = none := hch
    subst hp
    exact ⟨g, OrDestructorLoop_none _ _ _, by simp [orSuccessorEvents], fun b => by simp,
      fun b => by simp [treeConds], fun q => by simp [treeVisited]⟩
  | cons x rest ih =>
    intro fl g p hch hand hs hndc hndv hlive hfa hfl
    obtain ⟨⟨a, o⟩, La⟩ := x
    have hp : p = some a := hch.1
    subst hp
    have ho : g.ors[a]? = some (some o) := hch.2.1
    have hlt : a < g.ors.length := getElem?_some_lt _ _ _ ho
    have htail : OrChain g.ors o.m_nextOr (rest.map Prod.fst) := hch.2.2
    have hnotin : a ∉ (rest.map Prod.fst).map Prod.fst :=
      OrChain_head_not_mem g.ors (some a) a o (rest.map Prod.fst) hch
    obtain ⟨hndLa, hndc2, hdisjc⟩ := List.nodup_append.mp hndc
    obtain ⟨hndvLa, hndv2, hdisjv⟩ := List.nodup_append.mp hndv
    cases fl with
    | zero => simp at hfl
    | succ fl =>
      let g1 : Heap P := { g with ors := g.ors.set a (some { o with m_nextOr := none }) }
      have ho1 : g1.ors[a]? = some (some { o with m_nextOr := none }) := by
        show (g.ors.set a _)[a]? = _
        rw [List.getElem?_set_self hlt]
      obtain ⟨g2, hrun2, hlog2, hors2, hconds2, hpar2⟩ :=
        Delete_Instance_OrCondition_detached MAX fuelAnd k g1 a { o with m_nextOr := none } La
          ho1 rfl (hand _ (List.mem_cons_self _ _))
          (hs _ (List.mem_cons_self _ _)) hndvLa
          (fun q hq => hlive q (List.mem_append_left _ hq))
          (hfa _ (List.mem_cons_self _ _))
      have hors2b : g2.ors = g.ors.set a none := by
        rw [hors2]
        show (g.ors.set a _).set a none = _
        rw [List.set_set]
      obtain ⟨g3, hrun3, hlog3, hors3, hconds3, hpar3⟩ := ih fl g2 o.m_nextOr
        (by rw [hors2b]; exact OrChain_set g.ors a none _ _ htail hnotin)
        (fun x hx => AndChain_congr g.conds g2.conds x.2 _ (hand x (List.mem_cons_of_mem _ hx))
          (fun b hb => by
            rw [hconds2 b, if_neg]
            intro hb2
            exact hdisjc hb2 (mem_treeConds rest x hx b hb)))
        (fun x hx => hs x (List.mem_cons_of_mem _ hx))
        hndc2 hndv2
        (fun q hq => by
          rw [hpar2 q, if_neg]
          · exact hlive q (List.mem_append_right _ hq)
          · intro hq2
            exact hdisjv hq2 hq)
        (fun x hx => hfa x (List.mem_cons_of_mem _ hx))
        (by simpa using hfl)
      refine ⟨g3, ?_, ?_, ?_, ?_, ?_⟩
      · show (do
          let n ← g.readOr a
          let saved := n.m_nextOr
          let h1 ← g.writeOr a { n with m_nextOr := none }
          let h2 ← del h1 a
          OrCondition.destructorLoop del fl h2 saved) = _
        rw [readOr_of_get g a o ho]
        simp only [Except.bind, bind]
        rw [writeOr_of_get g a o _ ho]
        simp only []
        rw [hdel]
        have hrun2b : (OrCondition.destructor MAX fuelAnd (k + 1) g1 a).bind
            (fun g1 => g1.freeOr a) = .ok g2 := hrun2
        rw [hrun2b]
        exact hrun3
      · rw [hlog3, hlog2]
        show g.log ++ _ ++ _ = g.log ++ (andChainEvents MAX La ++ [Event.orCond a none] ++ _)
        simp only [List.append_assoc]
      · intro b
        rw [hors3 b, hors2b]
        show _ = if b ∈ a :: (rest.map Prod.fst).map Prod.fst then some none else g.ors[b]?
        by_cases hba : b = a
        · subst hba
          rw [if_neg hnotin, if_pos (List.mem_cons_self _ _), List.getElem?_set_self hlt]
        · rw [List.getElem?_set_ne (Ne.symm hba)]
          by_cases hbr : b ∈ (rest.map Prod.fst).map Prod.fst
          · rw [if_pos hbr, if_pos (List.mem_cons_of_mem _ hbr)]
          · rw [if_neg hbr, if_neg]
            intro hm
            rcases List.mem_cons.mp hm with h1 | h1
            · exact hba h1
            · exact hbr h1
      · intro b
        rw [hconds3 b, hconds2 b]
        show _ = if b ∈ La.map Prod.fst ++ treeConds rest then some none else g.conds[b]?
        by_cases h1 : b ∈ treeConds rest <;> by_cases h2 : b ∈ La.map Prod.fst <;>
          simp [h1, h2]
      · intro q
        rw [hpar3 q, hpar2 q]
        show _ = if q ∈ chainVisited MAX La ++ treeVisited MAX rest then some none
          else g.params[q]?
        by_cases h1 : q ∈ treeVisited MAX rest <;> by_cases h2 : q ∈ chainVisited MAX La <;>
          simp [h1, h2]

theorem releaseOrder_perm (La : List (Addr × Condition)) :
    (releaseOrder La).Perm (La.map Prod.fst) := by
  cases La with
  | nil => exact List.Perm.refl _
  | cons x rest => exact List.perm_append_comm

theorem treeReleaseOrder_perm (T : List ((Addr × OrCondition) × List (Addr × Condition))) :
    (treeReleaseOrder T).Perm (treeConds T) := by
  induction T with
  | nil => exact List.Perm.refl _
  | cons x rest ih => exact List.Perm.append (releaseOrder_perm x.2) ih

theorem filterMap_condAddr_andChainEvents (MAX : Nat) (La : List (Addr × Condition)) :
    (andChainEvents MAX La).filterMap Event.condAddr = releaseOrder La := by
  cases La with
  | nil => rfl
  | cons x rest =>
    simp [andChainEvents, releaseOrder, List.filterMap_append, filterMap_condAddr_params,
      filterMap_condAddr_successorEvents, Event.condAddr]

theorem filterMap_condAddr_orSuccessorEvents (MAX : Nat)
    (T : List ((Addr × OrCondition) × List (Addr × Condition))) :
    (orSuccessorEvents MAX T).filterMap Event.condAddr = treeReleaseOrder T := by
  induction T with
  | nil => rfl
  | cons x rest ih =>
    simp [orSuccessorEvents, treeReleaseOrder, List.filterMap_append,
      filterMap_condAddr_andChainEvents, Event.condAddr, ih]

theorem filterMap_orAddr_params (qs : List Addr) :
    (qs.map Event.param).filterMap Event.orAddr = [] := by
  induction qs with
  | nil => rfl
  | cons q qs ih => simp [Event.orAddr]

theorem filterMap_orAddr_successorEvents (MAX : Nat) (rest : List (Addr × Condition)) :
    (successorEvents MAX rest).filterMap Event.orAddr = [] := by
  induction rest with
  | nil => rfl
  | cons x rest ih =>
    simp [successorEvents, List.filterMap_append, filterMap_orAddr_params, Event.orAddr, ih]

theorem filterMap_orAddr_andChainEvents (MAX : Nat) (La : List (Addr × Condition)) :
    (andChainEvents MAX La).filterMap Event.orAddr = [] := by
  cases La with
  | nil => rfl
  | cons x rest =>
    simp [andChainEvents, List.filterMap_append, filterMap_orAddr_params,
      filterMap_orAddr_successorEvents, Event.orAddr]

theorem filterMap_orAddr_orSuccessorEvents (MAX : Nat)
    (T : List ((Addr × OrCondition) × List (Addr × Condition))) :
    (orSuccessorEvents MAX T).filterMap Event.orAddr = (T.map Prod.fst).map Prod.fst := by
  induction T with
  | nil => rfl
  | cons x rest ih =>
    simp [orSuccessorEvents, List.filterMap_append, filterMap_orAddr_andChainEvents,
      Event.orAddr, ih]

/-- The release of a whole tree of `OrCondition`s through its head: the AND-chain
of the head, then the successors with their AND-chains, then the head. -/
theorem Delete_Instance_OrCondition_tree (MAX fuelAnd fuel : Nat) (h : Heap P) (a0 : Nat)
    (o0 : OrCondition) (La0 : List (Addr × Condition))
    (rest : List ((Addr × OrCondition) × List (Addr × Condition)))
    (htree : OrTree h (some a0) (((a0, o0), La0) :: rest))
    (hs : ∀ x ∈ ((a0, o0), La0) :: rest, ∀ y ∈ x.2, y.2.SlotsOk MAX)
    (hndc : (treeConds (((a0, o0), La0) :: rest)).Nodup)
    (hndv : (treeVisited MAX (((a0, o0), La0) :: rest)).Nodup)
    (hlive : ∀ q ∈ treeVisited MAX (((a0, o0), La0) :: rest),
      ∃ v, h.params[q]? = some (some v))
    (hfa : ∀ x ∈ ((a0, o0), La0) :: rest, x.2.length ≤ fuelAnd)
    (hfl : rest.length + 1 ≤ fuel) :
    ∃ h2 : Heap P,
      Delete_Instance_OrCondition MAX fuelAnd fuel h (some a0) = .ok h2 ∧
      h2.log = h.log ++ (andChainEvents MAX La0 ++ orSuccessorEvents MAX rest ++
        [Event.orCond a0 o0.m_nextOr]) ∧
      (∀ (b : Nat), h2.ors[b]? =
        if b ∈ a0 :: (rest.map Prod.fst).map Prod.fst then some none else h.ors[b]?) ∧
      (∀ (b : Nat), h2.conds[b]? =
        if b ∈ treeConds (((a0, o0), La0) :: rest) then some none else h.conds[b]?) ∧
      (∀ (q : Nat), h2.params[q]? =
        if q ∈ treeVisited MAX (((a0, o0), La0) :: rest) then some none else h.params[q]?) := by
  obtain ⟨hor, hand⟩ := htree
  have ho : h.ors[a0]? = some (some o0) := hor.2.1
  have hlt : a0 < h.ors.length := getElem?_some_lt _ _ _ ho
  have htail : OrChain h.ors o0.m_nextOr (rest.map Prod.fst) := hor.2.2
  have hnotin : a0 ∉ (rest.map Prod.fst).map Prod.fst :=
    OrChain_head_not_mem h.ors (some a0) a0 o0 (rest.map Prod.fst) hor
  obtain ⟨_, hndc2, hdisjc⟩ := List.nodup_append.mp hndc
  obtain ⟨hndvLa, hndv2, hdisjv⟩ := List.nodup_append.mp hndv
  obtain ⟨h1, hrun1, hlog1, hors1, hconds1, hpar1⟩ :=
    Delete_Instance_Condition_and MAX fuelAnd h o0.m_firstAnd La0
      (hand _ (List.mem_cons_self _ _)) (hs _ (List.mem_cons_self _ _)) hndvLa
      (fun q hq => hlive q (List.mem_append_left _ hq)) (hfa _ (List.mem_cons_self _ _))
  have ho1 : h1.ors[a0]? = some (some o0) := by rw [hors1]; exact ho
  let h2 : Heap P := { h1 with ors := h1.ors.set a0 (some { o0 with m_firstAnd := none }) }
  have hors2 : h2.ors = h.ors.set a0 (some { o0 with m_firstAnd := none }) := by
    show h1.ors.set a0 _ = _
    rw [hors1]
  have ho2 : h2.ors[a0]? = some (some { o0 with m_firstAnd := none }) := by
    rw [hors2, List.getElem?_set_self hlt]
  cases fuel with
  | zero => simp at hfl
  | succ f =>
    have hloop : ∃ g3 : Heap P,
        OrCondition.destructorLoop
          (fun g a => do
            let g1 ← OrCondition.destructor MAX fuelAnd f g a
            g1.freeOr a) f h2 o0.m_nextOr = .ok g3 ∧
        g3.log = h2.log ++ orSuccessorEvents MAX rest ∧
        (∀ (b : Nat), g3.ors[b]? =
          if b ∈ (rest.map Prod.fst).map Prod.fst then some none else h2.ors[b]?) ∧
        (∀ (b : Nat), g3.conds[b]? = if b ∈ treeConds rest then some none else h2.conds[b]?) ∧
        (∀ (q : Nat), g3.params[q]? =
          if q ∈ treeVisited MAX rest then some none else h2.params[q]?) := by
      cases f with
      | zero =>
        have hr : rest = [] := List.length_eq_zero.mp (by omega)
        subst hr
        have hn : o0.m_nextOr = none := htail
        rw [hn]
        exact ⟨h2, OrDestructorLoop_none _ _ _, by simp [orSuccessorEvents], fun b => by simp,
          fun b => by simp [treeConds], fun q => by simp [treeVisited]⟩
      | succ k =>
        exact OrDestructorLoop_chain MAX fuelAnd k _ (fun g a => rfl) rest (k + 1) h2
          o0.m_nextOr
          (by rw [hors2]; exact OrChain_set h.ors a0 _ _ _ htail hnotin)
          (fun x hx => AndChain_congr h.conds h1.conds x.2 _
            (hand x (List.mem_cons_of_mem _ hx))
            (fun b hb => by
              rw [hconds1 b, if_neg]
              intro hb2
              exact hdisjc hb2 (mem_treeConds rest x hx b hb)))
          (fun x hx => hs x (List.mem_cons_of_mem _ hx))
          hndc2 hndv2
          (fun q hq => by
            show ∃ v, h1.params[q]? = some (some v)
            rw [hpar1 q, if_neg]
            · exact hlive q (List.mem_append_right _ hq)
            · intro hq2
              exact hdisjv hq2 hq)
          (fun x hx => hfa x (List.mem_cons_of_mem _ hx))
          (by omega)
    obtain ⟨g3, hrun3, hlog3, hors3, hconds3, hpar3⟩ := hloop
    have ho3 : g3.ors[a0]? = some (some { o0 with m_firstAnd := none }) := by
      rw [hors3 a0, if_neg hnotin]
      exact ho2
    have hlt3 : a0 < g3.ors.length := getElem?_some_lt _ _ _ ho3
    have hdes : OrCondition.destructor MAX fuelAnd (f + 1) h a0 = .ok g3 := by
      show (do
        let o ← h.readOr a0
        let h1 ← Delete_Instance_Condition MAX fuelAnd h o.m_firstAnd
        let o1 ← h1.readOr a0
        let h2 ← h1.writeOr a0 { o1 with m_firstAnd := none }
        let o2 ← h2.readOr a0
        OrCondition.destructorLoop
          (fun g a => do
            let g1 ← OrCondition.destructor MAX fuelAnd f g a
            g1.freeOr a)
          f h2 o2.m_nextOr) = _
      rw [readOr_of_get h a0 o0 ho]
      simp only [Except.bind, bind, hrun1]
      rw [readOr_of_get h1 a0 o0 ho1]
      simp only [writeOr_of_get h1 a0 o0 _ ho1]
      rw [readOr_of_get h2 a0 _ ho2]
      exact hrun3
    refine ⟨{ g3 with ors := g3.ors.set a0 none,
                      log := g3.log ++ [Event.orCond a0 o0.m_nextOr] }, ?_, ?_, ?_, ?_, ?_⟩
    · show (do
        let h1 ← OrCondition.destructor MAX fuelAnd (f + 1) h a0
        h1.freeOr a0) = _
      rw [hdes]
      show g3.freeOr a0 = _
      rw [freeOr_of_get g3 a0 _ ho3]
    · show g3.log ++ _ = _
      rw [hlog3]
      show h1.log ++ _ ++ _ = _
      rw [hlog1]
      simp only [List.append_assoc]
    · intro b
      show (g3.ors.set a0 none)[b]? = _
      by_cases hba : b = a0
      · subst hba
        rw [List.getElem?_set_self hlt3, if_pos (List.mem_cons_self _ _)]
      · rw [List.getElem?_set_ne (Ne.symm hba), hors3 b, hors2,
          List.getElem?_set_ne (Ne.symm hba)]
        by_cases hbr : b ∈ (rest.map Prod.fst).map Prod.fst
        · rw [if_pos hbr, if_pos (List.mem_cons_of_mem _ hbr)]
        · rw [if_neg hbr, if_neg]
          intro hm
          rcases List.mem_cons.mp hm with e1 | e1
          · exact hba e1
          · exact hbr e1
    · intro b
      show g3.conds[b]? = _
      rw [hconds3 b]
      show _ = if b ∈ La0.map Prod.fst ++ treeConds rest then some none else h.conds[b]?
      have e2 : h2.conds[b]? = h1.conds[b]? := rfl
      rw [e2, hconds1 b]
      by_cases e1 : b ∈ treeConds rest <;> by_cases e3 : b ∈ La0.map Prod.fst <;>
        simp [e1, e3]
    · intro q
      show g3.params[q]? = _
      rw [hpar3 q]
      show _ = if q ∈ chainVisited MAX La0 ++ treeVisited MAX rest then some none
        else h.params[q]?
      have e2 : h2.params[q]? = h1.params[q]? := rfl
      rw [e2, hpar1 q]
      by_cases e1 : q ∈ treeVisited MAX rest <;> by_cases e3 : q ∈ chainVisited MAX La0 <;>
        simp [e1, e3]

/-- C11: destroying the head of an OR-chain of `rest.length + 1` nodes whose
AND-chains share no `Condition` (and whose `Condition` destructors can run: slot
arrays of the declared size, visited parameters live and pairwise distinct)
returns, for any fuel that covers the chains.  The `OrCondition` releases it
records are the successors in chain order followed by the head, pairwise
distinct; the `Condition` releases are, AND-chain after AND-chain in OR-chain
order, the nodes of each AND-chain, pairwise distinct and altogether a
permutation of the `Condition`s of the tree.  The record starts with the
AND-chain of the head, continues with the successors, each released with
`m_nextOr` already `nullptr` right after its own AND-chain, and ends with the
head; afterwards every one of these nodes is released and no other cell has
changed. -/
theorem C11_destroy_or_chain_releases_each_node_once (MAX fuelAnd fuel : Nat) (h : Heap P)
    (a0 : Nat) (o0 : OrCondition) (La0 : List (Addr × Condition))
    (rest : List ((Addr × OrCondition) × List (Addr × Condition)))
    (htree : OrTree h (some a0) (((a0, o0), La0) :: rest))
    (hs : ∀ x ∈ ((a0, o0), La0) :: rest, ∀ y ∈ x.2, y.2.SlotsOk MAX)
    (hndc : (treeConds (((a0, o0), La0) :: rest)).Nodup)
    (hndv : (treeVisited MAX (((a0, o0), La0) :: rest)).Nodup)
    (hlive : ∀ q ∈ treeVisited MAX (((a0, o0), La0) :: rest),
      ∃ v, h.params[q]? = some (some v))
    (hfa : ∀ x ∈ ((a0, o0), La0) :: rest, x.2.length ≤ fuelAnd)
    (hfl : rest.length + 1 ≤ fuel) :
    ∃ h2 : Heap P,
      Delete_Instance_OrCondition MAX fuelAnd fuel h (some a0) = .ok h2 ∧
      (h2.log.drop h.log.length).filterMap Event.orAddr =
        (rest.map Prod.fst).map Prod.fst ++ [a0] ∧
      ((rest.map Prod.fst).map Prod.fst ++ [a0]).Nodup ∧
      (h2.log.drop h.log.length).filterMap Event.condAddr =
        treeReleaseOrder (((a0, o0), La0) :: rest) ∧
      (treeReleaseOrder (((a0, o0), La0) :: rest)).Nodup ∧
      (treeReleaseOrder (((a0, o0), La0) :: rest)).Perm (treeConds (((a0, o0), La0) :: rest)) ∧
      h2.log = h.log ++ (andChainEvents MAX La0 ++ orSuccessorEvents MAX rest ++
        [Event.orCond a0 o0.m_nextOr]) ∧
      (∀ (b : Nat), h2.ors[b]? =
        if b ∈ a0 :: (rest.map Prod.fst).map Prod.fst then some none else h.ors[b]?) ∧
      (∀ (b : Nat), h2.conds[b]? =
        if b ∈ treeConds (((a0, o0), La0) :: rest) then some none else h.conds[b]?) := by
  obtain ⟨h2, hrun, hlog, hors, hconds, _⟩ :=
    Delete_Instance_OrCondition_tree MAX fuelAnd fuel h a0 o0 La0 rest htree hs hndc hndv hlive
      hfa hfl
  refine ⟨h2, hrun, ?_, ?_, ?_, ?_, treeReleaseOrder_perm _, hlog, hors, hconds⟩
  · rw [hlog, List.drop_left]
    simp [List.filterMap_append, filterMap_orAddr_andChainEvents,
      filterMap_orAddr_orSuccessorEvents, Event.orAddr]
  · have := OrChain_nodup h.ors _ _ htree.1
    rw [List.nodup_append_comm]
    exact this
  · rw [hlog, List.drop_left]
    simp [List.filterMap_append, filterMap_condAddr_andChainEvents,
      filterMap_condAddr_orSuccessorEvents, Event.condAddr, treeReleaseOrder]
  · exact (treeReleaseOrder_perm _).nodup_iff.mpr hndc

theorem destroyOrHeap_tree :
    OrTree destroyOrHeap (some 0)
      (((0, { m_nextOr := some 1, m_firstAnd := some 0 }), (0, destroyHead) :: destroyRest) ::
        destroyOrRest) := by
  refine ⟨⟨rfl, rfl, rfl, rfl, rfl, rfl, rfl⟩, ?_⟩
  intro x hx
  simp only [destroyOrRest, List.mem_cons, List.mem_singleton, List.not_mem_nil, or_false] at hx
  rcases hx with rfl | rfl | rfl
  · exact ⟨rfl, rfl, rfl, rfl, rfl⟩
  · exact ⟨rfl, rfl, rfl⟩
  · exact rfl

theorem destroyOrHeap_slotsOk :
    ∀ x ∈ ((0, ({ m_nextOr := some 1, m_firstAnd := some 0 } : OrCondition)),
        (0, destroyHead) :: destroyRest) :: destroyOrRest,
      ∀ y ∈ x.2, y.2.SlotsOk 2 := by
  intro x hx y hy
  simp only [destroyOrRest, destroyRest, List.mem_cons, List.mem_singleton, List.not_mem_nil,
    or_false] at hx
  rcases hx with rfl | rfl | rfl
  · simp only [List.mem_cons, List.mem_singleton, List.not_mem_nil, or_false] at hy
    rcases hy with rfl | rfl
    · exact ⟨rfl, by decide⟩
    · exact ⟨rfl, by decide⟩
  · simp only [List.mem_cons, List.mem_singleton, List.not_mem_nil, or_false] at hy
    subst hy
    exact ⟨rfl, by decide⟩
  · simp at hy

theorem destroyOrHeap_live :
    ∀ q ∈ treeVisited 2 (((0, ({ m_nextOr := some 1, m_firstAnd := some 0 } : OrCondition)),
        (0, destroyHead) :: destroyRest) :: destroyOrRest),
      ∃ v, destroyOrHeap.params[q]? = some (some v) := by
  intro q hq
  have hv : treeVisited 2 (((0, ({ m_nextOr := some 1, m_firstAnd := some 0 } : OrCondition)),
      (0, destroyHead) :: destroyRest) :: destroyOrRest) = [0, 1, 2] := rfl
  rw [hv] at hq
  simp only [List.mem_cons, List.mem_singleton, List.not_mem_nil, or_false] at hq
  rcases hq with rfl | rfl | rfl
  · exact ⟨7, rfl⟩
  · exact ⟨8, rfl⟩
  · exact ⟨9, rfl⟩

theorem destroyOrHeap_fuel :
    ∀ x ∈ ((0, ({ m_nextOr := some 1, m_firstAnd := some 0 } : OrCondition)),
        (0, destroyHead) :: destroyRest) :: destroyOrRest, x.2.length ≤ 2 := by
  intro x hx
  simp only [destroyOrRest, destroyRest, List.mem_cons, List.mem_singleton, List.not_mem_nil,
    or_false] at hx
  rcases hx with rfl | rfl | rfl <;> decide

/-- C11 (instance): the three-node OR-chain of `destroyOrHeap`, whose head owns a
two-node AND-chain and whose first successor owns a one-node AND-chain. -/
theorem C11_destroy_or_chain_releases_each_node_once_witness :
    OrTree destroyOrHeap (some 0)
      (((0, { m_nextOr := some 1, m_firstAnd := some 0 }), (0, destroyHead) :: destroyRest) ::
        destroyOrRest) ∧
    (treeConds (((0, ({ m_nextOr := some 1, m_firstAnd := some 0 } : OrCondition)),
        (0, destroyHead) :: destroyRest) :: destroyOrRest)).Nodup ∧
    (treeVisited 2 (((0, ({ m_nextOr := some 1, m_firstAnd := some 0 } : OrCondition)),
        (0, destroyHead) :: destroyRest) :: destroyOrRest)).Nodup ∧
    ∃ h2 : Heap Nat,
      Delete_Instance_OrCondition 2 2 3 destroyOrHeap (some 0) = .ok h2 ∧
      (h2.log.drop destroyOrHeap.log.length).filterMap Event.orAddr =
        (destroyOrRest.map Prod.fst).map Prod.fst ++ [0] ∧
      ((destroyOrRest.map Prod.fst).map Prod.fst ++ [0]).Nodup ∧
      (h2.log.drop destroyOrHeap.log.length).filterMap Event.condAddr =
        treeReleaseOrder (((0, { m_nextOr := some 1, m_firstAnd := some 0 }),
          (0, destroyHead) :: destroyRest) :: destroyOrRest) ∧
      (treeReleaseOrder (((0, ({ m_nextOr := some 1, m_firstAnd := some 0 } : OrCondition)),
        (0, destroyHead) :: destroyRest) :: destroyOrRest)).Nodup ∧
      (treeReleaseOrder (((0, ({ m_nextOr := some 1, m_firstAnd := some 0 } : OrCondition)),
        (0, destroyHead) :: destroyRest) :: destroyOrRest)).Perm
        (treeConds (((0, ({ m_nextOr := some 1, m_firstAnd := some 0 } : OrCondition)),
          (0, destroyHead) :: destroyRest) :: destroyOrRest)) ∧
      h2.log = destroyOrHeap.log ++ (andChainEvents 2 ((0, destroyHead) :: destroyRest) ++
        orSuccessorEvents 2 destroyOrRest ++ [Event.orCond 0 (some 1)]) ∧
      (∀ (b : Nat), h2.ors[b]? =
        if b ∈ 0 :: (destroyOrRest.map Prod.fst).map Prod.fst then some none
        else destroyOrHeap.ors[b]?) ∧
      (∀ (b : Nat), h2.conds[b]? =
        if b ∈ treeConds (((0, ({ m_nextOr := some 1, m_firstAnd := some 0 } : OrCondition)),
          (0, destroyHead) :: destroyRest) :: destroyOrRest) then some none
        else destroyOrHeap.conds[b]?) :=
  ⟨destroyOrHeap_tree, by decide, by decide,
    C11_destroy_or_chain_releases_each_node_once 2 2 3 destroyOrHeap 0
      { m_nextOr := some 1, m_firstAnd := some 0 } ((0, destroyHead) :: destroyRest)
      destroyOrRest destroyOrHeap_tree destroyOrHeap_slotsOk (by decide) (by decide)
      destroyOrHeap_live destroyOrHeap_fuel (by decide)⟩

/-! ## The two chain copies of `Condition` have one shape -/

theorem DuplicateLoop_eq_copyLoop (ctor : ConditionCtor P) :
    ∀ (fuel : Nat) (h : Heap P) (new_cond : Addr) (p : Option Addr),
      Condition.DuplicateLoop ctor fuel h new_cond p =
        Condition.copyLoop ctor Condition.copyParam fuel h new_cond p := by
  intro fuel
  induction fuel with
  | zero =>
    intro h new_cond p
    cases p <;> rfl
  | succ fuel ih =>
    intro h new_cond p
    cases p with
    | none => rfl
    | some next =>
      simp only [Condition.DuplicateLoop, Condition.copyLoop, ih]

theorem Duplicate_eq_copyChain (ctor : ConditionCtor P) (fuel : Nat) (h : Heap P) (this : Addr) :
    Condition.Duplicate ctor fuel h this =
      Condition.copyChain ctor Condition.copyParam fuel h this := by
  simp only [Condition.Duplicate, Condition.copyChain, DuplicateLoop_eq_copyLoop]

theorem Duplicate_And_QualifyLoop_eq_copyLoop (ctor : ConditionCtor P)
    (Qualify : P → AsciiString → AsciiString → AsciiString → P) (s1 s2 s3 : AsciiString) :
    ∀ (fuel : Nat) (h : Heap P) (new_cond : Addr) (p : Option Addr),
      Condition.Duplicate_And_QualifyLoop ctor Qualify s1 s2 s3 fuel h new_cond p =
        Condition.copyLoop ctor (Condition.copyParamQualify Qualify s1 s2 s3)
          fuel h new_cond p := by
  intro fuel
  induction fuel with
  | zero =>
    intro h new_cond p
    cases p <;> rfl
  | succ fuel ih =>
    intro h new_cond p
    cases p with
    | none => rfl
    | some next =>
      simp only [Condition.Duplicate_And_QualifyLoop, Condition.copyLoop, ih]

theorem Duplicate_And_Qualify_eq_copyChain (ctor : ConditionCtor P)
    (Qualify : P → AsciiString → AsciiString → AsciiString → P) (s1 s2 s3 : AsciiString)
    (fuel : Nat) (h : Heap P) (this : Addr) :
    Condition.Duplicate_And_Qualify ctor Qualify s1 s2 s3 fuel h this =
      Condition.copyChain ctor (Condition.copyParamQualify Qualify s1 s2 s3) fuel h this := by
  simp only [Condition.Duplicate_And_Qualify, Condition.copyChain,
    Duplicate_And_QualifyLoop_eq_copyLoop]

theorem readParam_of_get (h : Heap P) (q : Nat) (v : P) (hq : h.params[q]? = some (some v)) :
    h.readParam (some q) = .ok v := by
  simp [Heap.readParam, hq]

theorem writeParam_of_get (h : Heap P) (q : Nat) (v w : P)
    (hq : h.params[q]? = some (some w)) :
    h.writeParam (some q) v = .ok { h with params := h.params.set q (some v) } := by
  simp [Heap.writeParam, hq]

theorem slot_of_get (c : Condition) (i : Nat) (p : Option Addr) (hp : c.m_params[i]? = some p) :
    c.slot i = .ok p := by
  simp [Condition.slot, hp]

/-- The statement of the inner loop of `Condition::Duplicate` copies the value. -/
theorem copyParam_CopiesSlot :
    CopiesSlot (fun v : P => v) (fun _ _ => []) Condition.copyParam := by
  intro dst src i h s d qs qd v w hs hsq hv hd hdq hw
  simp only [Condition.copyParam, bind, Except.bind, readCond_of_get h src s hs,
    slot_of_get s i _ hsq, readParam_of_get h qs v hv, readCond_of_get h dst d hd,
    slot_of_get d i _ hdq, writeParam_of_get h qd v w hw, List.append_nil]

/-- The statements of the inner loop of `Condition::Duplicate_And_Qualify` copy the
value, then qualify the copy, and record the call. -/
theorem copyParamQualify_CopiesSlot
    (Qualify : P → AsciiString → AsciiString → AsciiString → P) (s1 s2 s3 : AsciiString) :
    CopiesSlot (fun v : P => Qualify v s1 s2 s3) (fun a i => [Event.qualify a i])
      (Condition.copyParamQualify Qualify s1 s2 s3) := by
  intro dst src i h s d qs qd v w hs hsq hv hd hdq hw
  have hlt : qd < h.params.length := getElem?_some_lt _ _ _ hw
  have hcopy := copyParam_CopiesSlot dst src i h s d qs qd v w hs hsq hv hd hdq hw
  simp only [List.append_nil] at hcopy
  have hv1 : ({ h with params := h.params.set qd (some v) } : Heap P).params[qd]? =
      some (some v) := by
    show (h.params.set qd (some v))[qd]? = _
    rw [List.getElem?_set_self hlt]
  have hd1 : Heap.readCond ({ h with params := h.params.set qd (some v) } : Heap P) dst =
      .ok d := readCond_of_get _ dst d hd
  have hr1 : Heap.readParam ({ h with params := h.params.set qd (some v) } : Heap P) (some qd) =
      .ok v := readParam_of_get _ qd v hv1
  have hw1 : Heap.writeParam ({ h with params := h.params.set qd (some v) } : Heap P) (some qd)
      (Qualify v s1 s2 s3) = _ := writeParam_of_get _ qd _ v hv1
  simp only [Condition.copyParamQualify, bind, Except.bind, hcopy, hd1, slot_of_get d i _ hdq,
    hr1, hw1, pure, Except.pure, List.set_set]

theorem forRange_succ_last {σ : Type} (body : Nat → σ → Except Fault σ) (n : Nat) :
    ∀ (i : Nat) (s : σ),
      forRange body i (n + 1) s = (forRange body i n s).bind (body (i + n)) := by
  induction n with
  | zero =>
    intro i s
    simp only [forRange, Nat.add_zero, Except.bind]
    cases body i s <;> rfl
  | succ n ih =>
    intro i s
    have e : forRange body i (n + 1 + 1) s =
        (match body i s with
          | .ok s1 => forRange body (i + 1) (n + 1) s1
          | .error e => .error e) := rfl
    have e2 : forRange body i (n + 1) s =
        (match body i s with
          | .ok s1 => forRange body (i + 1) n s1
          | .error e => .error e) := rfl
    rw [e, e2]
    cases body i s with
    | error e => rfl
    | ok s1 =>
      simp only []
      rw [ih (i + 1) s1]
      have : i + 1 + n = i + (n + 1) := by omega
      rw [this]

theorem getElem?_append_append_cons {α : Type} (A X Z : List α) (y : α) :
    (A ++ (X ++ y :: Z))[A.length + X.length]? = some y := by
  rw [← List.append_assoc]
  have := getElem?_append_length (A ++ X) y Z
  simpa using this

theorem set_append_append_cons {α : Type} (A X Z : List α) (y y2 : α) :
    (A ++ (X ++ y :: Z)).set (A.length + X.length) y2 = A ++ ((X ++ [y2]) ++ Z) := by
  rw [← List.append_assoc]
  have := set_append_length (A ++ X) y y2 Z
  simp only [List.length_append] at this
  rw [this]
  simp

/-- The inner loop of a chain copy, run on a node that the constructor has just
provisioned: slot by slot the parameters of the new node receive `f` of the
values of the source. -/
theorem forRange_copies (f : P → P) (ev : Addr → Nat → List Event)
    (body : Addr → Addr → Nat → Heap P → Except Fault (Heap P)) (hbody : CopiesSlot f ev body)
    (h0 g : Heap P) (dst src : Nat) (s d : Condition) (A : List (Option P)) (init : List P)
    (hg : g.params = A ++ init.map some)
    (hs : g.conds[src]? = some (some s)) (hd : g.conds[dst]? = some (some d))
    (hdst : ∀ i, i < init.length → d.m_params[i]? = some (some (A.length + i)))
    (hsrc : ∀ i, i < init.length → ∃ (q : Nat) (v : P),
      s.m_params[i]? = some (some q) ∧ A[q]? = some (some v) ∧ s.value h0 i = some v) :
    ∀ j, j ≤ init.length →
      forRange (body dst src) 0 j g =
        .ok { g with
          params := A ++ ((List.range j).map (fun i => (s.value h0 i).map f) ++
            (init.drop j).map some)
          log := g.log ++ slotEvents ev dst j } := by
  intro j
  induction j with
  | zero =>
    intro _
    rw [forRange_zero]
    simp only [List.range_zero, List.map_nil, List.nil_append, List.drop_zero, slotEvents,
      List.append_nil, ← hg]
  | succ j ih =>
    intro hj
    have hjlt : j < init.length := hj
    rw [forRange_succ_last, ih (Nat.le_of_lt hjlt)]
    simp only [Except.bind, Nat.zero_add]
    obtain ⟨q, v, hq, hAq, hval⟩ := hsrc j hjlt
    have hdrop : (init.drop j).map some =
        some (init.get ⟨j, hjlt⟩) :: (init.drop (j + 1)).map some := by
      rw [List.drop_eq_getElem_cons hjlt]
      rfl
    have hXlen : ((List.range j).map (fun i => (s.value h0 i).map f)).length = j := by simp
    have hcell : (A ++ ((List.range j).map (fun i => (s.value h0 i).map f) ++
        (init.drop j).map some))[A.length + j]? = some (some (init.get ⟨j, hjlt⟩)) := by
      rw [hdrop]
      have := getElem?_append_append_cons A ((List.range j).map (fun i => (s.value h0 i).map f))
        ((init.drop (j + 1)).map some) (some (init.get ⟨j, hjlt⟩))
      rw [hXlen] at this
      exact this
    have hstep := hbody dst src j
      ({ g with
          params := A ++ ((List.range j).map (fun i => (s.value h0 i).map f) ++
            (init.drop j).map some)
          log := g.log ++ slotEvents ev dst j } : Heap P)
      s d q (A.length + j) v (init.get ⟨j, hjlt⟩) hs hq
      (getElem?_append_of_some _ _ _ _ hAq) hd (hdst j hjlt) hcell
    rw [hstep]
    have hset : (A ++ ((List.range j).map (fun i => (s.value h0 i).map f) ++
        (init.drop j).map some)).set (A.length + j) (some (f v)) =
        A ++ ((List.range (j + 1)).map (fun i => (s.value h0 i).map f) ++
          (init.drop (j + 1)).map some) := by
      rw [hdrop]
      have := set_append_append_cons A ((List.range j).map (fun i => (s.value h0 i).map f))
        ((init.drop (j + 1)).map some) (some (init.get ⟨j, hjlt⟩)) (some (f v))
      rw [hXlen] at this
      rw [this, List.range_succ, List.map_append]
      simp [hval]
    simp only [hset, slotEvents, List.append_assoc]

theorem provisioned_slot (MAX k base : Nat) (t : ConditionType) (i : Nat) (hi : i < k) :
    (Condition.provisioned MAX k base t).m_params[i]? = some (some (base + i)) := by
  show ((List.range k).map (fun i => some (base + i)) ++ List.replicate (MAX - k) none)[i]? = _
  rw [List.getElem?_append_left (by simpa using hi)]
  simp [List.getElem?_range, hi]

theorem value_of_get (h : Heap P) (c : Condition) (i q : Nat) (v : P)
    (hq : c.m_params[i]? = some (some q)) (hv : h.params[q]? = some (some v)) :
    c.value h i = some v := by
  simp [Condition.value, hq, hv]

/-- One round of the chain loop of a copy: the constructor appends the new node
and its parameters, the last node is linked to it, and the inner loop fills the
new parameters. -/
theorem copyLoop_step (MAX : Nat) (numParamsOf : ConditionType → Nat) (ctor : ConditionCtor P)
    (hctor : Provisions MAX numParamsOf ctor) (f : P → P) (ev : Addr → Nat → List Event)
    (body : Addr → Addr → Nat → Heap P → Except Fault (Heap P)) (hbody : CopiesSlot f ev body)
    (h0 g : Heap P) (pre : List (Option Condition)) (last : Condition) (a : Nat)
    (c : Condition) (Y : List (Option P)) (fuel : Nat)
    (hpre : g.conds = pre ++ [some last]) (hpar : g.params = h0.params ++ Y)
    (ha : pre[a]? = some (some c)) (hwf : c.ProvisionedIn numParamsOf h0) :
    Condition.copyLoop ctor body (fuel + 1) g pre.length (some a) =
      Condition.copyLoop ctor body fuel
        { g with
          conds := pre ++ [some { last with m_nextAndCondition := some (pre.length + 1) },
            some (Condition.provisioned MAX c.m_numParams g.params.length c.m_conditionType)]
          params := g.params ++ (List.range c.m_numParams).map (fun i => (c.value h0 i).map f)
          log := g.log ++ slotEvents ev (pre.length + 1) c.m_numParams }
        (pre.length + 1) c.m_nextAndCondition := by
  obtain ⟨hcount, hlive⟩ := hwf
  obtain ⟨_, init, hinit, hc⟩ := hctor g c.m_conditionType
  rw [← hcount] at hinit hc
  have hlt : a < pre.length := getElem?_some_lt _ _ _ ha
  have hlen : g.conds.length = pre.length + 1 := by simp [hpre]
  have e1 : g.readCond a = .ok c :=
    readCond_of_get _ _ _ (by rw [hpre]; exact getElem?_append_of_some _ _ _ _ ha)
  have hc1 : g.conds ++ [some (Condition.provisioned MAX c.m_numParams g.params.length
      c.m_conditionType)] =
      pre ++ [some last, some (Condition.provisioned MAX c.m_numParams g.params.length
        c.m_conditionType)] := by
    simp [hpre]
  rw [hc1, hlen] at hc
  -- the heap after the constructor and the link
  have hread : Heap.readCond ({ g with
      params := g.params ++ init.map some
      conds := pre ++ [some last, some (Condition.provisioned MAX c.m_numParams g.params.length
        c.m_conditionType)] } : Heap P) pre.length = .ok last :=
    readCond_of_get _ pre.length last (getElem?_append_length _ _ _)
  have hwrite : Heap.writeCond ({ g with
      params := g.params ++ init.map some
      conds := pre ++ [some last, some (Condition.provisioned MAX c.m_numParams g.params.length
        c.m_conditionType)] } : Heap P) pre.length
        { last with m_nextAndCondition := some (pre.length + 1) } = _ :=
    writeCond_of_get _ pre.length last _ (getElem?_append_length _ _ _)
  simp only [set_append_length] at hwrite
  have hsrc2 : (pre ++ [some { last with m_nextAndCondition := some (pre.length + 1) },
      some (Condition.provisioned MAX c.m_numParams g.params.length c.m_conditionType)])[a]? =
      some (some c) := getElem?_append_of_some _ _ _ _ ha
  have hdst2 : (pre ++ [some { last with m_nextAndCondition := some (pre.length + 1) },
      some (Condition.provisioned MAX c.m_numParams g.params.length
        c.m_conditionType)])[pre.length + 1]? =
      some (some (Condition.provisioned MAX c.m_numParams g.params.length
        c.m_conditionType)) := by
    rw [List.getElem?_append_right (Nat.le_succ _)]
    simp
  have hread2 : Heap.readCond ({ g with
      params := g.params ++ init.map some
      conds := pre ++ [some { last with m_nextAndCondition := some (pre.length + 1) },
        some (Condition.provisioned MAX c.m_numParams g.params.length
          c.m_conditionType)] } : Heap P) a = .ok c :=
    readCond_of_get _ a c hsrc2
  have hloop := forRange_copies f ev body hbody h0
    ({ g with
      params := g.params ++ init.map some
      conds := pre ++ [some { last with m_nextAndCondition := some (pre.length + 1) },
        some (Condition.provisioned MAX c.m_numParams g.params.length
          c.m_conditionType)] } : Heap P)
    (pre.length + 1) a c
    (Condition.provisioned MAX c.m_numParams g.params.length c.m_conditionType)
    g.params init rfl hsrc2 hdst2
    (fun i hi => provisioned_slot MAX c.m_numParams g.params.length c.m_conditionType i
      (by rw [← hinit]; exact hi))
    (fun i hi => by
      obtain ⟨q, v, hq, hv⟩ := hlive i (by rw [← hinit]; exact hi)
      refine ⟨q, v, hq, ?_, value_of_get h0 c i q v hq hv⟩
      rw [hpar]
      exact getElem?_append_of_some _ _ _ _ hv)
    init.length (Nat.le_refl _)
  rw [hinit] at hloop
  simp only [List.drop_length, List.map_nil, List.append_nil] at hloop
  have hinit2 : List.drop c.m_numParams init = [] := by
    rw [← hinit]
    exact List.drop_length _
  simp only [hinit2, List.map_nil, List.append_nil] at hloop
  have hread3 : Heap.readCond ({ g with
      params := g.params ++ (List.range c.m_numParams).map (fun i => (c.value h0 i).map f)
      conds := pre ++ [some { last with m_nextAndCondition := some (pre.length + 1) },
        some (Condition.provisioned MAX c.m_numParams g.params.length
          c.m_conditionType)]
      log := g.log ++ slotEvents ev (pre.length + 1) c.m_numParams } : Heap P) a = .ok c :=
    readCond_of_get _ a c hsrc2
  simp only [Condition.copyLoop, bind, Except.bind, e1, hc, hread, hwrite, hread2, hloop, hread3]

theorem copyLoop_none (ctor : ConditionCtor P)
    (body : Addr → Addr → Nat → Heap P → Except Fault (Heap P)) (fuel : Nat) (h : Heap P)
    (a : Addr) : Condition.copyLoop ctor body fuel h a none = .ok h := by
  cases fuel <;> rfl

theorem Condition_eta_next (c : Condition) (hc : c.m_nextAndCondition = none) :
    ({ c with m_nextAndCondition := none } : Condition) = c := by
  cases c
  simp at hc
  simp [hc]

/-- The chain loop of a copy over the remaining source nodes `rest`, entered with
the last copy `last` as the last cell of the condition pool. -/
theorem copyLoop_ok (MAX : Nat) (numParamsOf : ConditionType → Nat) (ctor : ConditionCtor P)
    (hctor : Provisions MAX numParamsOf ctor) (f : P → P) (ev : Addr → Nat → List Event)
    (body : Addr → Addr → Nat → Heap P → Except Fault (Heap P)) (hbody : CopiesSlot f ev body)
    (h0 : Heap P) (rest : List (Addr × Condition)) :
    ∀ (fuel : Nat) (g : Heap P) (pre : List (Option Condition)) (last : Condition)
      (nextp : Option Addr) (Y : List (Option P)),
      g.conds = pre ++ [some last] → last.m_nextAndCondition = none →
      g.params = h0.params ++ Y →
      AndChain pre nextp rest →
      (∀ x ∈ rest, x.2.ProvisionedIn numParamsOf h0) →
      rest.length ≤ fuel →
      Condition.copyLoop ctor body fuel g pre.length nextp =
        .ok { g with
          conds := pre ++
            some { last with
              m_nextAndCondition := nextLink (pre.length + 1) (rest.map Prod.snd) } ::
            (copiedNodes MAX (pre.length + 1) g.params.length (rest.map Prod.snd)).map
              (fun y => some y.2)
          params := g.params ++ copiedValues f h0 (rest.map Prod.snd)
          log := g.log ++
            chainEvents ev (copiedNodes MAX (pre.length + 1) g.params.length
              (rest.map Prod.snd)) } := by
  induction rest with
  | nil =>
    intro fuel g pre last nextp Y hpre hlast _ hch _ _
    have hn : nextp = none := hch
    subst hn
    rw [copyLoop_none]
    simp only [List.map_nil, nextLink, copiedNodes, copiedValues, chainEvents, List.append_nil]
    rw [Condition_eta_next last hlast, ← hpre]
  | cons x rest ih =>
    intro fuel g pre last nextp Y hpre _ hpar hch hwf hf
    obtain ⟨a, c⟩ := x
    obtain ⟨hp, hget, htail⟩ := hch
    subst hp
    cases fuel with
    | zero => simp at hf
    | succ fuel =>
      rw [copyLoop_step MAX numParamsOf ctor hctor f ev body hbody h0 g pre last a c Y fuel
        hpre hpar hget (hwf (a, c) (List.mem_cons_self _ _))]
      have key := ih fuel
        ({ g with
          conds := pre ++ [some { last with m_nextAndCondition := some (pre.length + 1) },
            some (Condition.provisioned MAX c.m_numParams g.params.length c.m_conditionType)]
          params := g.params ++ (List.range c.m_numParams).map (fun i => (c.value h0 i).map f)
          log := g.log ++ slotEvents ev (pre.length + 1) c.m_numParams } : Heap P)
        (pre ++ [some { last with m_nextAndCondition := some (pre.length + 1) }])
        (Condition.provisioned MAX c.m_numParams g.params.length c.m_conditionType)
        c.m_nextAndCondition
        (Y ++ (List.range c.m_numParams).map (fun i => (c.value h0 i).map f))
        (by simp) rfl (by simp [hpar]) (AndChain_append _ _ _ _ htail)
        (fun y hy => hwf y (List.mem_cons_of_mem _ hy)) (by simpa using hf)
      simp only [List.length_append, List.length_singleton, List.length_map,
        List.length_range] at key
      rw [key]
      simp only [List.map_cons, nextLink, copiedNodes, copiedValues, chainEvents,
        List.append_assoc, List.singleton_append, List.cons_append, List.nil_append]
      rfl

/-- A chain copy on a chain of provisioned nodes returns: the heap is the one
`copyHeap` describes and the result is the first appended node. -/
theorem copyChain_ok (MAX : Nat) (numParamsOf : ConditionType → Nat) (ctor : ConditionCtor P)
    (hctor : Provisions MAX numParamsOf ctor) (f : P → P) (ev : Addr → Nat → List Event)
    (body : Addr → Addr → Nat → Heap P → Except Fault (Heap P)) (hbody : CopiesSlot f ev body)
    (fuel : Nat) (h : Heap P) (this : Nat) (L : List (Addr × Condition))
    (hch : AndChain h.conds (some this) L)
    (hwf : ∀ x ∈ L, x.2.ProvisionedIn numParamsOf h) (hf : L.length ≤ fuel + 1) :
    Condition.copyChain ctor body fuel h this =
      .ok (copyHeap MAX f ev h (L.map Prod.snd), h.conds.length) := by
  cases L with
  | nil => simp [AndChain] at hch
  | cons x rest =>
    obtain ⟨b, c⟩ := x
    obtain ⟨hp, hget, htail⟩ := hch
    have hb : b = this := (Option.some.inj hp).symm
    subst hb
    have hwfc : c.ProvisionedIn numParamsOf h := hwf (b, c) (List.mem_cons_self _ _)
    obtain ⟨hcount, hlive⟩ := hwfc
    obtain ⟨_, init, hinit, hc⟩ := hctor h c.m_conditionType
    rw [← hcount] at hinit hc
    have e1 : h.readCond b = .ok c := readCond_of_get _ _ _ hget
    have hsrc1 : (h.conds ++ [some (Condition.provisioned MAX c.m_numParams h.params.length
        c.m_conditionType)])[b]? = some (some c) := getElem?_append_of_some _ _ _ _ hget
    have hdst1 : (h.conds ++ [some (Condition.provisioned MAX c.m_numParams h.params.length
        c.m_conditionType)])[h.conds.length]? =
        some (some (Condition.provisioned MAX c.m_numParams h.params.length
          c.m_conditionType)) := getElem?_append_length _ _ _
    have hread1 : Heap.readCond ({ h with
        params := h.params ++ init.map some
        conds := h.conds ++ [some (Condition.provisioned MAX c.m_numParams h.params.length
          c.m_conditionType)] } : Heap P) b = .ok c := readCond_of_get _ b c hsrc1
    have hloop := forRange_copies f ev body hbody h
      ({ h with
        params := h.params ++ init.map some
        conds := h.conds ++ [some (Condition.provisioned MAX c.m_numParams h.params.length
          c.m_conditionType)] } : Heap P)
      h.conds.length b c
      (Condition.provisioned MAX c.m_numParams h.params.length c.m_conditionType)
      h.params init rfl hsrc1 hdst1
      (fun i hi => provisioned_slot MAX c.m_numParams h.params.length c.m_conditionType i
        (by rw [← hinit]; exact hi))
      (fun i hi => by
        obtain ⟨q, v, hq, hv⟩ := hlive i (by rw [← hinit]; exact hi)
        exact ⟨q, v, hq, hv, value_of_get h c i q v hq hv⟩)
      init.length (Nat.le_refl _)
    rw [hinit] at hloop
    have hinit2 : List.drop c.m_numParams init = [] := by
      rw [← hinit]
      exact List.drop_length _
    simp only [hinit2, List.map_nil, List.append_nil] at hloop
    have hread2 : Heap.readCond ({ h with
        params := h.params ++ (List.range c.m_numParams).map (fun i => (c.value h i).map f)
        conds := h.conds ++ [some (Condition.provisioned MAX c.m_numParams h.params.length
          c.m_conditionType)]
        log := h.log ++ slotEvents ev h.conds.length c.m_numParams } : Heap P) b = .ok c :=
      readCond_of_get _ b c hsrc1
    have hrest := copyLoop_ok MAX numParamsOf ctor hctor f ev body hbody h rest fuel
      ({ h with
        params := h.params ++ (List.range c.m_numParams).map (fun i => (c.value h i).map f)
        conds := h.conds ++ [some (Condition.provisioned MAX c.m_numParams h.params.length
          c.m_conditionType)]
        log := h.log ++ slotEvents ev h.conds.length c.m_numParams } : Heap P)
      h.conds (Condition.provisioned MAX c.m_numParams h.params.length c.m_conditionType)
      c.m_nextAndCondition
      ((List.range c.m_numParams).map (fun i => (c.value h i).map f))
      rfl rfl rfl htail (fun y hy => hwf y (List.mem_cons_of_mem _ hy)) (by simpa using hf)
    simp only [List.length_append, List.length_map, List.length_range] at hrest
    simp only [Condition.copyChain, bind, Except.bind, e1, hc, hread1, hloop, hread2, hrest,
      pure, Except.pure]
    simp only [copyHeap, List.map_cons, copiedNodes, copiedValues, chainEvents,
      List.append_assoc, List.cons_append, List.nil_append]
    rfl

/-! ## The nodes and parameters a chain copy appends -/

theorem copiedNodes_length (MAX : Nat) (cs : List Condition) :
    ∀ (cb pb : Nat), (copiedNodes MAX cb pb cs).length = cs.length := by
  induction cs with
  | nil =>
    intro cb pb
    rfl
  | cons c cs ih =>
    intro cb pb
    simp only [copiedNodes, List.length_cons, ih]

/-- The copies form a chain wherever they are laid out. -/
theorem AndChain_copiedNodes (MAX : Nat) (cs : List Condition) :
    ∀ (pre ext : List (Option Condition)) (pb : Nat),
      AndChain (pre ++ (copiedNodes MAX pre.length pb cs).map (fun y => some y.2) ++ ext)
        (nextLink pre.length cs) (copiedNodes MAX pre.length pb cs) := by
  induction cs with
  | nil =>
    intro pre ext pb
    rfl
  | cons c cs ih =>
    intro pre ext pb
    refine ⟨rfl, ?_, ?_⟩
    · simp only [copiedNodes, List.map_cons, List.append_assoc, List.cons_append]
      exact getElem?_append_length _ _ _
    · have key := ih (pre ++ [some { Condition.provisioned MAX c.m_numParams pb
          c.m_conditionType with m_nextAndCondition := nextLink (pre.length + 1) cs }]) ext
          (pb + c.m_numParams)
      simp only [List.length_append, List.length_singleton, List.append_assoc,
        List.singleton_append] at key
      simpa [copiedNodes] using key

theorem getElem?_copied (pre post rest : List (Option P)) (k : Nat) (F : Nat → Option P)
    (i : Nat) (hi : i < k) :
    (pre ++ ((List.range k).map F ++ rest) ++ post)[pre.length + i]? = some (F i) := by
  rw [List.append_assoc, List.getElem?_append_right (Nat.le_add_right _ _)]
  simp only [Nat.add_sub_cancel_left, List.append_assoc]
  rw [List.getElem?_append_left (by simpa using hi)]
  simp [List.getElem?_range, hi]

theorem provisioned_link_slot (MAX k base : Nat) (t : ConditionType) (l : Option Addr) (i : Nat)
    (hi : i < k) :
    ({ Condition.provisioned MAX k base t with m_nextAndCondition := l } : Condition).m_params[i]? =
      some (some (base + i)) :=
  provisioned_slot MAX k base t i hi

/-- Node by node the cells `copiedNodes` are copies of the source nodes, in every
heap that holds `copiedValues` at their parameter addresses. -/
theorem copiedNodes_isCopy (MAX : Nat) (f : P → P) (h0 g : Heap P) (cs : List Condition) :
    ∀ (cb pb : Nat) (pre post : List (Option P)),
      g.params = pre ++ copiedValues f h0 cs ++ post → pre.length = pb →
      h0.params.length ≤ pb →
      List.Forall₂ (fun c y => IsCopy f h0 c g y.2) cs (copiedNodes MAX cb pb cs) := by
  induction cs with
  | nil =>
    intro cb pb pre post _ _ _
    exact List.Forall₂.nil
  | cons c cs ih =>
    intro cb pb pre post hg hpre hle
    refine List.Forall₂.cons ⟨rfl, rfl, ?_⟩ ?_
    · intro i hi
      have hslot := provisioned_link_slot MAX c.m_numParams pb c.m_conditionType
        (nextLink (cb + 1) cs) i hi
      have hcell : g.params[pb + i]? = some ((c.value h0 i).map f) := by
        rw [hg, ← hpre]
        exact getElem?_copied pre post (copiedValues f h0 cs) c.m_numParams
          (fun i => (c.value h0 i).map f) i hi
      refine ⟨?_, pb + i, hslot, Nat.le_trans hle (Nat.le_add_right _ _)⟩
      simp only [Condition.value, hslot, hcell, Option.join]
      rfl
    · refine ih (cb + 1) (pb + c.m_numParams)
        (pre ++ (List.range c.m_numParams).map (fun i => (c.value h0 i).map f)) post ?_ ?_ ?_
      · rw [hg]
        simp [copiedValues, List.append_assoc]
      · simp [hpre]
      · exact Nat.le_trans hle (Nat.le_add_right _ _)

/-- The contents of the cells `copiedNodes` do not depend on where they are laid
out. -/
theorem chainView_copiedNodes (MAX : Nat) (f : P → P) (h0 g : Heap P) (cs : List Condition) :
    ∀ (cb pb : Nat) (pre post : List (Option P)),
      g.params = pre ++ copiedValues f h0 cs ++ post → pre.length = pb →
      chainView g (copiedNodes MAX cb pb cs) = copyViews MAX f h0 cs := by
  induction cs with
  | nil =>
    intro cb pb pre post _ _
    rfl
  | cons c cs ih =>
    intro cb pb pre post hg hpre
    have htail := ih (cb + 1) (pb + c.m_numParams)
      (pre ++ (List.range c.m_numParams).map (fun i => (c.value h0 i).map f)) post
      (by rw [hg]; simp [copiedValues, List.append_assoc]) (by simp [hpre])
    simp only [chainView] at htail
    simp only [chainView, copiedNodes, List.map_cons, copyViews, htail]
    congr 1
    simp only [Condition.view, Condition.provisioned, Condition.init, List.map_append,
      List.map_map, List.map_replicate]
    congr 2
    apply List.map_congr_left
    intro i hi
    have hik : i < c.m_numParams := List.mem_range.mp hi
    have hcell : g.params[pb + i]? = some ((c.value h0 i).map f) := by
      rw [hg, ← hpre]
      exact getElem?_copied pre post (copiedValues f h0 cs) c.m_numParams
        (fun i => (c.value h0 i).map f) i hik
    simp only [Function.comp, hcell, Option.join]
    rfl

/-! ## What the two chain copies of `Condition` return -/

theorem slotEvents_nil (a : Addr) (n : Nat) :
    slotEvents (fun _ _ => ([] : List Event)) a n = [] := by
  induction n with
  | zero => rfl
  | succ n ih => simp [slotEvents, ih]

theorem chainEvents_nil (L : List (Addr × Condition)) :
    chainEvents (fun _ _ => ([] : List Event)) L = [] := by
  induction L with
  | nil => rfl
  | cons y ys ih => simp [chainEvents, slotEvents_nil, ih]

theorem slotEvents_qualify (a : Addr) (n : Nat) :
    slotEvents (fun a i => [Event.qualify a i]) a n = (List.range n).map (Event.qualify a) := by
  induction n with
  | zero => rfl
  | succ n ih => simp [slotEvents, ih, List.range_succ]

theorem chainEvents_qualify (L : List (Addr × Condition)) :
    chainEvents (fun a i => [Event.qualify a i]) L = qualifyCalls L := by
  induction L with
  | nil => rfl
  | cons y ys ih => simp [chainEvents, qualifyCalls, slotEvents_qualify, ih]

theorem get_of_value (h : Heap P) (c : Condition) (i : Nat) (v : P)
    (hv : c.value h i = some v) :
    ∃ q : Nat, c.m_params[i]? = some (some q) ∧ h.params[q]? = some (some v) := by
  unfold Condition.value at hv
  cases hs : c.m_params[i]? with
  | none => rw [hs] at hv; exact absurd hv (by simp)
  | some p =>
    cases p with
    | none => rw [hs] at hv; exact absurd hv (by simp)
    | some q =>
      rw [hs] at hv
      simp only [] at hv
      refine ⟨q, rfl, ?_⟩
      cases hq : h.params[q]? with
      | none => rw [hq] at hv; simp at hv
      | some w =>
        rw [hq] at hv
        cases w with
        | none => simp at hv
        | some w2 =>
          simp at hv
          rw [hv]

theorem value_some_of_provisioned (numParamsOf : ConditionType → Nat) (h : Heap P)
    (c : Condition) (hwf : c.ProvisionedIn numParamsOf h) (i : Nat) (hi : i < c.m_numParams) :
    ∃ (v : P) (q : Nat), c.value h i = some v ∧ c.m_params[i]? = some (some q) ∧
      h.params[q]? = some (some v) := by
  obtain ⟨q, v, hq, hv⟩ := hwf.2 i hi
  exact ⟨v, q, value_of_get h c i q v hq hv, hq, hv⟩

theorem AndChain_preserved (h h2 : Heap P) (hp : h.Preserves h2) (L : List (Addr × Condition)) :
    ∀ (p : Option Addr), AndChain h.conds p L → AndChain h2.conds p L := by
  induction L with
  | nil =>
    intro p hch
    exact hch
  | cons x rest ih =>
    intro p hch
    obtain ⟨a, c⟩ := x
    exact ⟨hch.1, hp.1 a _ hch.2.1, ih _ hch.2.2⟩

theorem OrChain_preserved (h h2 : Heap P) (hp : h.Preserves h2) (L : List (Addr × OrCondition)) :
    ∀ (p : Option Addr), OrChain h.ors p L → OrChain h2.ors p L := by
  induction L with
  | nil =>
    intro p hch
    exact hch
  | cons x rest ih =>
    intro p hch
    obtain ⟨a, o⟩ := x
    exact ⟨hch.1, hp.2.1 a _ hch.2.1, ih _ hch.2.2⟩

theorem OrTree_preserved (h h2 : Heap P) (hp : h.Preserves h2) (p : Option Addr)
    (T : List ((Addr × OrCondition) × List (Addr × Condition))) (hT : OrTree h p T) :
    OrTree h2 p T :=
  ⟨OrChain_preserved h h2 hp _ _ hT.1, fun x hx => AndChain_preserved h h2 hp _ _ (hT.2 x hx)⟩

theorem value_preserved (h h2 : Heap P)
    (hp : ∀ (q : Nat) (v : Option P), h.params[q]? = some v → h2.params[q]? = some v)
    (c : Condition) (i : Nat) (v : P)
    (hv : c.value h i = some v) : c.value h2 i = some v := by
  obtain ⟨q, hq, hcell⟩ := get_of_value h c i v hv
  exact value_of_get h2 c i q v hq (hp q _ hcell)

theorem Preserves_copyHeap (MAX : Nat) (f : P → P) (ev : Addr → Nat → List Event) (h : Heap P)
    (cs : List Condition) : h.Preserves (copyHeap MAX f ev h cs) :=
  ⟨fun _ _ hc => getElem?_append_of_some _ _ _ _ hc, fun _ _ ho => ho,
    fun _ _ hp => getElem?_append_of_some _ _ _ _ hp⟩

/-- What a chain copy returns on a chain of provisioned nodes. -/
theorem copyChain_summary (MAX : Nat) (numParamsOf : ConditionType → Nat)
    (ctor : ConditionCtor P) (hctor : Provisions MAX numParamsOf ctor) (f : P → P)
    (ev : Addr → Nat → List Event)
    (body : Addr → Addr → Nat → Heap P → Except Fault (Heap P)) (hbody : CopiesSlot f ev body)
    (fuel : Nat) (h : Heap P) (this : Nat) (L : List (Addr × Condition))
    (hch : AndChain h.conds (some this) L)
    (hwf : ∀ x ∈ L, x.2.ProvisionedIn numParamsOf h) (hf : L.length ≤ fuel + 1) :
    Condition.copyChain ctor body fuel h this =
        .ok (copyHeap MAX f ev h (L.map Prod.snd), h.conds.length) ∧
      AndChain (copyHeap MAX f ev h (L.map Prod.snd)).conds (some h.conds.length)
        (copiedNodes MAX h.conds.length h.params.length (L.map Prod.snd)) ∧
      (copiedNodes MAX h.conds.length h.params.length (L.map Prod.snd)).length = L.length ∧
      List.Forall₂ (fun x y => IsCopy f h x.2 (copyHeap MAX f ev h (L.map Prod.snd)) y.2) L
        (copiedNodes MAX h.conds.length h.params.length (L.map Prod.snd)) ∧
      (copyHeap MAX f ev h (L.map Prod.snd)).log = h.log ++
        chainEvents ev (copiedNodes MAX h.conds.length h.params.length (L.map Prod.snd)) ∧
      h.Preserves (copyHeap MAX f ev h (L.map Prod.snd)) ∧
      (copyHeap MAX f ev h (L.map Prod.snd)).ors = h.ors ∧
      (∀ y ∈ copiedNodes MAX h.conds.length h.params.length (L.map Prod.snd),
        y.2.ProvisionedIn numParamsOf (copyHeap MAX f ev h (L.map Prod.snd))) ∧
      chainView (copyHeap MAX f ev h (L.map Prod.snd))
          (copiedNodes MAX h.conds.length h.params.length (L.map Prod.snd)) =
        copyViews MAX f h (L.map Prod.snd) := by
  have hrun := copyChain_ok MAX numParamsOf ctor hctor f ev body hbody fuel h this L hch hwf hf
  have hne : L ≠ [] := by
    intro he
    rw [he] at hch
    exact absurd hch (by simp [AndChain])
  have hlink : nextLink h.conds.length (L.map Prod.snd) = some h.conds.length := by
    cases L with
    | nil => exact absurd rfl hne
    | cons x xs => rfl
  have hcopy : List.Forall₂ (fun x y => IsCopy f h x.2 (copyHeap MAX f ev h (L.map Prod.snd)) y.2)
      L (copiedNodes MAX h.conds.length h.params.length (L.map Prod.snd)) := by
    have key := copiedNodes_isCopy MAX f h (copyHeap MAX f ev h (L.map Prod.snd))
      (L.map Prod.snd) h.conds.length h.params.length h.params []
      (by simp [copyHeap]) rfl (Nat.le_refl _)
    exact List.forall₂_map_left_iff.mp key
  refine ⟨hrun, ?_, ?_, hcopy, rfl,
    Preserves_copyHeap MAX f ev h _, rfl, ?_, ?_⟩
  · have key := AndChain_copiedNodes MAX (L.map Prod.snd) h.conds [] h.params.length
    rw [hlink] at key
    simpa [copyHeap] using key
  · rw [copiedNodes_length, List.length_map]
  · intro y hy
    obtain ⟨n, hn⟩ := List.getElem?_of_mem hy
    have hlen : (copiedNodes MAX h.conds.length h.params.length (L.map Prod.snd)).length =
        L.length := by rw [copiedNodes_length, List.length_map]
    have hnl : n < L.length := by
      rw [← hlen]
      exact getElem?_some_lt _ _ _ hn
    obtain ⟨x, hx⟩ : ∃ x, L[n]? = some x := ⟨L[n], List.getElem?_eq_getElem hnl⟩
    have hxy := forall₂_getElem? _ _ _ hcopy n x y hx hn
    have hxwf := hwf x (List.getElem?_mem hx)
    refine ⟨?_, ?_⟩
    · rw [hxy.2.1, hxy.1, hxwf.1]
    · intro i hi
      rw [hxy.2.1] at hi
      obtain ⟨v, _, hv, _, _⟩ := value_some_of_provisioned numParamsOf h x.2 hxwf i hi
      have hyv := (hxy.2.2 i hi).1
      rw [hv] at hyv
      obtain ⟨q2, hq2, hcell⟩ := get_of_value _ y.2 i (f v) hyv
      exact ⟨q2, f v, hq2, hcell⟩
  · exact chainView_copiedNodes MAX f h (copyHeap MAX f ev h (L.map Prod.snd)) (L.map Prod.snd)
      h.conds.length h.params.length h.params [] (by simp [copyHeap]) rfl

/-! ## Constructors that satisfy the contract -/

/-- The constructor of the `THYME_STANDALONE` variant provisions no parameter. -/
theorem new_Condition_Provisions (MAX : Nat) :
    Provisions MAX (fun _ => 0) (new_Condition MAX : ConditionCtor P) := by
  intro h t
  refine ⟨Nat.zero_le _, [], rfl, ?_⟩
  rw [new_Condition_eq]
  simp [Condition.provisioned, Condition.init]

theorem registryCtor_Provisions (MAX : Nat) (numParamsOf : ConditionType → Nat) (dflt : P)
    (hk : ∀ t, numParamsOf t ≤ MAX) :
    Provisions MAX numParamsOf (registryCtor MAX numParamsOf dflt) := by
  intro h t
  refine ⟨hk t, List.replicate (numParamsOf t) dflt, by simp, ?_⟩
  simp [registryCtor]

theorem typeParams_le : ∀ t, typeParams t ≤ 2 := by
  intro t
  unfold typeParams
  split_ifs <;> decide

theorem paramChain_provisioned : ∀ x ∈ paramChain, x.2.ProvisionedIn typeParams paramHeap := by
  intro x hx
  simp only [paramChain, List.mem_cons, List.mem_singleton, List.not_mem_nil, or_false] at hx
  rcases hx with rfl | rfl
  · refine ⟨rfl, ?_⟩
    intro i hi
    have h0 : i = 0 := Nat.lt_one_iff.mp hi
    subst h0
    exact ⟨0, 7, rfl, rfl⟩
  · refine ⟨rfl, ?_⟩
    intro i hi
    have h2 : i < 2 := hi
    interval_cases i
    · exact ⟨1, 8, rfl, rfl⟩
    · exact ⟨2, 9, rfl, rfl⟩

theorem paramTree_ok : OrTree paramHeap (some 0) paramTree := by
  refine ⟨⟨rfl, rfl, rfl, rfl, rfl, rfl, rfl⟩, ?_⟩
  intro x hx
  simp only [paramTree, List.mem_cons, List.mem_singleton, List.not_mem_nil, or_false] at hx
  rcases hx with rfl | rfl | rfl
  · exact rfl
  · exact ⟨rfl, rfl, rfl, rfl, rfl⟩
  · exact rfl

theorem paramTree_provisioned :
    ∀ x ∈ paramTree, ∀ y ∈ x.2, y.2.ProvisionedIn typeParams paramHeap := by
  intro x hx y hy
  simp only [paramTree, List.mem_cons, List.mem_singleton, List.not_mem_nil, or_false] at hx
  rcases hx with rfl | rfl | rfl
  · simp at hy
  · exact paramChain_provisioned y hy
  · simp at hy

theorem paramTree_fuel : ∀ x ∈ paramTree, x.2.length ≤ 1 + 1 := by
  intro x hx
  simp only [paramTree, List.mem_cons, List.mem_singleton, List.not_mem_nil, or_false] at hx
  rcases hx with rfl | rfl | rfl <;> decide

/-! ## The nodes of the `THYME_STANDALONE` variant -/

theorem provisioned_of_zero (h : Heap P) (c : Condition) (hc : c.m_numParams = 0) :
    c.ProvisionedIn (fun _ => 0) h :=
  ⟨hc, fun i hi => by rw [hc] at hi; exact absurd hi (Nat.not_lt_zero _)⟩

/-- Nothing in the `THYME_STANDALONE` variant gives a node an in-use parameter: the
nodes that the two constructors and the chunk parser build have the in-use
count 0, and `Set_Condition_Type` keeps the count of a node.  So the nodes of
this variant are provisioned for the registry that gives no type a
parameter, the one its constructor satisfies (`new_Condition_Provisions`). -/
theorem standalone_nodes_provisioned (MAX : Nat) (DEFAULT : ConditionType) (h : Heap P)
    (t : ConditionType) :
    (∃ (h1 : Heap P) (a : Addr) (c : Condition),
      new_Condition MAX h t = .ok (h1, a) ∧ h1.conds[a]? = some (some c) ∧
      c.ProvisionedIn (fun _ => 0) h1) ∧
    (∃ c : Condition,
      (new_Condition_default MAX DEFAULT h).1.conds[(new_Condition_default MAX DEFAULT h).2]? =
        some (some c) ∧
      c.ProvisionedIn (fun _ => 0) (new_Condition_default MAX DEFAULT h).1) ∧
    (∀ (rd : DataChunkInput R P) (input : R) (info : DataChunkInfo) (data : Option Addr),
      ∃ (b : Bool) (r : R) (h2 : Heap P) (c : Condition),
        Condition.Parse_Data_Chunk MAX DEFAULT rd input info data h = .ok (b, r, h2) ∧
        h2.conds[h.conds.length]? = some (some c) ∧ c.ProvisionedIn (fun _ => 0) h2) ∧
    (∀ (a : Nat) (hA : Heap P) (c : Condition),
      Condition.Set_Condition_Type h a t = .ok hA → h.conds[a]? = some (some c) →
      ∃ c2 : Condition, hA.conds[a]? = some (some c2) ∧ c2.m_numParams = c.m_numParams) := by
  refine ⟨⟨_, _, Condition.init MAX t, new_Condition_eq MAX h t, getElem?_append_length _ _ _,
      provisioned_of_zero _ _ rfl⟩,
    ⟨Condition.init MAX DEFAULT, getElem?_append_length _ _ _, provisioned_of_zero _ _ rfl⟩,
    fun rd input info data =>
      ⟨false, _, _, Condition.init MAX (rd.Read_Int32 input).1,
        Parse_Data_Chunk_eq MAX DEFAULT rd input info data h, getElem?_append_length _ _ _,
        provisioned_of_zero _ _ rfl⟩,
    ?_⟩
  intro a hA c hrun hc
  obtain ⟨⟨c0, ps, hc0, hconds, _, _⟩, _⟩ := Set_Condition_Type_returned h hA a t hrun
  have hcc : c0 = c := Option.some.inj (Option.some.inj (hc0.symm.trans hc))
  subst hcc
  exact ⟨{ c0 with m_params := ps, m_conditionType := t },
    by rw [hconds]; exact getElem?_set_same _ _ _ _ hc0, rfl⟩

theorem plainChain_provisioned :
    ∀ x ∈ plainChain, x.2.ProvisionedIn (fun _ => 0) threeOrHeap := by
  intro x hx
  simp only [plainChain, List.mem_cons, List.mem_singleton, List.not_mem_nil, or_false] at hx
  rcases hx with rfl | rfl
  · exact provisioned_of_zero _ _ rfl
  · exact provisioned_of_zero _ _ rfl

theorem threeOrTree_provisioned :
    ∀ x ∈ threeOrTree, ∀ y ∈ x.2, y.2.ProvisionedIn (fun _ => 0) threeOrHeap := by
  intro x hx y hy
  simp only [threeOrTree, List.mem_cons, List.mem_singleton, List.not_mem_nil, or_false] at hx
  rcases hx with rfl | rfl | rfl
  · simp at hy
  · simp only [List.mem_cons, List.mem_singleton, List.not_mem_nil, or_false] at hy
    rcases hy with rfl | rfl
    · exact provisioned_of_zero _ _ rfl
    · exact provisioned_of_zero _ _ rfl
  · simp at hy

theorem threeOrTree_fuel : ∀ x ∈ threeOrTree, x.2.length ≤ 1 + 1 := by
  intro x hx
  simp only [threeOrTree, List.mem_cons, List.mem_singleton, List.not_mem_nil, or_false] at hx
  rcases hx with rfl | rfl | rfl <;> decide

/-! ## `Condition::Duplicate` -/

/-- What `Condition::Duplicate` returns on a chain of provisioned nodes. -/
theorem Duplicate_summary (MAX : Nat) (numParamsOf : ConditionType → Nat)
    (ctor : ConditionCtor P) (hctor : Provisions MAX numParamsOf ctor)
    (fuel : Nat) (h : Heap P) (this : Nat) (L : List (Addr × Condition))
    (hch : AndChain h.conds (some this) L)
    (hwf : ∀ x ∈ L, x.2.ProvisionedIn numParamsOf h) (hf : L.length ≤ fuel + 1) :
    Condition.Duplicate ctor fuel h this =
        .ok (copyHeap MAX (fun v => v) (fun _ _ => []) h (L.map Prod.snd), h.conds.length) ∧
      AndChain (copyHeap MAX (fun v => v) (fun _ _ => []) h (L.map Prod.snd)).conds
        (some h.conds.length)
        (copiedNodes MAX h.conds.length h.params.length (L.map Prod.snd)) ∧
      (copiedNodes MAX h.conds.length h.params.length (L.map Prod.snd)).length = L.length ∧
      List.Forall₂ (fun x y => IsCopy (fun v => v) h x.2
          (copyHeap MAX (fun v => v) (fun _ _ => []) h (L.map Prod.snd)) y.2) L
        (copiedNodes MAX h.conds.length h.params.length (L.map Prod.snd)) ∧
      (copyHeap MAX (fun v : P => v) (fun _ _ => []) h (L.map Prod.snd)).log = h.log ∧
      h.Preserves (copyHeap MAX (fun v => v) (fun _ _ => []) h (L.map Prod.snd)) ∧
      (∀ y ∈ copiedNodes MAX h.conds.length h.params.length (L.map Prod.snd),
        y.2.ProvisionedIn numParamsOf
          (copyHeap MAX (fun v => v) (fun _ _ => []) h (L.map Prod.snd))) ∧
      chainView (copyHeap MAX (fun v => v) (fun _ _ => []) h (L.map Prod.snd))
          (copiedNodes MAX h.conds.length h.params.length (L.map Prod.snd)) =
        copyViews MAX (fun v => v) h (L.map Prod.snd) := by
  obtain ⟨hrun, hchain, hlen, hcopy, hlog, hpres, _, hprov, hview⟩ :=
    copyChain_summary MAX numParamsOf ctor hctor (fun v => v) (fun _ _ => [])
      Condition.copyParam copyParam_CopiesSlot fuel h this L hch hwf hf
  rw [chainEvents_nil, List.append_nil] at hlog
  rw [← Duplicate_eq_copyChain] at hrun
  exact ⟨hrun, hchain, hlen, hcopy, hlog, hpres, hprov, hview⟩

/-- What `Condition::Duplicate_And_Qualify` returns on a chain of provisioned
nodes. -/
theorem Duplicate_And_Qualify_summary (MAX : Nat) (numParamsOf : ConditionType → Nat)
    (ctor : ConditionCtor P) (hctor : Provisions MAX numParamsOf ctor)
    (Qualify : P → AsciiString → AsciiString → AsciiString → P) (s1 s2 s3 : AsciiString)
    (fuel : Nat) (h : Heap P) (this : Nat) (L : List (Addr × Condition))
    (hch : AndChain h.conds (some this) L)
    (hwf : ∀ x ∈ L, x.2.ProvisionedIn numParamsOf h) (hf : L.length ≤ fuel + 1) :
    Condition.Duplicate_And_Qualify ctor Qualify s1 s2 s3 fuel h this =
        .ok (copyHeap MAX (fun v => Qualify v s1 s2 s3) (fun a i => [Event.qualify a i]) h
          (L.map Prod.snd), h.conds.length) ∧
      AndChain (copyHeap MAX (fun v => Qualify v s1 s2 s3) (fun a i => [Event.qualify a i]) h
          (L.map Prod.snd)).conds (some h.conds.length)
        (copiedNodes MAX h.conds.length h.params.length (L.map Prod.snd)) ∧
      (copiedNodes MAX h.conds.length h.params.length (L.map Prod.snd)).length = L.length ∧
      List.Forall₂ (fun x y => IsCopy (fun v => Qualify v s1 s2 s3) h x.2
          (copyHeap MAX (fun v => Qualify v s1 s2 s3) (fun a i => [Event.qualify a i]) h
            (L.map Prod.snd)) y.2) L
        (copiedNodes MAX h.conds.length h.params.length (L.map Prod.snd)) ∧
      (copyHeap MAX (fun v => Qualify v s1 s2 s3) (fun a i => [Event.qualify a i]) h
          (L.map Prod.snd)).log =
        h.log ++ qualifyCalls (copiedNodes MAX h.conds.length h.params.length
          (L.map Prod.snd)) ∧
      h.Preserves (copyHeap MAX (fun v => Qualify v s1 s2 s3)
        (fun a i => [Event.qualify a i]) h (L.map Prod.snd)) ∧
      (∀ y ∈ copiedNodes MAX h.conds.length h.params.length (L.map Prod.snd),
        y.2.ProvisionedIn numParamsOf
          (copyHeap MAX (fun v => Qualify v s1 s2 s3) (fun a i => [Event.qualify a i]) h
            (L.map Prod.snd))) ∧
      chainView (copyHeap MAX (fun v => Qualify v s1 s2 s3) (fun a i => [Event.qualify a i]) h
            (L.map Prod.snd))
          (copiedNodes MAX h.conds.length h.params.length (L.map Prod.snd)) =
        copyViews MAX (fun v => Qualify v s1 s2 s3) h (L.map Prod.snd) := by
  obtain ⟨hrun, hchain, hlen, hcopy, hlog, hpres, _, hprov, hview⟩ :=
    copyChain_summary MAX numParamsOf ctor hctor (fun v => Qualify v s1 s2 s3)
      (fun a i => [Event.qualify a i]) (Condition.copyParamQualify Qualify s1 s2 s3)
      (copyParamQualify_CopiesSlot Qualify s1 s2 s3) fuel h this L hch hwf hf
  rw [chainEvents_qualify] at hlog
  rw [← Duplicate_And_Qualify_eq_copyChain] at hrun
  exact ⟨hrun, hchain, hlen, hcopy, hlog, hpres, hprov, hview⟩

/-- C1: let the expression `new Condition(type)` provision every new node with
the parameters of its type (`Provisions`; the constructor of the
`THYME_STANDALONE` variant does, with no parameter for any type).  Then for
every finite AND-chain `L` of nodes provisioned for their types and fuel that
covers it, `Condition::Duplicate` returns a chain `L2` with the same number of
nodes, whose node `n` has the type tag and the in-use count of node `n` of
`L`; the nodes of `L2` are again provisioned for their types. -/
theorem C1_Duplicate_same_length_tags_counts (MAX : Nat) (numParamsOf : ConditionType → Nat)
    (ctor : ConditionCtor P) (hctor : Provisions MAX numParamsOf ctor)
    (fuel : Nat) (h : Heap P) (this : Nat) (L : List (Addr × Condition))
    (hch : AndChain h.conds (some this) L)
    (hwf : ∀ x ∈ L, x.2.ProvisionedIn numParamsOf h) (hf : L.length ≤ fuel + 1) :
    ∃ (h2 : Heap P) (r : Addr) (L2 : List (Addr × Condition)),
      Condition.Duplicate ctor fuel h this = .ok (h2, r) ∧
      AndChain h2.conds (some r) L2 ∧ L2.length = L.length ∧
      (∀ (n : Nat) (x y : Addr × Condition), L[n]? = some x → L2[n]? = some y →
        y.2.m_conditionType = x.2.m_conditionType ∧ y.2.m_numParams = x.2.m_numParams) ∧
      (∀ y ∈ L2, y.2.ProvisionedIn numParamsOf h2) := by
  obtain ⟨hrun, hchain, hlen, hcopy, _, _, hprov, _⟩ :=
    Duplicate_summary MAX numParamsOf ctor hctor fuel h this L hch hwf hf
  refine ⟨_, _, _, hrun, hchain, hlen, ?_, hprov⟩
  intro n x y hx hy
  have hxy := forall₂_getElem? _ _ _ hcopy n x y hx hy
  exact ⟨hxy.1, hxy.2.1⟩

/-- C1 (instances): the chain of `paramHeap` (a node of type 6 with one parameter,
a node of type 7 with two), with a constructor over the registry `typeParams`;
and the chain of `threeOrHeap` with the constructor of the `THYME_STANDALONE`
variant. -/
theorem C1_Duplicate_same_length_tags_counts_witness :
    (Provisions 2 typeParams (registryCtor 2 typeParams (0 : Nat)) ∧
    AndChain paramHeap.conds (some 0) paramChain ∧
    (∀ x ∈ paramChain, x.2.ProvisionedIn typeParams paramHeap) ∧
    paramChain.length ≤ 1 + 1 ∧
    ∃ (h2 : Heap Nat) (r : Addr) (L2 : List (Addr × Condition)),
      Condition.Duplicate (registryCtor 2 typeParams 0) 1 paramHeap 0 = .ok (h2, r) ∧
      AndChain h2.conds (some r) L2 ∧ L2.length = paramChain.length ∧
      (∀ (n : Nat) (x y : Addr × Condition), paramChain[n]? = some x → L2[n]? = some y →
        y.2.m_conditionType = x.2.m_conditionType ∧ y.2.m_numParams = x.2.m_numParams) ∧
      (∀ y ∈ L2, y.2.ProvisionedIn typeParams h2)) ∧
    (Provisions 2 (fun _ => 0) (new_Condition 2 : ConditionCtor Nat) ∧
    AndChain threeOrHeap.conds (some 0) plainChain ∧
    (∀ x ∈ plainChain, x.2.ProvisionedIn (fun _ => 0) threeOrHeap) ∧
    plainChain.length ≤ 1 + 1 ∧
    ∃ (h2 : Heap Nat) (r : Addr) (L2 : List (Addr × Condition)),
      Condition.Duplicate (new_Condition 2) 1 threeOrHeap 0 = .ok (h2, r) ∧
      AndChain h2.conds (some r) L2 ∧ L2.length = plainChain.length ∧
      (∀ (n : Nat) (x y : Addr × Condition), plainChain[n]? = some x → L2[n]? = some y →
        y.2.m_conditionType = x.2.m_conditionType ∧ y.2.m_numParams = x.2.m_numParams) ∧
      (∀ y ∈ L2, y.2.ProvisionedIn (fun _ => 0) h2)) :=
  ⟨⟨registryCtor_Provisions 2 typeParams 0 typeParams_le, ⟨rfl, rfl, rfl, rfl, rfl⟩,
    paramChain_provisioned, by decide,
    C1_Duplicate_same_length_tags_counts 2 typeParams (registryCtor 2 typeParams 0)
      (registryCtor_Provisions 2 typeParams 0 typeParams_le) 1 paramHeap 0 paramChain
      ⟨rfl, rfl, rfl, rfl, rfl⟩ paramChain_provisioned (by decide)⟩,
   ⟨new_Condition_Provisions 2, ⟨rfl, rfl, rfl, rfl, rfl⟩, plainChain_provisioned, by decide,
    C1_Duplicate_same_length_tags_counts 2 (fun _ => 0) (new_Condition 2)
      (new_Condition_Provisions 2) 1 threeOrHeap 0 plainChain
      ⟨rfl, rfl, rfl, rfl, rfl⟩ plainChain_provisioned (by decide)⟩⟩

/-- C2: under the same conditions as C1, for every node index `n` and every slot
`i` below the in-use count of node `n` of the original, slot `i` of node `n` of
the chain `Condition::Duplicate` returns owns a parameter with the value of the
parameter that slot `i` of the original node owns, and the two parameters are
different objects (a copy by value). -/
theorem C2_Duplicate_copies_values (MAX : Nat) (numParamsOf : ConditionType → Nat)
    (ctor : ConditionCtor P) (hctor : Provisions MAX numParamsOf ctor)
    (fuel : Nat) (h : Heap P) (this : Nat) (L : List (Addr × Condition))
    (hch : AndChain h.conds (some this) L)
    (hwf : ∀ x ∈ L, x.2.ProvisionedIn numParamsOf h) (hf : L.length ≤ fuel + 1) :
    ∃ (h2 : Heap P) (r : Addr) (L2 : List (Addr × Condition)),
      Condition.Duplicate ctor fuel h this = .ok (h2, r) ∧
      AndChain h2.conds (some r) L2 ∧ L2.length = L.length ∧
      ∀ (n : Nat) (x y : Addr × Condition), L[n]? = some x → L2[n]? = some y →
        ∀ i, i < x.2.m_numParams →
          ∃ (v : P) (q q2 : Nat),
            x.2.value h i = some v ∧ y.2.value h2 i = some v ∧
            x.2.m_params[i]? = some (some q) ∧ y.2.m_params[i]? = some (some q2) ∧
            q ≠ q2 := by
  obtain ⟨hrun, hchain, hlen, hcopy, _, _, _, _⟩ :=
    Duplicate_summary MAX numParamsOf ctor hctor fuel h this L hch hwf hf
  refine ⟨_, _, _, hrun, hchain, hlen, ?_⟩
  intro n x y hx hy i hi
  have hxy := forall₂_getElem? _ _ _ hcopy n x y hx hy
  obtain ⟨v, q, hv, hq, hcell⟩ :=
    value_some_of_provisioned numParamsOf h x.2 (hwf x (List.getElem?_mem hx)) i hi
  obtain ⟨hyv, q2, hq2, hfresh⟩ := hxy.2.2 i hi
  rw [hv] at hyv
  have hqlt : q < h.params.length := getElem?_some_lt _ _ _ hcell
  exact ⟨v, q, q2, hv, hyv, hq, hq2, by omega⟩

/-- C2 (instance): the chain of `paramHeap`, whose three parameters hold 7, 8 and 9;
the parameter pool ends with their three copies. -/
theorem C2_Duplicate_copies_values_witness :
    Provisions 2 typeParams (registryCtor 2 typeParams (0 : Nat)) ∧
    AndChain paramHeap.conds (some 0) paramChain ∧
    (∀ x ∈ paramChain, x.2.ProvisionedIn typeParams paramHeap) ∧
    paramChain.length ≤ 1 + 1 ∧
    (Condition.Duplicate (registryCtor 2 typeParams 0) 1 paramHeap 0).map
        (fun r => (r.1.params, r.2)) =
      .ok ([some 7, some 8, some 9, some 7, some 8, some 9], 2) ∧
    ∃ (h2 : Heap Nat) (r : Addr) (L2 : List (Addr × Condition)),
      Condition.Duplicate (registryCtor 2 typeParams 0) 1 paramHeap 0 = .ok (h2, r) ∧
      AndChain h2.conds (some r) L2 ∧ L2.length = paramChain.length ∧
      ∀ (n : Nat) (x y : Addr × Condition), paramChain[n]? = some x → L2[n]? = some y →
        ∀ i, i < x.2.m_numParams →
          ∃ (v : Nat) (q q2 : Nat),
            x.2.value paramHeap i = some v ∧ y.2.value h2 i = some v ∧
            x.2.m_params[i]? = some (some q) ∧ y.2.m_params[i]? = some (some q2) ∧
            q ≠ q2 :=
  ⟨registryCtor_Provisions 2 typeParams 0 typeParams_le, ⟨rfl, rfl, rfl, rfl, rfl⟩,
    paramChain_provisioned, by decide, rfl,
    C2_Duplicate_copies_values 2 typeParams (registryCtor 2 typeParams 0)
      (registryCtor_Provisions 2 typeParams 0 typeParams_le) 1 paramHeap 0 paramChain
      ⟨rfl, rfl, rfl, rfl, rfl⟩ paramChain_provisioned (by decide)⟩

/-! ## `Condition::Duplicate_And_Qualify` -/

theorem copiedValues_map (g : P → P) (h : Heap P) (cs : List Condition) :
    copiedValues g h cs = (copiedValues (fun v => v) h cs).map (Option.map g) := by
  induction cs with
  | nil => rfl
  | cons c cs ih =>
    simp only [copiedValues, List.map_append, List.map_map, ih]
    congr 1
    apply List.map_congr_left
    intro i _
    simp [Function.comp]

/-- C3: under the conditions of C1, for every triple of strings
`Condition::Duplicate_And_Qualify` returns what `Condition::Duplicate` returns
with `Qualify` applied once to every copied parameter: the same result pointer,
the same nodes (so the same chain length and type tags), and a parameter pool
that is the one of `Condition::Duplicate` with `Qualify` applied to each
parameter appended by the copy.  So slot `i` of node `n` of the result holds
`Qualify` of the value of slot `i` of node `n` of the original. -/
theorem C3_Duplicate_And_Qualify_is_Duplicate_then_Qualify (MAX : Nat)
    (numParamsOf : ConditionType → Nat)
    (ctor : ConditionCtor P) (hctor : Provisions MAX numParamsOf ctor)
    (Qualify : P → AsciiString → AsciiString → AsciiString → P) (s1 s2 s3 : AsciiString)
    (fuel : Nat) (h : Heap P) (this : Nat) (L : List (Addr × Condition))
    (hch : AndChain h.conds (some this) L)
    (hwf : ∀ x ∈ L, x.2.ProvisionedIn numParamsOf h) (hf : L.length ≤ fuel + 1) :
    ∃ (hD hQ : Heap P) (r : Addr) (L2 : List (Addr × Condition)),
      Condition.Duplicate ctor fuel h this = .ok (hD, r) ∧
      Condition.Duplicate_And_Qualify ctor Qualify s1 s2 s3 fuel h this = .ok (hQ, r) ∧
      hQ.conds = hD.conds ∧ hQ.ors = hD.ors ∧
      hQ.params = h.params ++
        (hD.params.drop h.params.length).map (Option.map (fun v => Qualify v s1 s2 s3)) ∧
      AndChain hQ.conds (some r) L2 ∧ L2.length = L.length ∧
      ∀ (n : Nat) (x y : Addr × Condition), L[n]? = some x → L2[n]? = some y →
        y.2.m_conditionType = x.2.m_conditionType ∧
        ∀ i, i < x.2.m_numParams →
          ∃ v : P, x.2.value h i = some v ∧ y.2.value hD i = some v ∧
            y.2.value hQ i = some (Qualify v s1 s2 s3) := by
  obtain ⟨hrunD, _, _, hcopyD, _, _, _, _⟩ :=
    Duplicate_summary MAX numParamsOf ctor hctor fuel h this L hch hwf hf
  obtain ⟨hrunQ, hchainQ, hlenQ, hcopyQ, _, _, _, _⟩ :=
    Duplicate_And_Qualify_summary MAX numParamsOf ctor hctor Qualify s1 s2 s3 fuel h this L
      hch hwf hf
  refine ⟨_, _, _, _, hrunD, hrunQ, rfl, rfl, ?_, hchainQ, hlenQ, ?_⟩
  · show h.params ++ copiedValues (fun v => Qualify v s1 s2 s3) h (L.map Prod.snd) =
      h.params ++ ((h.params ++ copiedValues (fun v => v) h (L.map Prod.snd)).drop
        h.params.length).map (Option.map (fun v => Qualify v s1 s2 s3))
    rw [List.drop_left, ← copiedValues_map]
  · intro n x y hx hy
    have hD := forall₂_getElem? _ _ _ hcopyD n x y hx hy
    have hQ := forall₂_getElem? _ _ _ hcopyQ n x y hx hy
    refine ⟨hQ.1, ?_⟩
    intro i hi
    obtain ⟨v, _, hv, _, _⟩ :=
      value_some_of_provisioned numParamsOf h x.2 (hwf x (List.getElem?_mem hx)) i hi
    have h1 := (hD.2.2 i hi).1
    have h2 := (hQ.2.2 i hi).1
    rw [hv] at h1 h2
    exact ⟨v, hv, h1, h2⟩

/-- C3 (instance): the chain of `paramHeap` with the transform that adds 100: the
copies hold 107, 108 and 109 where those of `Condition::Duplicate` hold 7, 8
and 9. -/
theorem C3_Duplicate_And_Qualify_is_Duplicate_then_Qualify_witness :
    Provisions 2 typeParams (registryCtor 2 typeParams (0 : Nat)) ∧
    AndChain paramHeap.conds (some 0) paramChain ∧
    (∀ x ∈ paramChain, x.2.ProvisionedIn typeParams paramHeap) ∧
    paramChain.length ≤ 1 + 1 ∧
    (Condition.Duplicate_And_Qualify (registryCtor 2 typeParams 0) addHundred "team" "player"
          "object" 1 paramHeap 0).map (fun r => (r.1.params, r.2)) =
      .ok ([some 7, some 8, some 9, some 107, some 108, some 109], 2) ∧
    ∃ (hD hQ : Heap Nat) (r : Addr) (L2 : List (Addr × Condition)),
      Condition.Duplicate (registryCtor 2 typeParams 0) 1 paramHeap 0 = .ok (hD, r) ∧
      Condition.Duplicate_And_Qualify (registryCtor 2 typeParams 0) addHundred "team" "player"
        "object" 1 paramHeap 0 = .ok (hQ, r) ∧
      hQ.conds = hD.conds ∧ hQ.ors = hD.ors ∧
      hQ.params = paramHeap.params ++
        (hD.params.drop paramHeap.params.length).map
          (Option.map (fun v => addHundred v "team" "player" "object")) ∧
      AndChain hQ.conds (some r) L2 ∧ L2.length = paramChain.length ∧
      ∀ (n : Nat) (x y : Addr × Condition), paramChain[n]? = some x → L2[n]? = some y →
        y.2.m_conditionType = x.2.m_conditionType ∧
        ∀ i, i < x.2.m_numParams →
          ∃ v : Nat, x.2.value paramHeap i = some v ∧ y.2.value hD i = some v ∧
            y.2.value hQ i = some (addHundred v "team" "player" "object") :=
  ⟨registryCtor_Provisions 2 typeParams 0 typeParams_le, ⟨rfl, rfl, rfl, rfl, rfl⟩,
    paramChain_provisioned, by decide, rfl,
    C3_Duplicate_And_Qualify_is_Duplicate_then_Qualify 2 typeParams
      (registryCtor 2 typeParams 0) (registryCtor_Provisions 2 typeParams 0 typeParams_le)
      addHundred "team" "player" "object" 1 paramHeap 0 paramChain
      ⟨rfl, rfl, rfl, rfl, rfl⟩ paramChain_provisioned (by decide)⟩

theorem forall₂_map_eq {α β γ : Type} (f : α → γ) (g : β → γ)
    (l1 : List α) (l2 : List β) (hR : List.Forall₂ (fun x y => g y = f x) l1 l2) :
    l2.map g = l1.map f := by
  induction hR with
  | nil => rfl
  | cons hab _ ih => simp [hab, ih]

theorem qualifyCalls_length (L2 : List (Addr × Condition)) :
    (qualifyCalls L2).length = (L2.map (fun y => y.2.m_numParams)).sum := by
  induction L2 with
  | nil => rfl
  | cons y ys ih => simp [qualifyCalls, ih]

/-- C14: under the conditions of C1, `Condition::Duplicate_And_Qualify` returns and
the calls of `Qualify` it has entered in the record are exactly
`qualifyCalls L2` for the chain `L2` it returns: node after node in chain order,
for each node the slots below its in-use count in increasing order, each slot
once.  Node `n` of `L2` has the in-use count of node `n` of the original, so
their number is the sum of the in-use counts of the original.  Each call is
made on the value found in the slot, after the copy: the slot ends with
`Qualify` of the original's value (were the call made before the copy, it would
end with the original's value). -/
theorem C14_Qualify_calls_in_chain_and_slot_order (MAX : Nat)
    (numParamsOf : ConditionType → Nat)
    (ctor : ConditionCtor P) (hctor : Provisions MAX numParamsOf ctor)
    (Qualify : P → AsciiString → AsciiString → AsciiString → P) (s1 s2 s3 : AsciiString)
    (fuel : Nat) (h : Heap P) (this : Nat) (L : List (Addr × Condition))
    (hch : AndChain h.conds (some this) L)
    (hwf : ∀ x ∈ L, x.2.ProvisionedIn numParamsOf h) (hf : L.length ≤ fuel + 1) :
    ∃ (h2 : Heap P) (r : Addr) (L2 : List (Addr × Condition)),
      Condition.Duplicate_And_Qualify ctor Qualify s1 s2 s3 fuel h this = .ok (h2, r) ∧
      AndChain h2.conds (some r) L2 ∧
      h2.log = h.log ++ qualifyCalls L2 ∧
      L2.map (fun y => y.2.m_numParams) = L.map (fun x => x.2.m_numParams) ∧
      (qualifyCalls L2).length = (L.map (fun x => x.2.m_numParams)).sum ∧
      ∀ (n : Nat) (x y : Addr × Condition), L[n]? = some x → L2[n]? = some y →
        ∀ i, i < x.2.m_numParams →
          ∃ v : P, x.2.value h i = some v ∧ y.2.value h2 i = some (Qualify v s1 s2 s3) := by
  obtain ⟨hrun, hchain, _, hcopy, hlog, _, _, _⟩ :=
    Duplicate_And_Qualify_summary MAX numParamsOf ctor hctor Qualify s1 s2 s3 fuel h this L
      hch hwf hf
  have hcounts : (copiedNodes MAX h.conds.length h.params.length (L.map Prod.snd)).map
      (fun y => y.2.m_numParams) = L.map (fun x => x.2.m_numParams) :=
    forall₂_map_eq _ _ _ _ (hcopy.imp (fun _ _ hxy => hxy.2.1))
  refine ⟨_, _, _, hrun, hchain, hlog, hcounts, ?_, ?_⟩
  · rw [qualifyCalls_length, hcounts]
  · intro n x y hx hy i hi
    have hxy := forall₂_getElem? _ _ _ hcopy n x y hx hy
    obtain ⟨v, _, hv, _, _⟩ :=
      value_some_of_provisioned numParamsOf h x.2 (hwf x (List.getElem?_mem hx)) i hi
    have h2 := (hxy.2.2 i hi).1
    rw [hv] at h2
    exact ⟨v, hv, h2⟩

/-- C14 (instance): on the chain of `paramHeap`, with in-use counts 1 and 2, the
record is slot 0 of the first copy, then slots 0 and 1 of the second. -/
theorem C14_Qualify_calls_in_chain_and_slot_order_witness :
    Provisions 2 typeParams (registryCtor 2 typeParams (0 : Nat)) ∧
    AndChain paramHeap.conds (some 0) paramChain ∧
    (∀ x ∈ paramChain, x.2.ProvisionedIn typeParams paramHeap) ∧
    paramChain.length ≤ 1 + 1 ∧
    (Condition.Duplicate_And_Qualify (registryCtor 2 typeParams 0) addHundred "team" "player"
          "object" 1 paramHeap 0).map (fun r => (r.1.log, r.2)) =
      .ok ([Event.qualify 2 0, Event.qualify 3 0, Event.qualify 3 1], 2) ∧
    ∃ (h2 : Heap Nat) (r : Addr) (L2 : List (Addr × Condition)),
      Condition.Duplicate_And_Qualify (registryCtor 2 typeParams 0) addHundred "team" "player"
        "object" 1 paramHeap 0 = .ok (h2, r) ∧
      AndChain h2.conds (some r) L2 ∧
      h2.log = paramHeap.log ++ qualifyCalls L2 ∧
      L2.map (fun y => y.2.m_numParams) = paramChain.map (fun x => x.2.m_numParams) ∧
      (qualifyCalls L2).length = (paramChain.map (fun x => x.2.m_numParams)).sum ∧
      ∀ (n : Nat) (x y : Addr × Condition), paramChain[n]? = some x → L2[n]? = some y →
        ∀ i, i < x.2.m_numParams →
          ∃ v : Nat, x.2.value paramHeap i = some v ∧
            y.2.value h2 i = some (addHundred v "team" "player" "object") :=
  ⟨registryCtor_Provisions 2 typeParams 0 typeParams_le, ⟨rfl, rfl, rfl, rfl, rfl⟩,
    paramChain_provisioned, by decide, rfl,
    C14_Qualify_calls_in_chain_and_slot_order 2 typeParams (registryCtor 2 typeParams 0)
      (registryCtor_Provisions 2 typeParams 0 typeParams_le)
      addHundred "team" "player" "object" 1 paramHeap 0 paramChain
      ⟨rfl, rfl, rfl, rfl, rfl⟩ paramChain_provisioned (by decide)⟩

/-- C18: let `new Condition(type)` provision every new node with the parameters
of its type.  Then the node it returns owns, for every type, a live parameter
in each slot below the in-use count of the type; and on every finite AND-chain
whose nodes have the in-use count of their type and own live parameters in the
slots below it, `Condition::Duplicate` returns: no copy
`*new_cond->m_params[i] = *m_params[i]` takes an error branch. -/
theorem C18_copy_never_through_empty_slot (MAX : Nat) (numParamsOf : ConditionType → Nat)
    (ctor : ConditionCtor P) (hctor : Provisions MAX numParamsOf ctor)
    (fuel : Nat) (h : Heap P) (this : Nat) (L : List (Addr × Condition))
    (hch : AndChain h.conds (some this) L)
    (hwf : ∀ x ∈ L, x.2.ProvisionedIn numParamsOf h) (hf : L.length ≤ fuel + 1) :
    (∀ (g : Heap P) (t : ConditionType),
      ∃ (g1 : Heap P) (new_cond : Addr) (c : Condition),
        ctor g t = .ok (g1, new_cond) ∧ g1.conds[new_cond]? = some (some c) ∧
        c.m_numParams = numParamsOf t ∧ c.m_numParams ≤ MAX ∧ c.m_params.length = MAX ∧
        ∀ i, i < numParamsOf t →
          ∃ (q : Nat) (w : P), c.m_params[i]? = some (some q) ∧
            g1.params[q]? = some (some w)) ∧
    ∃ (h2 : Heap P) (r : Addr), Condition.Duplicate ctor fuel h this = .ok (h2, r) := by
  refine ⟨?_, _, _, (Duplicate_summary MAX numParamsOf ctor hctor fuel h this L hch hwf hf).1⟩
  intro g t
  obtain ⟨hk, init, hinit, hc⟩ := hctor g t
  refine ⟨_, _, Condition.provisioned MAX (numParamsOf t) g.params.length t, hc,
    getElem?_append_length _ _ _, rfl, hk, ?_, ?_⟩
  · simp [Condition.provisioned, hk]
  · intro i hi
    refine ⟨g.params.length + i, init.get ⟨i, by rw [hinit]; exact hi⟩,
      provisioned_slot MAX _ _ t i hi, ?_⟩
    show (g.params ++ init.map some)[g.params.length + i]? = _
    rw [List.getElem?_append_right (Nat.le_add_right _ _)]
    simp [hinit, hi]

/-- C18 (instance): the chain of `paramHeap`. -/
theorem C18_copy_never_through_empty_slot_witness :
    Provisions 2 typeParams (registryCtor 2 typeParams (0 : Nat)) ∧
    AndChain paramHeap.conds (some 0) paramChain ∧
    (∀ x ∈ paramChain, x.2.ProvisionedIn typeParams paramHeap) ∧
    paramChain.length ≤ 1 + 1 ∧
    (∀ (g : Heap Nat) (t : ConditionType),
      ∃ (g1 : Heap Nat) (new_cond : Addr) (c : Condition),
        registryCtor 2 typeParams 0 g t = .ok (g1, new_cond) ∧
        g1.conds[new_cond]? = some (some c) ∧
        c.m_numParams = typeParams t ∧ c.m_numParams ≤ 2 ∧ c.m_params.length = 2 ∧
        ∀ i, i < typeParams t →
          ∃ (q : Nat) (w : Nat), c.m_params[i]? = some (some q) ∧
            g1.params[q]? = some (some w)) ∧
    ∃ (h2 : Heap Nat) (r : Addr),
      Condition.Duplicate (registryCtor 2 typeParams 0) 1 paramHeap 0 = .ok (h2, r) :=
  ⟨registryCtor_Provisions 2 typeParams 0 typeParams_le, ⟨rfl, rfl, rfl, rfl, rfl⟩,
    paramChain_provisioned, by decide,
    C18_copy_never_through_empty_slot 2 typeParams (registryCtor 2 typeParams 0)
      (registryCtor_Provisions 2 typeParams 0 typeParams_le) 1 paramHeap 0 paramChain
      ⟨rfl, rfl, rfl, rfl, rfl⟩ paramChain_provisioned (by decide)⟩

/-! ## The two copies of `OrCondition` chains have one shape -/

theorem copyFirstAnd_eq_With (ctor : ConditionCtor P) (fuelAnd : Nat) (dst src : Addr)
    (h : Heap P) :
    OrCondition.copyFirstAnd ctor fuelAnd dst src h =
      OrCondition.copyFirstAndWith (Condition.Duplicate ctor fuelAnd) dst src h := rfl

theorem OrDuplicateLoop_eq_copyOrLoop (ctor : ConditionCtor P) (fuelAnd : Nat) :
    ∀ (fuel : Nat) (h : Heap P) (new_or : Addr) (p : Option Addr),
      OrCondition.DuplicateLoop ctor fuelAnd fuel h new_or p =
        OrCondition.copyOrLoop (Condition.Duplicate ctor fuelAnd) fuel h new_or p := by
  intro fuel
  induction fuel with
  | zero =>
    intro h new_or p
    cases p <;> rfl
  | succ fuel ih =>
    intro h new_or p
    cases p with
    | none => rfl
    | some next =>
      simp only [OrCondition.DuplicateLoop, OrCondition.copyOrLoop, ih, copyFirstAnd_eq_With]

theorem OrDuplicate_eq_copyOrChain (ctor : ConditionCtor P) (fuelAnd fuel : Nat) (h : Heap P)
    (this : Addr) :
    OrCondition.Duplicate ctor fuelAnd fuel h this =
      OrCondition.copyOrChain (Condition.Duplicate ctor fuelAnd) fuel h this := by
  simp only [OrCondition.Duplicate, OrCondition.copyOrChain, OrDuplicateLoop_eq_copyOrLoop,
    copyFirstAnd_eq_With]

theorem copyFirstAndQualify_eq_With (ctor : ConditionCtor P)
    (Qualify : P → AsciiString → AsciiString → AsciiString → P) (s1 s2 s3 : AsciiString)
    (fuelAnd : Nat) (dst src : Addr) (h : Heap P) :
    OrCondition.copyFirstAndQualify ctor Qualify s1 s2 s3 fuelAnd dst src h =
      OrCondition.copyFirstAndWith (Condition.Duplicate_And_Qualify ctor Qualify s1 s2 s3 fuelAnd)
        dst src h := rfl

theorem OrDuplicate_And_QualifyLoop_eq_copyOrLoop (ctor : ConditionCtor P)
    (Qualify : P → AsciiString → AsciiString → AsciiString → P) (s1 s2 s3 : AsciiString)
    (fuelAnd : Nat) :
    ∀ (fuel : Nat) (h : Heap P) (new_or : Addr) (p : Option Addr),
      OrCondition.Duplicate_And_QualifyLoop ctor Qualify s1 s2 s3 fuelAnd fuel h new_or p =
        OrCondition.copyOrLoop (Condition.Duplicate_And_Qualify ctor Qualify s1 s2 s3 fuelAnd)
          fuel h new_or p := by
  intro fuel
  induction fuel with
  | zero =>
    intro h new_or p
    cases p <;> rfl
  | succ fuel ih =>
    intro h new_or p
    cases p with
    | none => rfl
    | some next =>
      simp only [OrCondition.Duplicate_And_QualifyLoop, OrCondition.copyOrLoop, ih,
        copyFirstAndQualify_eq_With]

theorem OrDuplicate_And_Qualify_eq_copyOrChain (ctor : ConditionCtor P)
    (Qualify : P → AsciiString → AsciiString → AsciiString → P) (s1 s2 s3 : AsciiString)
    (fuelAnd fuel : Nat) (h : Heap P) (this : Addr) :
    OrCondition.Duplicate_And_Qualify ctor Qualify s1 s2 s3 fuelAnd fuel h this =
      OrCondition.copyOrChain (Condition.Duplicate_And_Qualify ctor Qualify s1 s2 s3 fuelAnd)
        fuel h this := by
  simp only [OrCondition.Duplicate_And_Qualify, OrCondition.copyOrChain,
    OrDuplicate_And_QualifyLoop_eq_copyOrLoop, copyFirstAndQualify_eq_With]

/-! ## Copies of trees -/

theorem copyHeap_nil (MAX : Nat) (f : P → P) (ev : Addr → Nat → List Event) (h : Heap P) :
    copyHeap MAX f ev h [] = h := by
  cases h
  simp [copyHeap, copiedValues, copiedNodes, chainEvents]

theorem ProvisionedIn_preserved (numParamsOf : ConditionType → Nat) (h h2 : Heap P)
    (hp : ∀ (q : Nat) (v : Option P), h.params[q]? = some v → h2.params[q]? = some v)
    (c : Condition) (hc : c.ProvisionedIn numParamsOf h) :
    c.ProvisionedIn numParamsOf h2 := by
  refine ⟨hc.1, fun i hi => ?_⟩
  obtain ⟨q, v, hq, hv⟩ := hc.2 i hi
  exact ⟨q, v, hq, hp q _ hv⟩

theorem copiedValues_preserved (numParamsOf : ConditionType → Nat) (f : P → P) (h h2 : Heap P)
    (hp : ∀ (q : Nat) (v : Option P), h.params[q]? = some v → h2.params[q]? = some v)
    (cs : List Condition)
    (hwf : ∀ c ∈ cs, c.ProvisionedIn numParamsOf h) :
    copiedValues f h2 cs = copiedValues f h cs := by
  induction cs with
  | nil => rfl
  | cons c cs ih =>
    simp only [copiedValues]
    rw [ih (fun c2 hc2 => hwf c2 (List.mem_cons_of_mem _ hc2))]
    congr 1
    apply List.map_congr_left
    intro i hi
    obtain ⟨v, _, hv, _, _⟩ := value_some_of_provisioned numParamsOf h c
      (hwf c (List.mem_cons_self _ _)) i (List.mem_range.mp hi)
    rw [hv, value_preserved h h2 hp c i v hv]

theorem copiedValues_ors (f : P → P) (h : Heap P) (os : List (Option OrCondition))
    (cs : List Condition) :
    copiedValues f ({ h with ors := os } : Heap P) cs = copiedValues f h cs := by
  induction cs with
  | nil => rfl
  | cons c cs ih =>
    simp only [copiedValues, ih]
    rfl

theorem copyHeap_ors (MAX : Nat) (f : P → P) (ev : Addr → Nat → List Event) (h : Heap P)
    (os os2 : List (Option OrCondition)) (cs : List Condition) :
    ({ copyHeap MAX f ev ({ h with ors := os } : Heap P) cs with ors := os2 } : Heap P) =
      { copyHeap MAX f ev h cs with ors := os2 } := by
  simp only [copyHeap, copiedValues_ors]

theorem forall₂_imp_mem {α β : Type} (R S : α → β → Prop) (l1 : List α) (l2 : List β)
    (hR : List.Forall₂ R l1 l2) (himp : ∀ x ∈ l1, ∀ y, R x y → S x y) :
    List.Forall₂ S l1 l2 := by
  induction hR with
  | nil => exact List.Forall₂.nil
  | cons hab _ ih =>
    exact List.Forall₂.cons (himp _ (List.mem_cons_self _ _) _ hab)
      (ih (fun x hx => himp x (List.mem_cons_of_mem _ hx)))

/-- The statement that copies the AND-chain of `src` into the fresh node `dst`. -/
theorem copyFirstAndWith_ok (MAX : Nat) (numParamsOf : ConditionType → Nat) (f : P → P)
    (ev : Addr → Nat → List Event) (fuelAnd : Nat)
    (dup : Heap P → Addr → Except Fault (Heap P × Addr))
    (hdup : ∀ (g : Heap P) (fa : Nat) (La : List (Addr × Condition)),
      AndChain g.conds (some fa) La → (∀ x ∈ La, x.2.ProvisionedIn numParamsOf g) →
      La.length ≤ fuelAnd + 1 →
      dup g fa = .ok (copyHeap MAX f ev g (La.map Prod.snd), g.conds.length))
    (h : Heap P) (dst src : Nat) (s d : OrCondition) (La : List (Addr × Condition))
    (hs : h.ors[src]? = some (some s)) (hd : h.ors[dst]? = some (some d))
    (hdn : d.m_firstAnd = none)
    (hch : AndChain h.conds s.m_firstAnd La)
    (hwf : ∀ y ∈ La, y.2.ProvisionedIn numParamsOf h) (hf : La.length ≤ fuelAnd + 1) :
    OrCondition.copyFirstAndWith dup dst src h =
      .ok { copyHeap MAX f ev h (La.map Prod.snd) with
        ors := h.ors.set dst
          (some { d with m_firstAnd := s.m_firstAnd.map (fun _ => h.conds.length) }) } := by
  cases La with
  | nil =>
    have hn : s.m_firstAnd = none := hch
    simp only [OrCondition.copyFirstAndWith, bind, Except.bind, readOr_of_get h src s hs, hn,
      pure, Except.pure, List.map_nil, copyHeap_nil, Option.map_none']
    have hdd : ({ d with m_firstAnd := none } : OrCondition) = d := by
      cases d
      simp at hdn
      simp [hdn]
    rw [hdd, set_of_getElem? _ _ _ hd]
  | cons x rest =>
    obtain ⟨a, c⟩ := x
    have hn : s.m_firstAnd = some a := hch.1
    rw [hn] at hch
    have hrun := hdup h a _ hch hwf hf
    have hr : Heap.readOr (copyHeap MAX f ev h (List.map Prod.snd ((a, c) :: rest))) dst =
        .ok d := readOr_of_get _ dst d hd
    have hw : Heap.writeOr (copyHeap MAX f ev h (List.map Prod.snd ((a, c) :: rest))) dst
        { d with m_firstAnd := some h.conds.length } = _ := writeOr_of_get _ dst d _ hd
    simp only [OrCondition.copyFirstAndWith, bind, Except.bind, readOr_of_get h src s hs, hn,
      hrun, hr, hw, Option.map_some']
    rfl

theorem copyOrLoop_none (dup : Heap P → Addr → Except Fault (Heap P × Addr)) (fuel : Nat)
    (h : Heap P) (a : Addr) : OrCondition.copyOrLoop dup fuel h a none = .ok h := by
  cases fuel <;> rfl

theorem copyOrLoop_step (MAX : Nat) (numParamsOf : ConditionType → Nat) (f : P → P)
    (ev : Addr → Nat → List Event) (fuelAnd : Nat)
    (dup : Heap P → Addr → Except Fault (Heap P × Addr))
    (hdup : ∀ (g : Heap P) (fa : Nat) (La : List (Addr × Condition)),
      AndChain g.conds (some fa) La → (∀ x ∈ La, x.2.ProvisionedIn numParamsOf g) →
      La.length ≤ fuelAnd + 1 →
      dup g fa = .ok (copyHeap MAX f ev g (La.map Prod.snd), g.conds.length))
    (fuel : Nat) (h : Heap P)
    (pre : List (Option OrCondition)) (X : OrCondition) (a : Nat) (o : OrCondition)
    (La : List (Addr × Condition))
    (hpre : h.ors = pre ++ [some X]) (ha : pre[a]? = some (some o))
    (hch : AndChain h.conds o.m_firstAnd La)
    (hwf : ∀ y ∈ La, y.2.ProvisionedIn numParamsOf h) (hf : La.length ≤ fuelAnd + 1) :
    OrCondition.copyOrLoop dup (fuel + 1) h pre.length (some a) =
      OrCondition.copyOrLoop dup fuel
        { copyHeap MAX f ev h (La.map Prod.snd) with
          ors := pre ++ [some { X with m_nextOr := some (pre.length + 1) },
            some { OrCondition.init with
              m_firstAnd := o.m_firstAnd.map (fun _ => h.conds.length) }] }
        (pre.length + 1) o.m_nextOr := by
  have hlt : a < pre.length := getElem?_some_lt _ _ _ ha
  have hlen : h.ors.length = pre.length + 1 := by simp [hpre]
  have e0 : h.ors ++ [some OrCondition.init] = pre ++ [some X, some OrCondition.init] := by
    simp [hpre]
  simp only [OrCondition.copyOrLoop, new_OrCondition, bind, Except.bind, hlen, e0]
  rw [readOr_of_get _ pre.length X (getElem?_append_length _ _ _)]
  simp only []
  rw [writeOr_of_get _ pre.length X _ (getElem?_append_length _ _ _)]
  simp only [set_append_length]
  have hsrc : (pre ++ [some { X with m_nextOr := some (pre.length + 1) },
      some OrCondition.init])[a]? = some (some o) := getElem?_append_of_some _ _ _ _ ha
  have hdst : (pre ++ [some { X with m_nextOr := some (pre.length + 1) },
      some OrCondition.init])[pre.length + 1]? = some (some OrCondition.init) := by
    rw [List.getElem?_append_right (Nat.le_succ _)]
    simp
  have hcopy := copyFirstAndWith_ok MAX numParamsOf f ev fuelAnd dup hdup
    ({ h with ors := pre ++ [some { X with m_nextOr := some (pre.length + 1) },
        some OrCondition.init] } : Heap P)
    (pre.length + 1) a o OrCondition.init La hsrc hdst rfl hch hwf hf
  rw [hcopy]
  simp only []
  have hset : (pre ++ [some { X with m_nextOr := some (pre.length + 1) },
      some OrCondition.init]).set (pre.length + 1)
        (some { OrCondition.init with m_firstAnd := o.m_firstAnd.map (fun _ => h.conds.length) }) =
      pre ++ [some { X with m_nextOr := some (pre.length + 1) },
        some { OrCondition.init with
          m_firstAnd := o.m_firstAnd.map (fun _ => h.conds.length) }] := by
    simp
  rw [hset]
  have hread : Heap.readOr ({ copyHeap MAX f ev
      ({ h with ors := pre ++ [some { X with m_nextOr := some (pre.length + 1) },
        some OrCondition.init] } : Heap P) (La.map Prod.snd) with
      ors := pre ++ [some { X with m_nextOr := some (pre.length + 1) },
        some { OrCondition.init with
          m_firstAnd := o.m_firstAnd.map (fun _ => h.conds.length) }] } : Heap P) a = .ok o :=
    readOr_of_get _ a o (getElem?_append_of_some _ _ _ _ ha)
  rw [hread]
  simp only []
  rw [copyHeap_ors]

/-- The chain loop of a copy of an OR-chain over the remaining original nodes
`rest`, entered with the node under construction `X` as the last cell of the
pool. -/
theorem copyOrLoop_tree (MAX : Nat) (numParamsOf : ConditionType → Nat) (f : P → P)
    (ev : Addr → Nat → List Event) (fuelAnd : Nat)
    (dup : Heap P → Addr → Except Fault (Heap P × Addr))
    (hdup : ∀ (g : Heap P) (fa : Nat) (La : List (Addr × Condition)),
      AndChain g.conds (some fa) La → (∀ x ∈ La, x.2.ProvisionedIn numParamsOf g) →
      La.length ≤ fuelAnd + 1 →
      dup g fa = .ok (copyHeap MAX f ev g (La.map Prod.snd), g.conds.length))
    (rest : List ((Addr × OrCondition) × List (Addr × Condition))) :
    ∀ (fuel : Nat) (h : Heap P) (pre : List (Option OrCondition)) (X : OrCondition)
      (nextp : Option Addr),
      h.ors = pre ++ [some X] → X.m_nextOr = none →
      OrChain pre nextp (rest.map Prod.fst) →
      (∀ x ∈ rest, AndChain h.conds x.1.2.m_firstAnd x.2) →
      (∀ x ∈ rest, ∀ y ∈ x.2, y.2.ProvisionedIn numParamsOf h) →
      (∀ x ∈ rest, x.2.length ≤ fuelAnd + 1) →
      rest.length ≤ fuel →
      ∃ (h2 : Heap P) (T2 : List ((Addr × OrCondition) × List (Addr × Condition)))
          (ext : List (Option Condition)) (pext : List (Option P)) (lext : List Event)
          (tl : List (Option OrCondition)),
        OrCondition.copyOrLoop dup fuel h pre.length nextp = .ok h2 ∧
        h2.conds = h.conds ++ ext ∧ h2.params = h.params ++ pext ∧ h2.log = h.log ++ lext ∧
        h2.ors = pre ++ [some { X with m_nextOr := treeHead T2 }] ++ tl ∧
        OrChain h2.ors (treeHead T2) (T2.map Prod.fst) ∧
        (∀ y ∈ T2, AndChain h2.conds y.1.2.m_firstAnd y.2) ∧
        List.Forall₂ (IsCopyOfEntry MAX f h h2) rest T2 := by
  induction rest with
  | nil =>
    intro fuel h pre X nextp hpre hX hch _ _ _ _
    have hn : nextp = none := hch
    subst hn
    refine ⟨h, [], [], [], [], [], copyOrLoop_none _ _ _ _, by simp, by simp, by simp, ?_, rfl,
      ?_, List.Forall₂.nil⟩
    · simp only [treeHead, List.append_nil]
      rw [OrCondition_eta_nextOr X hX]
      exact hpre
    · intro y hy
      exact absurd hy (List.not_mem_nil _)
  | cons x rest ih =>
    intro fuel h pre X nextp hpre hX hch hand hwf hlen hf
    obtain ⟨⟨a, o⟩, La⟩ := x
    obtain ⟨hp, hget, htail⟩ := hch
    subst hp
    cases fuel with
    | zero => simp at hf
    | succ fuel =>
      have hLa : AndChain h.conds o.m_firstAnd La := hand ((a, o), La) (List.mem_cons_self _ _)
      have hwfLa : ∀ y ∈ La, y.2.ProvisionedIn numParamsOf h :=
        hwf ((a, o), La) (List.mem_cons_self _ _)
      rw [copyOrLoop_step MAX numParamsOf f ev fuelAnd dup hdup fuel h pre X a o La hpre hget hLa
        hwfLa (hlen ((a, o), La) (List.mem_cons_self _ _))]
      have hpres : ∀ (q : Nat) (v : Option P), h.params[q]? = some v →
          ({ copyHeap MAX f ev h (La.map Prod.snd) with
            ors := pre ++ [some { X with m_nextOr := some (pre.length + 1) },
              some { OrCondition.init with
                m_firstAnd := o.m_firstAnd.map (fun _ => h.conds.length) }] } :
              Heap P).params[q]? = some v :=
        fun _ _ hq => getElem?_append_of_some _ _ _ _ hq
      obtain ⟨h2, T2, ext, pext, lext, tl, hrun, hconds, hparams, hlog, hors, hchain, hands,
          hdupl⟩ :=
        ih fuel
          ({ copyHeap MAX f ev h (La.map Prod.snd) with
            ors := pre ++ [some { X with m_nextOr := some (pre.length + 1) },
              some { OrCondition.init with
                m_firstAnd := o.m_firstAnd.map (fun _ => h.conds.length) }] } : Heap P)
          (pre ++ [some { X with m_nextOr := some (pre.length + 1) }])
          { OrCondition.init with m_firstAnd := o.m_firstAnd.map (fun _ => h.conds.length) }
          o.m_nextOr (by simp) rfl (OrChain_append _ _ _ _ htail)
          (fun y hy => AndChain_append _ _ _ _ (hand y (List.mem_cons_of_mem _ hy)))
          (fun y hy z hz => ProvisionedIn_preserved numParamsOf h _ hpres z.2
            (hwf y (List.mem_cons_of_mem _ hy) z hz))
          (fun y hy => hlen y (List.mem_cons_of_mem _ hy)) (by simpa using hf)
      simp only [List.length_append, List.length_singleton] at hrun
      refine ⟨h2,
        ((pre.length + 1,
            { m_nextOr := treeHead T2
              m_firstAnd := o.m_firstAnd.map (fun _ => h.conds.length) }),
          copiedNodes MAX h.conds.length h.params.length (La.map Prod.snd)) :: T2,
        (copiedNodes MAX h.conds.length h.params.length (La.map Prod.snd)).map
          (fun y => some y.2) ++ ext,
        copiedValues f h (La.map Prod.snd) ++ pext,
        chainEvents ev (copiedNodes MAX h.conds.length h.params.length (La.map Prod.snd)) ++ lext,
        [some
            { m_nextOr := treeHead T2
              m_firstAnd := o.m_firstAnd.map (fun _ => h.conds.length) }] ++ tl,
        hrun, ?_, ?_, ?_, ?_, ?_, ?_, ?_⟩
      · rw [hconds]
        simp [copyHeap]
      · rw [hparams]
        simp [copyHeap]
      · rw [hlog]
        simp [copyHeap]
      · rw [hors]
        simp [treeHead, OrCondition.init]
      · refine ⟨rfl, ?_, hchain⟩
        rw [hors]
        have := getElem?_append_length
          (pre ++ [some { X with m_nextOr := some (pre.length + 1) }])
          (some
            ({ m_nextOr := treeHead T2
               m_firstAnd := o.m_firstAnd.map (fun _ => h.conds.length) } : OrCondition)) tl
        simpa [OrCondition.init] using this
      · intro y hy
        rcases List.mem_cons.mp hy with rfl | hy2
        · rw [hconds]
          have key := AndChain_copiedNodes MAX (La.map Prod.snd) h.conds ext h.params.length
          cases La with
          | nil =>
            have hn : o.m_firstAnd = none := hLa
            simp only [hn, Option.map_none']
            exact key
          | cons z zs =>
            have hn : o.m_firstAnd = some z.1 := hLa.1
            simp only [hn, Option.map_some']
            exact key
        · exact hands y hy2
      · refine List.Forall₂.cons ⟨?_, h.conds.length, h.params.length, h.params, pext, rfl, ?_,
          rfl, Nat.le_refl _⟩ ?_
        · show Option.map (fun _ => h.conds.length) o.m_firstAnd = none ↔ o.m_firstAnd = none
          cases o.m_firstAnd <;> simp
        · rw [hparams]
          rfl
        · refine forall₂_imp_mem _ _ _ _ hdupl ?_
          intro x hx y hxy
          obtain ⟨hiff, cb, pb, pre2, post2, hy2, hpar2, hpre2, hle2⟩ := hxy
          refine ⟨hiff, cb, pb, pre2, post2, hy2, ?_, hpre2, ?_⟩
          · rw [hpar2, copiedValues_preserved numParamsOf f h _ hpres (x.2.map Prod.snd)
              (fun c hc => by
                obtain ⟨z, hz, hzc⟩ := List.mem_map.mp hc
                rw [← hzc]
                exact hwf x (List.mem_cons_of_mem _ hx) z hz)]
          · refine Nat.le_trans ?_ hle2
            show h.params.length ≤ (h.params ++ copiedValues f h (La.map Prod.snd)).length
            simp

/-- A copy of an OR-chain on a tree whose AND-chains consist of provisioned nodes:
it returns a new tree, entry by entry a copy of the original, and only appends
to the pools. -/
theorem copyOrChain_tree (MAX : Nat) (numParamsOf : ConditionType → Nat) (f : P → P)
    (ev : Addr → Nat → List Event) (fuelAnd : Nat)
    (dup : Heap P → Addr → Except Fault (Heap P × Addr))
    (hdup : ∀ (g : Heap P) (fa : Nat) (La : List (Addr × Condition)),
      AndChain g.conds (some fa) La → (∀ x ∈ La, x.2.ProvisionedIn numParamsOf g) →
      La.length ≤ fuelAnd + 1 →
      dup g fa = .ok (copyHeap MAX f ev g (La.map Prod.snd), g.conds.length))
    (fuel : Nat) (h : Heap P) (a0 : Nat) (o0 : OrCondition)
    (La0 : List (Addr × Condition))
    (rest : List ((Addr × OrCondition) × List (Addr × Condition)))
    (hT : OrTree h (some a0) (((a0, o0), La0) :: rest))
    (hwf : ∀ x ∈ ((a0, o0), La0) :: rest, ∀ y ∈ x.2, y.2.ProvisionedIn numParamsOf h)
    (hlen : ∀ x ∈ ((a0, o0), La0) :: rest, x.2.length ≤ fuelAnd + 1)
    (hf : rest.length ≤ fuel) :
    ∃ (h2 : Heap P) (T2 : List ((Addr × OrCondition) × List (Addr × Condition)))
        (ext : List (Option Condition)) (pext : List (Option P)) (lext : List Event)
        (tl : List (Option OrCondition)),
      OrCondition.copyOrChain dup fuel h a0 = .ok (h2, h.ors.length) ∧
      OrTree h2 (some h.ors.length) T2 ∧
      List.Forall₂ (IsCopyOfEntry MAX f h h2) (((a0, o0), La0) :: rest) T2 ∧
      h2.conds = h.conds ++ ext ∧ h2.params = h.params ++ pext ∧ h2.ors = h.ors ++ tl ∧
      h2.log = h.log ++ lext := by
  obtain ⟨hor, hand⟩ := hT
  obtain ⟨_, hget, htail⟩ := hor
  have hLa : AndChain h.conds o0.m_firstAnd La0 := hand ((a0, o0), La0) (List.mem_cons_self _ _)
  have hwfLa : ∀ y ∈ La0, y.2.ProvisionedIn numParamsOf h :=
    hwf ((a0, o0), La0) (List.mem_cons_self _ _)
  have hcopy := copyFirstAndWith_ok MAX numParamsOf f ev fuelAnd dup hdup
    ({ h with ors := h.ors ++ [some OrCondition.init] } : Heap P)
    h.ors.length a0 o0 OrCondition.init La0 (getElem?_append_of_some _ _ _ _ hget)
    (getElem?_append_length _ _ _) rfl hLa hwfLa
    (hlen ((a0, o0), La0) (List.mem_cons_self _ _))
  simp only [set_append_length] at hcopy
  rw [copyHeap_ors] at hcopy
  have hpres : ∀ (q : Nat) (v : Option P), h.params[q]? = some v →
      ({ copyHeap MAX f ev h (La0.map Prod.snd) with
        ors := h.ors ++ [some { OrCondition.init with
          m_firstAnd := o0.m_firstAnd.map (fun _ => h.conds.length) }] } :
          Heap P).params[q]? = some v :=
    fun _ _ hq => getElem?_append_of_some _ _ _ _ hq
  obtain ⟨h2, T2, ext, pext, lext, tl, hrun, hconds, hparams, hlog, hors, hchain, hands,
      hdupl⟩ :=
    copyOrLoop_tree MAX numParamsOf f ev fuelAnd dup hdup rest fuel
      ({ copyHeap MAX f ev h (La0.map Prod.snd) with
        ors := h.ors ++ [some { OrCondition.init with
          m_firstAnd := o0.m_firstAnd.map (fun _ => h.conds.length) }] } : Heap P)
      h.ors { OrCondition.init with m_firstAnd := o0.m_firstAnd.map (fun _ => h.conds.length) }
      o0.m_nextOr rfl rfl htail
      (fun y hy => AndChain_append _ _ _ _ (hand y (List.mem_cons_of_mem _ hy)))
      (fun y hy z hz => ProvisionedIn_preserved numParamsOf h _ hpres z.2
        (hwf y (List.mem_cons_of_mem _ hy) z hz))
      (fun y hy => hlen y (List.mem_cons_of_mem _ hy)) hf
  refine ⟨h2,
    ((h.ors.length,
        { m_nextOr := treeHead T2
          m_firstAnd := o0.m_firstAnd.map (fun _ => h.conds.length) }),
      copiedNodes MAX h.conds.length h.params.length (La0.map Prod.snd)) :: T2,
    (copiedNodes MAX h.conds.length h.params.length (La0.map Prod.snd)).map
      (fun y => some y.2) ++ ext,
    copiedValues f h (La0.map Prod.snd) ++ pext,
    chainEvents ev (copiedNodes MAX h.conds.length h.params.length (La0.map Prod.snd)) ++ lext,
    [some
      { m_nextOr := treeHead T2
        m_firstAnd := o0.m_firstAnd.map (fun _ => h.conds.length) }] ++ tl,
    ?_, ⟨?_, ?_⟩, ?_, ?_, ?_, ?_, ?_⟩
  · simp only [OrCondition.copyOrChain, new_OrCondition, bind, Except.bind, pure, Except.pure,
      hcopy]
    have hr : Heap.readOr ({ copyHeap MAX f ev h (La0.map Prod.snd) with
        ors := h.ors ++ [some { OrCondition.init with
          m_firstAnd := o0.m_firstAnd.map (fun _ => h.conds.length) }] } : Heap P) a0 = .ok o0 :=
      readOr_of_get _ a0 o0 (getElem?_append_of_some _ _ _ _ hget)
    rw [hr]
    simp only []
    rw [hrun]
  · refine ⟨rfl, ?_, hchain⟩
    rw [hors]
    have := getElem?_append_length h.ors
      (some
        ({ m_nextOr := treeHead T2
           m_firstAnd := o0.m_firstAnd.map (fun _ => h.conds.length) } : OrCondition)) tl
    simpa [OrCondition.init] using this
  · intro y hy
    rcases List.mem_cons.mp hy with rfl | hy2
    · rw [hconds]
      have key := AndChain_copiedNodes MAX (La0.map Prod.snd) h.conds ext h.params.length
      cases La0 with
      | nil =>
        have hn : o0.m_firstAnd = none := hLa
        simp only [hn, Option.map_none']
        exact key
      | cons z zs =>
        have hn : o0.m_firstAnd = some z.1 := hLa.1
        simp only [hn, Option.map_some']
        exact key
    · exact hands y hy2
  · refine List.Forall₂.cons ⟨?_, h.conds.length, h.params.length, h.params, pext, rfl, ?_,
      rfl, Nat.le_refl _⟩ ?_
    · show Option.map (fun _ => h.conds.length) o0.m_firstAnd = none ↔ o0.m_firstAnd = none
      cases o0.m_firstAnd <;> simp
    · rw [hparams]
      rfl
    · refine forall₂_imp_mem _ _ _ _ hdupl ?_
      intro x hx y hxy
      obtain ⟨hiff, cb, pb, pre2, post2, hy2, hpar2, hpre2, hle2⟩ := hxy
      refine ⟨hiff, cb, pb, pre2, post2, hy2, ?_, hpre2, ?_⟩
      · rw [hpar2, copiedValues_preserved numParamsOf f h _ hpres (x.2.map Prod.snd)
          (fun c hc => by
            obtain ⟨z, hz, hzc⟩ := List.mem_map.mp hc
            rw [← hzc]
            exact hwf x (List.mem_cons_of_mem _ hx) z hz)]
      · refine Nat.le_trans ?_ hle2
        show h.params.length ≤ (h.params ++ copiedValues f h (La0.map Prod.snd)).length
        simp
  · rw [hconds]
    simp [copyHeap]
  · rw [hparams]
    simp [copyHeap]
  · rw [hors]
    simp [OrCondition.init]
  · rw [hlog]
    simp [copyHeap]

/-- What a copy of an OR-chain returns, entry by entry. -/
theorem copyOrChain_shape (MAX : Nat) (numParamsOf : ConditionType → Nat) (f : P → P)
    (ev : Addr → Nat → List Event) (fuelAnd : Nat)
    (dup : Heap P → Addr → Except Fault (Heap P × Addr))
    (hdup : ∀ (g : Heap P) (fa : Nat) (La : List (Addr × Condition)),
      AndChain g.conds (some fa) La → (∀ x ∈ La, x.2.ProvisionedIn numParamsOf g) →
      La.length ≤ fuelAnd + 1 →
      dup g fa = .ok (copyHeap MAX f ev g (La.map Prod.snd), g.conds.length))
    (fuel : Nat) (h : Heap P) (a0 : Nat)
    (T : List ((Addr × OrCondition) × List (Addr × Condition)))
    (hT : OrTree h (some a0) T)
    (hwf : ∀ x ∈ T, ∀ y ∈ x.2, y.2.ProvisionedIn numParamsOf h)
    (hlen : ∀ x ∈ T, x.2.length ≤ fuelAnd + 1)
    (hf : T.length ≤ fuel + 1) :
    ∃ (h2 : Heap P) (T2 : List ((Addr × OrCondition) × List (Addr × Condition))),
      OrCondition.copyOrChain dup fuel h a0 = .ok (h2, h.ors.length) ∧
      OrTree h2 (some h.ors.length) T2 ∧ T2.length = T.length ∧
      h.Preserves h2 ∧
      ∀ (j : Nat) (x y : (Addr × OrCondition) × List (Addr × Condition)),
        T[j]? = some x → T2[j]? = some y →
        (y.1.2.m_firstAnd = none ↔ x.1.2.m_firstAnd = none) ∧ y.2.length = x.2.length ∧
        chainView h2 y.2 = copyViews MAX f h (x.2.map Prod.snd) ∧
        List.Forall₂ (fun c z => IsCopy f h c.2 h2 z.2) x.2 y.2 := by
  cases T with
  | nil => exact absurd hT.1 (by simp [OrChain])
  | cons x rest =>
    obtain ⟨⟨a, o⟩, La⟩ := x
    have ha : a0 = a := Option.some.inj hT.1.1
    subst ha
    obtain ⟨h2, T2, ext, pext, lext, tl, hrun, hT2, hdupl, hconds, hparams, hors, _⟩ :=
      copyOrChain_tree MAX numParamsOf f ev fuelAnd dup hdup fuel h a0 o La rest hT hwf hlen
        (by simpa using hf)
    refine ⟨h2, T2, hrun, hT2, hdupl.length_eq.symm, ?_, ?_⟩
    · refine ⟨fun _ _ hc => ?_, fun _ _ ho => ?_, fun _ _ hq => ?_⟩
      · rw [hconds]
        exact getElem?_append_of_some _ _ _ _ hc
      · rw [hors]
        exact getElem?_append_of_some _ _ _ _ ho
      · rw [hparams]
        exact getElem?_append_of_some _ _ _ _ hq
    · intro j x y hx hy
      obtain ⟨hiff, cb, pb, pre, post, hy2, hpar, hpre, hle⟩ :=
        forall₂_getElem? _ _ _ hdupl j x y hx hy
      refine ⟨hiff, by rw [hy2, copiedNodes_length, List.length_map], ?_, ?_⟩
      · rw [hy2]
        exact chainView_copiedNodes MAX f h h2 (x.2.map Prod.snd) cb pb pre post hpar hpre
      · rw [hy2]
        exact List.forall₂_map_left_iff.mp
          (copiedNodes_isCopy MAX f h h2 (x.2.map Prod.snd) cb pb pre post hpar hpre hle)

/-! ## `OrCondition::Duplicate` -/

/-- C4: let `new Condition(type)` provision every new node with the parameters of
its type.  Then for every finite OR-chain whose AND-chains consist of nodes
provisioned for their types, and fuel that covers the chains,
`OrCondition::Duplicate` returns an OR-chain of the same length; node `j` of it
has no AND-chain exactly when node `j` of the original has none, and otherwise
its AND-chain has the length of the original's and, node by node, the contents
(type tag, in-use count, the value of every slot) of the chain that
`Condition::Duplicate` returns for the AND-chain of the original node `j`.  So
an OR-chain with AND-chain lengths absent, 2, absent duplicates to three nodes
with AND-chain lengths absent, 2, absent. -/
theorem C4_OrCondition_Duplicate_shape (MAX : Nat) (numParamsOf : ConditionType → Nat)
    (ctor : ConditionCtor P) (hctor : Provisions MAX numParamsOf ctor)
    (fuelAnd fuel : Nat) (h : Heap P) (a0 : Nat)
    (T : List ((Addr × OrCondition) × List (Addr × Condition)))
    (hT : OrTree h (some a0) T)
    (hwf : ∀ x ∈ T, ∀ y ∈ x.2, y.2.ProvisionedIn numParamsOf h)
    (hlen : ∀ x ∈ T, x.2.length ≤ fuelAnd + 1)
    (hf : T.length ≤ fuel + 1) :
    ∃ (h2 : Heap P) (r : Addr) (T2 : List ((Addr × OrCondition) × List (Addr × Condition))),
      OrCondition.Duplicate ctor fuelAnd fuel h a0 = .ok (h2, r) ∧
      OrTree h2 (some r) T2 ∧ T2.length = T.length ∧
      ∀ (j : Nat) (x y : (Addr × OrCondition) × List (Addr × Condition)),
        T[j]? = some x → T2[j]? = some y →
        (y.1.2.m_firstAnd = none ↔ x.1.2.m_firstAnd = none) ∧ y.2.length = x.2.length ∧
        ∀ fa, x.1.2.m_firstAnd = some fa →
          ∃ (g : Heap P) (d : Addr) (Ld : List (Addr × Condition)),
            Condition.Duplicate ctor fuelAnd h fa = .ok (g, d) ∧
            AndChain g.conds (some d) Ld ∧ chainView h2 y.2 = chainView g Ld := by
  obtain ⟨h2, T2, hrun, hT2, hlen2, _, hentry⟩ :=
    copyOrChain_shape MAX numParamsOf (fun v => v) (fun _ _ => []) fuelAnd
      (Condition.Duplicate ctor fuelAnd)
      (fun g fa La hch hw hl =>
        (Duplicate_summary MAX numParamsOf ctor hctor fuelAnd g fa La hch hw hl).1)
      fuel h a0 T hT hwf hlen hf
  rw [← OrDuplicate_eq_copyOrChain] at hrun
  refine ⟨h2, _, T2, hrun, hT2, hlen2, ?_⟩
  intro j x y hx hy
  obtain ⟨hiff, hl, hview, _⟩ := hentry j x y hx hy
  refine ⟨hiff, hl, ?_⟩
  intro fa hfa
  have hxm : x ∈ T := List.getElem?_mem hx
  have hch := hT.2 x hxm
  rw [hfa] at hch
  obtain ⟨hrunA, hchainA, _, _, _, _, _, hviewA⟩ :=
    Duplicate_summary MAX numParamsOf ctor hctor fuelAnd h fa x.2 hch (hwf x hxm) (hlen x hxm)
  exact ⟨_, _, _, hrunA, hchainA, by rw [hview, hviewA]⟩

/-- C4 (instances): the three-node OR-chain of `paramHeap`, whose middle node has
an AND-chain of two `Condition`s that own the parameters 7, 8 and 9: the new
OR nodes are at addresses 3, 4, 5, the middle one owns the chain copied to
address 2, and the parameter pool ends with the three copies; and the
three-node OR-chain of `threeOrHeap` with the constructor of the
`THYME_STANDALONE` variant. -/
theorem C4_OrCondition_Duplicate_shape_witness :
    (Provisions 2 typeParams (registryCtor 2 typeParams (0 : Nat)) ∧
    OrTree paramHeap (some 0) paramTree ∧
    (∀ x ∈ paramTree, ∀ y ∈ x.2, y.2.ProvisionedIn typeParams paramHeap) ∧
    (∀ x ∈ paramTree, x.2.length ≤ 1 + 1) ∧
    paramTree.length ≤ 2 + 1 ∧
    (OrCondition.Duplicate (registryCtor 2 typeParams 0) 1 2 paramHeap 0).map
        (fun r => (r.1.ors.drop 3, r.1.params.drop 3, r.2)) =
      .ok ([some { m_nextOr := some 4, m_firstAnd := none },
            some { m_nextOr := some 5, m_firstAnd := some 2 },
            some { m_nextOr := none, m_firstAnd := none }],
           [some 7, some 8, some 9], 3) ∧
    ∃ (h2 : Heap Nat) (r : Addr) (T2 : List ((Addr × OrCondition) × List (Addr × Condition))),
      OrCondition.Duplicate (registryCtor 2 typeParams 0) 1 2 paramHeap 0 = .ok (h2, r) ∧
      OrTree h2 (some r) T2 ∧ T2.length = paramTree.length ∧
      ∀ (j : Nat) (x y : (Addr × OrCondition) × List (Addr × Condition)),
        paramTree[j]? = some x → T2[j]? = some y →
        (y.1.2.m_firstAnd = none ↔ x.1.2.m_firstAnd = none) ∧ y.2.length = x.2.length ∧
        ∀ fa, x.1.2.m_firstAnd = some fa →
          ∃ (g : Heap Nat) (d : Addr) (Ld : List (Addr × Condition)),
            Condition.Duplicate (registryCtor 2 typeParams 0) 1 paramHeap fa = .ok (g, d) ∧
            AndChain g.conds (some d) Ld ∧ chainView h2 y.2 = chainView g Ld) ∧
    (Provisions 2 (fun _ => 0) (new_Condition 2 : ConditionCtor Nat) ∧
    OrTree threeOrHeap (some 0) threeOrTree ∧
    (∀ x ∈ threeOrTree, ∀ y ∈ x.2, y.2.ProvisionedIn (fun _ => 0) threeOrHeap) ∧
    (∀ x ∈ threeOrTree, x.2.length ≤ 1 + 1) ∧
    threeOrTree.length ≤ 2 + 1 ∧
    ∃ (h2 : Heap Nat) (r : Addr) (T2 : List ((Addr × OrCondition) × List (Addr × Condition))),
      OrCondition.Duplicate (new_Condition 2) 1 2 threeOrHeap 0 = .ok (h2, r) ∧
      OrTree h2 (some r) T2 ∧ T2.length = threeOrTree.length ∧
      ∀ (j : Nat) (x y : (Addr × OrCondition) × List (Addr × Condition)),
        threeOrTree[j]? = some x → T2[j]? = some y →
        (y.1.2.m_firstAnd = none ↔ x.1.2.m_firstAnd = none) ∧ y.2.length = x.2.length ∧
        ∀ fa, x.1.2.m_firstAnd = some fa →
          ∃ (g : Heap Nat) (d : Addr) (Ld : List (Addr × Condition)),
            Condition.Duplicate (new_Condition 2) 1 threeOrHeap fa = .ok (g, d) ∧
            AndChain g.conds (some d) Ld ∧ chainView h2 y.2 = chainView g Ld) :=
  ⟨⟨registryCtor_Provisions 2 typeParams 0 typeParams_le, paramTree_ok, paramTree_provisioned,
    paramTree_fuel, by decide, rfl,
    C4_OrCondition_Duplicate_shape 2 typeParams (registryCtor 2 typeParams 0)
      (registryCtor_Provisions 2 typeParams 0 typeParams_le) 1 2 paramHeap 0 paramTree
      paramTree_ok paramTree_provisioned paramTree_fuel (by decide)⟩,
   ⟨new_Condition_Provisions 2, threeOrTree_ok, threeOrTree_provisioned, threeOrTree_fuel,
    by decide,
    C4_OrCondition_Duplicate_shape 2 (fun _ => 0) (new_Condition 2)
      (new_Condition_Provisions 2) 1 2 threeOrHeap 0 threeOrTree
      threeOrTree_ok threeOrTree_provisioned threeOrTree_fuel (by decide)⟩⟩

/-! ## `OrCondition::Duplicate_And_Qualify` -/

/-- C5: under the conditions of C4, for every triple of strings
`OrCondition::Duplicate_And_Qualify` returns an OR-chain with the shape of the
one `OrCondition::Duplicate` returns (same result pointer, same length, an
AND-chain at node `j` exactly when there is one at node `j` there, of the same
length), and each AND-chain it has holds, node by node, the contents of the
chain that `Condition::Duplicate_And_Qualify` returns, with the same three
strings, for the AND-chain of the original node. -/
theorem C5_OrCondition_Duplicate_And_Qualify_shape (MAX : Nat)
    (numParamsOf : ConditionType → Nat)
    (ctor : ConditionCtor P) (hctor : Provisions MAX numParamsOf ctor)
    (Qualify : P → AsciiString → AsciiString → AsciiString → P) (s1 s2 s3 : AsciiString)
    (fuelAnd fuel : Nat) (h : Heap P) (a0 : Nat)
    (T : List ((Addr × OrCondition) × List (Addr × Condition)))
    (hT : OrTree h (some a0) T)
    (hwf : ∀ x ∈ T, ∀ y ∈ x.2, y.2.ProvisionedIn numParamsOf h)
    (hlen : ∀ x ∈ T, x.2.length ≤ fuelAnd + 1)
    (hf : T.length ≤ fuel + 1) :
    ∃ (hD hQ : Heap P) (r : Addr)
        (TD TQ : List ((Addr × OrCondition) × List (Addr × Condition))),
      OrCondition.Duplicate ctor fuelAnd fuel h a0 = .ok (hD, r) ∧
      OrCondition.Duplicate_And_Qualify ctor Qualify s1 s2 s3 fuelAnd fuel h a0 = .ok (hQ, r) ∧
      OrTree hD (some r) TD ∧ OrTree hQ (some r) TQ ∧
      TQ.length = TD.length ∧ TQ.length = T.length ∧
      ∀ (j : Nat) (x yD yQ : (Addr × OrCondition) × List (Addr × Condition)),
        T[j]? = some x → TD[j]? = some yD → TQ[j]? = some yQ →
        (yQ.1.2.m_firstAnd = none ↔ yD.1.2.m_firstAnd = none) ∧
        yQ.2.length = yD.2.length ∧
        ∀ fa, x.1.2.m_firstAnd = some fa →
          ∃ (g : Heap P) (d : Addr) (Ld : List (Addr × Condition)),
            Condition.Duplicate_And_Qualify ctor Qualify s1 s2 s3 fuelAnd h fa = .ok (g, d) ∧
            AndChain g.conds (some d) Ld ∧ chainView hQ yQ.2 = chainView g Ld := by
  obtain ⟨hD, TD, hrunD, hTD, hlenD, _, hentryD⟩ :=
    copyOrChain_shape MAX numParamsOf (fun v => v) (fun _ _ => []) fuelAnd
      (Condition.Duplicate ctor fuelAnd)
      (fun g fa La hch hw hl =>
        (Duplicate_summary MAX numParamsOf ctor hctor fuelAnd g fa La hch hw hl).1)
      fuel h a0 T hT hwf hlen hf
  obtain ⟨hQ, TQ, hrunQ, hTQ, hlenQ, _, hentryQ⟩ :=
    copyOrChain_shape MAX numParamsOf (fun v => Qualify v s1 s2 s3)
      (fun a i => [Event.qualify a i]) fuelAnd
      (Condition.Duplicate_And_Qualify ctor Qualify s1 s2 s3 fuelAnd)
      (fun g fa La hch hw hl =>
        (Duplicate_And_Qualify_summary MAX numParamsOf ctor hctor Qualify s1 s2 s3 fuelAnd g fa
          La hch hw hl).1)
      fuel h a0 T hT hwf hlen hf
  rw [← OrDuplicate_eq_copyOrChain] at hrunD
  rw [← OrDuplicate_And_Qualify_eq_copyOrChain] at hrunQ
  refine ⟨hD, hQ, _, TD, TQ, hrunD, hrunQ, hTD, hTQ, by rw [hlenQ, hlenD], hlenQ, ?_⟩
  intro j x yD yQ hx hyD hyQ
  obtain ⟨hiffD, hlD, _, _⟩ := hentryD j x yD hx hyD
  obtain ⟨hiffQ, hlQ, hviewQ, _⟩ := hentryQ j x yQ hx hyQ
  refine ⟨hiffQ.trans hiffD.symm, by rw [hlQ, hlD], ?_⟩
  intro fa hfa
  have hxm : x ∈ T := List.getElem?_mem hx
  have hch := hT.2 x hxm
  rw [hfa] at hch
  obtain ⟨hrunA, hchainA, _, _, _, _, _, hviewA⟩ :=
    Duplicate_And_Qualify_summary MAX numParamsOf ctor hctor Qualify s1 s2 s3 fuelAnd h fa x.2
      hch (hwf x hxm) (hlen x hxm)
  exact ⟨_, _, _, hrunA, hchainA, by rw [hviewQ, hviewA]⟩

/-- C5 (instance): the three-node OR-chain of `paramHeap` with the transform that
adds 100: the copied parameters hold 107, 108 and 109. -/
theorem C5_OrCondition_Duplicate_And_Qualify_shape_witness :
    Provisions 2 typeParams (registryCtor 2 typeParams (0 : Nat)) ∧
    OrTree paramHeap (some 0) paramTree ∧
    (∀ x ∈ paramTree, ∀ y ∈ x.2, y.2.ProvisionedIn typeParams paramHeap) ∧
    (∀ x ∈ paramTree, x.2.length ≤ 1 + 1) ∧
    paramTree.length ≤ 2 + 1 ∧
    (OrCondition.Duplicate_And_Qualify (registryCtor 2 typeParams 0) addHundred "team"
          "player" "object" 1 2 paramHeap 0).map
        (fun r => (r.1.ors.drop 3, r.1.params.drop 3, r.2)) =
      .ok ([some { m_nextOr := some 4, m_firstAnd := none },
            some { m_nextOr := some 5, m_firstAnd := some 2 },
            some { m_nextOr := none, m_firstAnd := none }],
           [some 107, some 108, some 109], 3) ∧
    ∃ (hD hQ : Heap Nat) (r : Addr)
        (TD TQ : List ((Addr × OrCondition) × List (Addr × Condition))),
      OrCondition.Duplicate (registryCtor 2 typeParams 0) 1 2 paramHeap 0 = .ok (hD, r) ∧
      OrCondition.Duplicate_And_Qualify (registryCtor 2 typeParams 0) addHundred "team"
        "player" "object" 1 2 paramHeap 0 = .ok (hQ, r) ∧
      OrTree hD (some r) TD ∧ OrTree hQ (some r) TQ ∧
      TQ.length = TD.length ∧ TQ.length = paramTree.length ∧
      ∀ (j : Nat) (x yD yQ : (Addr × OrCondition) × List (Addr × Condition)),
        paramTree[j]? = some x → TD[j]? = some yD → TQ[j]? = some yQ →
        (yQ.1.2.m_firstAnd = none ↔ yD.1.2.m_firstAnd = none) ∧
        yQ.2.length = yD.2.length ∧
        ∀ fa, x.1.2.m_firstAnd = some fa →
          ∃ (g : Heap Nat) (d : Addr) (Ld : List (Addr × Condition)),
            Condition.Duplicate_And_Qualify (registryCtor 2 typeParams 0) addHundred "team"
              "player" "object" 1 paramHeap fa = .ok (g, d) ∧
            AndChain g.conds (some d) Ld ∧ chainView hQ yQ.2 = chainView g Ld :=
  ⟨registryCtor_Provisions 2 typeParams 0 typeParams_le, paramTree_ok, paramTree_provisioned,
    paramTree_fuel, by decide, rfl,
    C5_OrCondition_Duplicate_And_Qualify_shape 2 typeParams (registryCtor 2 typeParams 0)
      (registryCtor_Provisions 2 typeParams 0 typeParams_le)
      addHundred "team" "player" "object" 1 2 paramHeap 0 paramTree
      paramTree_ok paramTree_provisioned paramTree_fuel (by decide)⟩

/-! ## The duplications leave the original untouched -/

/-- C17: let `new Condition(type)` provision every new node with the parameters of
its type.  Then on every finite AND-chain `L` of provisioned nodes
`Condition::Duplicate` and `Condition::Duplicate_And_Qualify` return, and on
every finite OR-chain with AND-chains `T` of provisioned nodes
`OrCondition::Duplicate` and `OrCondition::Duplicate_And_Qualify` return, each
with a heap in which every `Condition`, `OrCondition` and parameter cell that
existed before the call is unchanged (`Heap.Preserves`).  So the original
chain is afterwards the same chain, node by node with the same type tag,
in-use count, slots and links, and every slot of it owns the value it owned
before: `Qualify` has rewritten parameters of the copy only. -/
theorem C17_duplication_leaves_receiver_unchanged (MAX : Nat)
    (numParamsOf : ConditionType → Nat)
    (ctor : ConditionCtor P) (hctor : Provisions MAX numParamsOf ctor)
    (Qualify : P → AsciiString → AsciiString → AsciiString → P) (s1 s2 s3 : AsciiString)
    (fuelAnd fuel : Nat) (h : Heap P) :
    (∀ (this : Nat) (L : List (Addr × Condition)),
      AndChain h.conds (some this) L →
      (∀ x ∈ L, x.2.ProvisionedIn numParamsOf h) → L.length ≤ fuelAnd + 1 →
      (∃ (h2 : Heap P) (r : Addr),
        Condition.Duplicate ctor fuelAnd h this = .ok (h2, r) ∧ h.Preserves h2 ∧
        AndChain h2.conds (some this) L ∧
        ∀ x ∈ L, ∀ (i : Nat) (v : P), x.2.value h i = some v → x.2.value h2 i = some v) ∧
      (∃ (h2 : Heap P) (r : Addr),
        Condition.Duplicate_And_Qualify ctor Qualify s1 s2 s3 fuelAnd h this = .ok (h2, r) ∧
        h.Preserves h2 ∧ AndChain h2.conds (some this) L ∧
        ∀ x ∈ L, ∀ (i : Nat) (v : P), x.2.value h i = some v → x.2.value h2 i = some v)) ∧
    (∀ (a0 : Nat) (T : List ((Addr × OrCondition) × List (Addr × Condition))),
      OrTree h (some a0) T →
      (∀ x ∈ T, ∀ y ∈ x.2, y.2.ProvisionedIn numParamsOf h) →
      (∀ x ∈ T, x.2.length ≤ fuelAnd + 1) → T.length ≤ fuel + 1 →
      (∃ (h2 : Heap P) (r : Addr),
        OrCondition.Duplicate ctor fuelAnd fuel h a0 = .ok (h2, r) ∧ h.Preserves h2 ∧
        OrTree h2 (some a0) T ∧
        ∀ x ∈ T, ∀ y ∈ x.2, ∀ (i : Nat) (v : P),
          y.2.value h i = some v → y.2.value h2 i = some v) ∧
      (∃ (h2 : Heap P) (r : Addr),
        OrCondition.Duplicate_And_Qualify ctor Qualify s1 s2 s3 fuelAnd fuel h a0 =
          .ok (h2, r) ∧
        h.Preserves h2 ∧ OrTree h2 (some a0) T ∧
        ∀ x ∈ T, ∀ y ∈ x.2, ∀ (i : Nat) (v : P),
          y.2.value h i = some v → y.2.value h2 i = some v)) := by
  refine ⟨fun this L hch hwfL hfL => ⟨?_, ?_⟩, fun a0 T hT hwf hlen hf => ⟨?_, ?_⟩⟩
  · obtain ⟨hrun, _, _, _, _, hpres, _, _⟩ :=
      Duplicate_summary MAX numParamsOf ctor hctor fuelAnd h this L hch hwfL hfL
    exact ⟨_, _, hrun, hpres, AndChain_preserved h _ hpres L _ hch,
      fun x _ i v hv => value_preserved h _ hpres.2.2 x.2 i v hv⟩
  · obtain ⟨hrun, _, _, _, _, hpres, _, _⟩ :=
      Duplicate_And_Qualify_summary MAX numParamsOf ctor hctor Qualify s1 s2 s3 fuelAnd h this
        L hch hwfL hfL
    exact ⟨_, _, hrun, hpres, AndChain_preserved h _ hpres L _ hch,
      fun x _ i v hv => value_preserved h _ hpres.2.2 x.2 i v hv⟩
  · obtain ⟨h2, T2, hrun, _, _, hpres, _⟩ :=
      copyOrChain_shape MAX numParamsOf (fun v => v) (fun _ _ => []) fuelAnd
        (Condition.Duplicate ctor fuelAnd)
        (fun g fa La hc hw hl =>
          (Duplicate_summary MAX numParamsOf ctor hctor fuelAnd g fa La hc hw hl).1)
        fuel h a0 T hT hwf hlen hf
    rw [← OrDuplicate_eq_copyOrChain] at hrun
    exact ⟨h2, _, hrun, hpres, OrTree_preserved h h2 hpres _ T hT,
      fun _ _ y _ i v hv => value_preserved h h2 hpres.2.2 y.2 i v hv⟩
  · obtain ⟨h2, T2, hrun, _, _, hpres, _⟩ :=
      copyOrChain_shape MAX numParamsOf (fun v => Qualify v s1 s2 s3)
        (fun a i => [Event.qualify a i]) fuelAnd
        (Condition.Duplicate_And_Qualify ctor Qualify s1 s2 s3 fuelAnd)
        (fun g fa La hc hw hl =>
          (Duplicate_And_Qualify_summary MAX numParamsOf ctor hctor Qualify s1 s2 s3 fuelAnd g
            fa La hc hw hl).1)
        fuel h a0 T hT hwf hlen hf
    rw [← OrDuplicate_And_Qualify_eq_copyOrChain] at hrun
    exact ⟨h2, _, hrun, hpres, OrTree_preserved h h2 hpres _ T hT,
      fun _ _ y _ i v hv => value_preserved h h2 hpres.2.2 y.2 i v hv⟩

/-- C17 (instance): the chain and the tree of `paramHeap`, with the transform that
adds 100: after `OrCondition::Duplicate_And_Qualify` the first three parameters
still hold 7, 8 and 9, the copies hold 107, 108 and 109. -/
theorem C17_duplication_leaves_receiver_unchanged_witness :
    Provisions 2 typeParams (registryCtor 2 typeParams (0 : Nat)) ∧
    AndChain paramHeap.conds (some 0) paramChain ∧
    (∀ x ∈ paramChain, x.2.ProvisionedIn typeParams paramHeap) ∧
    paramChain.length ≤ 1 + 1 ∧
    OrTree paramHeap (some 0) paramTree ∧
    (∀ x ∈ paramTree, ∀ y ∈ x.2, y.2.ProvisionedIn typeParams paramHeap) ∧
    (∀ x ∈ paramTree, x.2.length ≤ 1 + 1) ∧
    paramTree.length ≤ 2 + 1 ∧
    (OrCondition.Duplicate_And_Qualify (registryCtor 2 typeParams 0) addHundred "team"
          "player" "object" 1 2 paramHeap 0).map (fun r => r.1.params) =
      .ok [some 7, some 8, some 9, some 107, some 108, some 109] ∧
    (∃ (h2 : Heap Nat) (r : Addr),
      Condition.Duplicate (registryCtor 2 typeParams 0) 1 paramHeap 0 = .ok (h2, r) ∧
      paramHeap.Preserves h2 ∧ AndChain h2.conds (some 0) paramChain ∧
      ∀ x ∈ paramChain, ∀ (i : Nat) (v : Nat),
        x.2.value paramHeap i = some v → x.2.value h2 i = some v) ∧
    (∃ (h2 : Heap Nat) (r : Addr),
      Condition.Duplicate_And_Qualify (registryCtor 2 typeParams 0) addHundred "team" "player"
        "object" 1 paramHeap 0 = .ok (h2, r) ∧
      paramHeap.Preserves h2 ∧ AndChain h2.conds (some 0) paramChain ∧
      ∀ x ∈ paramChain, ∀ (i : Nat) (v : Nat),
        x.2.value paramHeap i = some v → x.2.value h2 i = some v) ∧
    (∃ (h2 : Heap Nat) (r : Addr),
      OrCondition.Duplicate (registryCtor 2 typeParams 0) 1 2 paramHeap 0 = .ok (h2, r) ∧
      paramHeap.Preserves h2 ∧ OrTree h2 (some 0) paramTree ∧
      ∀ x ∈ paramTree, ∀ y ∈ x.2, ∀ (i : Nat) (v : Nat),
        y.2.value paramHeap i = some v → y.2.value h2 i = some v) ∧
    (∃ (h2 : Heap Nat) (r : Addr),
      OrCondition.Duplicate_And_Qualify (registryCtor 2 typeParams 0) addHundred "team"
        "player" "object" 1 2 paramHeap 0 = .ok (h2, r) ∧
      paramHeap.Preserves h2 ∧ OrTree h2 (some 0) paramTree ∧
      ∀ x ∈ paramTree, ∀ y ∈ x.2, ∀ (i : Nat) (v : Nat),
        y.2.value paramHeap i = some v → y.2.value h2 i = some v) :=
  ⟨registryCtor_Provisions 2 typeParams 0 typeParams_le, ⟨rfl, rfl, rfl, rfl, rfl⟩,
    paramChain_provisioned, by decide, paramTree_ok, paramTree_provisioned, paramTree_fuel,
    by decide, rfl,
    ((C17_duplication_leaves_receiver_unchanged 2 typeParams (registryCtor 2 typeParams 0)
      (registryCtor_Provisions 2 typeParams 0 typeParams_le)
      addHundred "team" "player" "object" 1 2 paramHeap).1 0 paramChain
      ⟨rfl, rfl, rfl, rfl, rfl⟩ paramChain_provisioned (by decide)).1,
    ((C17_duplication_leaves_receiver_unchanged 2 typeParams (registryCtor 2 typeParams 0)
      (registryCtor_Provisions 2 typeParams 0 typeParams_le)
      addHundred "team" "player" "object" 1 2 paramHeap).1 0 paramChain
      ⟨rfl, rfl, rfl, rfl, rfl⟩ paramChain_provisioned (by decide)).2,
    ((C17_duplication_leaves_receiver_unchanged 2 typeParams (registryCtor 2 typeParams 0)
      (registryCtor_Provisions 2 typeParams 0 typeParams_le)
      addHundred "team" "player" "object" 1 2 paramHeap).2 0 paramTree
      paramTree_ok paramTree_provisioned paramTree_fuel (by decide)).1,
    ((C17_duplication_leaves_receiver_unchanged 2 typeParams (registryCtor 2 typeParams 0)
      (registryCtor_Provisions 2 typeParams 0 typeParams_le)
      addHundred "team" "player" "object" 1 2 paramHeap).2 0 paramTree
      paramTree_ok paramTree_provisioned paramTree_fuel (by decide)).2⟩

end Thyme
